import Mathlib

/-!
# Hypermail `parse.c`: a shallow embedding and its checked properties

C strings are modelled as the list of their bytes before the terminating NUL
(`CStr`); a byte is a natural number below 256.  A pointer into a string is the
suffix of the list that starts there; reading `*p` at the end of the list reads
the NUL.  The character classes are those of the "C" locale.
-/

set_option autoImplicit false

namespace Hypermail

/-! ## C strings and the `<ctype.h>` / `<string.h>` helpers used by parse.c -/

/-- A C string: the bytes before its terminating NUL. -/
abbrev CStr := List Nat

/-- The bytes of a string literal. -/
def cstr (s : String) : CStr := s.toList.map Char.toNat

/-- The function `tolower` of the C locale. -/
def tolower (c : Nat) : Nat := if 65 ≤ c ∧ c ≤ 90 then c + 32 else c

/-- The function `isspace` of the C locale: space, \t, \n, \v, \f, \r. -/
def isspace (c : Nat) : Bool := c == 32 || (9 ≤ c && c ≤ 13)

/-- The function `isdigit`. -/
def isdigit (c : Nat) : Bool := 48 ≤ c && c ≤ 57

/-- The function `isxdigit`. -/
def isxdigit (c : Nat) : Bool :=
  (48 ≤ c && c ≤ 57) || (65 ≤ c && c ≤ 70) || (97 ≤ c && c ≤ 102)

/-- The value of a hexadecimal digit. -/
def hexval (c : Nat) : Nat :=
  if 48 ≤ c ∧ c ≤ 57 then c - 48
  else if 65 ≤ c ∧ c ≤ 70 then c - 55
  else if 97 ≤ c ∧ c ≤ 102 then c - 87
  else 0

/-- The test `strcasecmp(a, b) == 0`. -/
def strcaseeq (a b : CStr) : Bool := a.map tolower == b.map tolower

/-- The test `strncasecmp(a, b, n) == 0`. -/
def strncaseeq (a b : CStr) (n : Nat) : Bool :=
  (a.take n).map tolower == (b.take n).map tolower

/-- The test `strncmp(a, b, n) == 0`. -/
def strneq (a b : CStr) (n : Nat) : Bool := a.take n == b.take n

/-! ## Enumerations of parse.c -/

/-- The enum `EncodeType`. -/
inductive EncodeType
  | ENCODE_NORMAL
  | ENCODE_QP
  | ENCODE_MULTILINED
  | ENCODE_BASE64
  | ENCODE_UUENCODE
  | ENCODE_UNKNOWN
  deriving DecidableEq, Repr

/-- The integer value of an `EncodeType` enumerator. -/
def EncodeType.toInt : EncodeType → Int
  | .ENCODE_NORMAL => 0
  | .ENCODE_QP => 1
  | .ENCODE_MULTILINED => 2
  | .ENCODE_BASE64 => 3
  | .ENCODE_UUENCODE => 4
  | .ENCODE_UNKNOWN => 5

/-- The enum `ContentType`. -/
inductive ContentType
  | CONTENT_TEXT
  | CONTENT_BINARY
  | CONTENT_HTML
  | CONTENT_IGNORE
  | CONTENT_UNKNOWN
  deriving DecidableEq, Repr

/-- The enum `FileStatus`. -/
inductive FileStatus
  | NO_FILE
  | MAKE_FILE
  | MADE_FILE
  deriving DecidableEq, Repr

/-- The enum `message_node_skip_t` (declared in a header; the four values used by parse.c). -/
inductive message_node_skip_t
  | MN_KEEP
  | MN_SKIP_ALL
  | MN_SKIP_BUT_KEEP_CHILDREN
  | MN_SKIP_STORED_ATTACHMENT
  deriving DecidableEq, Repr

/-- How a modelled C loop ends: it was left with a result (`done`), the C code
did something the language leaves undefined, such as stepping past the
terminator of a string or reading a variable never assigned (`undefined`), or
the iteration budget of the model ran out (`outOfFuel`). -/
inductive Outcome (α : Type)
  | done (a : α)
  | undefined
  | outOfFuel
  deriving DecidableEq, Repr

/-- What one pass through the body of a C loop does: go round again with a new
state (`next`), leave the loop (`exit`), or do something undefined. -/
inductive LoopStep (σ : Type)
  | next (st : σ)
  | exit (st : σ)
  | undefined
  deriving DecidableEq, Repr

/-- A C loop run for at most `fuel` passes through its body. -/
def runLoop {σ : Type} (body : σ → LoopStep σ) : Nat → σ → Outcome σ
  | 0, _ => .outOfFuel
  | fuel + 1, st =>
    match body st with
    | .next st2 => runLoop body fuel st2
    | .exit st2 => .done st2
    | .undefined => .undefined

/-! ## The alternative selector: `preferedcontent` -/

/-- Modelled from the spec: `inlist_pos` (defined outside parse.c) walks the configured
list from its head and returns the position of the first entry equal to the
string, compared without regard to letter case, or -1 when there is none. -/
def inlist_pos : List CStr → CStr → Int
  | [], _ => -1
  | e :: rest, s =>
    if strcaseeq e s then 0
    else
      let r := inlist_pos rest s
      if r = -1 then -1 else r + 1

/-- The function `preferedcontent`: the returned pair is (status, new `*current_weight`).
A NULL `set_prefered_types` is the empty list. -/
def preferedcontent (set_save_alts : Int) (set_prefered_types : List CStr)
    (current_weight : Int) (type : CStr) (decode : Int) : Int × Int :=
  if set_save_alts = 1 then (1, current_weight)
  else if strcaseeq (cstr "text/plain") type then
    if current_weight ≠ 0 then (1, 0) else (0, current_weight)
  else
    let weight : Int := -1
    let weight := if set_prefered_types ≠ [] then inlist_pos set_prefered_types type else weight
    let weight :=
      if weight = -1 then
        (if strncaseeq (cstr "text/") type 5 then 1000 else 2000 + decode)
      else weight
    if weight ≠ -1 then
      let weight := weight + 1
      if current_weight = -1 then (1, weight)
      else if current_weight > weight then (1, weight)
      else (0, current_weight)
    else (0, current_weight)

/-- The weight of a content type in the words of the specification: 0 for
text/plain, p+1 for a type at position p of the preferred-types list, 1001 for
any other text/* type, and 2001+d for everything else. -/
def specWeight (prefs : List CStr) (t : CStr) (d : EncodeType) : Int :=
  if strcaseeq (cstr "text/plain") t then 0
  else
    match prefs.findIdx? (fun e => strcaseeq e t) with
    | some p => (p : Int) + 1
    | none => if strncaseeq (cstr "text/") t 5 then 1001 else 2001 + d.toInt

/-! ## The message-part tree: `message_node_skip_status` -/

/-- The function `message_node_skip_status`. -/
def message_node_skip_status (file_created : FileStatus) (content : ContentType)
    (content_type : CStr) : message_node_skip_t :=
  if content = .CONTENT_IGNORE then .MN_SKIP_ALL
  else if strncaseeq content_type (cstr "multipart/") 10
      && decide (content = .CONTENT_BINARY) && decide (file_created = .NO_FILE) then
    .MN_SKIP_BUT_KEEP_CHILDREN
  else if content = .CONTENT_BINARY ∨ content = .CONTENT_UNKNOWN then
    .MN_SKIP_STORED_ATTACHMENT
  else .MN_KEEP

/-- The string `s` starts with the bytes of `pre`, letters compared without case. -/
def hasPrefixCI : CStr → CStr → Bool
  | [], _ => true
  | _ :: _, [] => false
  | p :: ps, c :: cs => tolower c == tolower p && hasPrefixCI ps cs

/-! ## The alternative selector inside `parsemail` -/

/-- The variables of `parsemail` that the alternative selector reads and writes
while `alternativeparser` is set. -/
structure AltState where
  alternative_weight : Int
  last_alternative_type : CStr
  deriving DecidableEq, Repr

/-- The block of `parsemail` guarded by `if (alternativeparser)` for one sibling
part: the result is the new selector state, the value of `content` when the
block is left, and whether `preferedcontent` accepted the part.  `force` is
`parse_multipart_alternative_force_save_alts` and `topIsAlt` the result of
`multipart_stack_top_has_type(multipartp, "multipart/alternative")`.  The type
buffer holds at most 128 bytes, so `strncpy` with bound 129 copies it whole. -/
def alternativeStep (set_save_alts local_set_save_alts : Int) (force topIsAlt : Bool)
    (prefs : List CStr) (st : AltState)
    (type : CStr) (decode : EncodeType) : AltState × ContentType × Bool :=
  if force && topIsAlt && decide (st.last_alternative_type ≠ [])
      && strcaseeq st.last_alternative_type (cstr "text/plain")
      && strcaseeq type (cstr "text/html") then
    (st, .CONTENT_IGNORE, false)
  else
    let r := preferedcontent set_save_alts prefs st.alternative_weight type decode.toInt
    if r.1 ≠ 0 then
      ({ alternative_weight := r.2, last_alternative_type := type.take 129 },
        .CONTENT_UNKNOWN, true)
    else if local_set_save_alts = 2 then
      ({ st with alternative_weight := r.2 }, .CONTENT_BINARY, false)
    else
      ({ st with alternative_weight := r.2 }, .CONTENT_IGNORE, false)

/-- The record of one run over the siblings of a multipart/alternative: the
selector state, the position of the last accepted sibling, and the content
class given to each sibling so far. -/
structure AltRun where
  st : AltState
  last : Option Nat
  classes : List ContentType
  deriving DecidableEq, Repr

/-- The siblings are processed in order; `idx` is the position of the first
sibling of the list. -/
def runAlternativesFrom (set_save_alts local_set_save_alts : Int) (force topIsAlt : Bool)
    (prefs : List CStr) : List (CStr × EncodeType) → Nat → AltRun → AltRun
  | [], _, acc => acc
  | (type, decode) :: rest, idx, acc =>
    let r := alternativeStep set_save_alts local_set_save_alts force topIsAlt prefs acc.st
      type decode
    runAlternativesFrom set_save_alts local_set_save_alts force topIsAlt prefs rest (idx + 1)
      { st := r.1, last := if r.2.2 then some idx else acc.last,
        classes := acc.classes ++ [r.2.1] }

/-- A whole multipart/alternative, entered with weight -1 and no last type. -/
def runAlternatives (set_save_alts local_set_save_alts : Int) (force topIsAlt : Bool)
    (prefs : List CStr) (siblings : List (CStr × EncodeType)) : AltRun :=
  runAlternativesFrom set_save_alts local_set_save_alts force topIsAlt prefs siblings 0
    { st := { alternative_weight := -1, last_alternative_type := [] }, last := none,
      classes := [] }

/-! ## Subject extraction: `isre` and `getsubject` -/

/-- The end pointer that `strtol(s, &end, 10)` stores: leading white space, an
optional sign and the decimal digits are passed; when there is no digit the
end pointer is the start of the string. -/
def strtol_end (s : CStr) : CStr :=
  let t := s.dropWhile isspace
  let u := match t with
    | c :: r => if c = 43 ∨ c = 45 then r else t
    | [] => t
  match u with
  | c :: _ => if isdigit c then u.dropWhile isdigit else s
  | [] => s

/-- The function `isre`: `none` is FALSE, `some e` is TRUE with `*end = e`. -/
def isre (re : CStr) : Option CStr :=
  if strncaseeq (cstr "Re:") re 3 then some (re.drop 3)
  else if strncaseeq (cstr "Fw:") re 3 then some (re.drop 3)
  else if strncaseeq (cstr "Re[") re 3 then
    let re := strtol_end (re.drop 3)
    if strneq (cstr "]:") re 2 then some (re.drop 2) else none
  else none

/-- The counting loop of `getsubject` from the pointer `c` with the counters
`i` and `len`: the final value of `len`. -/
def subjectLen : CStr → Nat → Nat → Nat
  | [], _, len => len
  | ch :: rest, i, len =>
    if ch = 10 ∨ ch = 13 then len
    else subjectLen rest (i + 1) (if isspace ch then len else i + 1)

/-- The function `getsubject`.  `replace` (defined outside parse.c) and the
macro `NOSUBJECT` are parameters; `set_stripsubject` is `none` when no strip
prefix is configured.  The result `none` is the NULL returned for a line
without a colon; a line that ends right after its colon makes the C code read
past the terminator and is given `none` as well. -/
def getsubject (replace : CStr → CStr → CStr → CStr) (set_stripsubject : Option CStr)
    (NOSUBJECT : CStr) (line : CStr) : Option CStr :=
  match line.dropWhile (fun ch => ch != 58) with
  | [] => none
  | _ :: afterColon =>
    match afterColon with
    | [] => none
    | _ :: c =>
      let c := match set_stripsubject with
        | some strip => replace c strip []
        | none => c
      let c := c.dropWhile isspace
      let startp := c
      let len := subjectLen c 0 0
      let len := match isre startp with
        | some postre =>
          (match postre with
           | [] => 0
           | ch :: _ => if ch = 10 ∨ ch = 13 then 0 else len)
        | none => len
      if len = 0 then some NOSUBJECT else some (startp.take len)

/-- The text that `getsubject` scans: the header value, from which `replace` has
removed the configured strip text when `set_stripsubject` is set. -/
def strippedSubject (replace : CStr → CStr → CStr → CStr) (set_stripsubject : Option CStr)
    (value : CStr) : CStr :=
  match set_stripsubject with
  | some strip => replace value strip []
  | none => value

/-- The first line of a string: the bytes before the first LF or CR. -/
def firstLine (s : CStr) : CStr := s.takeWhile (fun ch => ch != 10 && ch != 13)

/-- A string with its trailing white space removed. -/
def rtrim (s : CStr) : CStr := s.rdropWhile isspace

/-- A string with its leading white space removed. -/
def ltrim (s : CStr) : CStr := s.dropWhile isspace

/-- A reply marker in the words of the specification: "Re:", "Fw:" (letters in
any case) or "Re[" followed by decimal digits and "]:". -/
def isReplyMarker (m : CStr) : Bool :=
  strcaseeq m (cstr "Re:") || strcaseeq m (cstr "Fw:") ||
    (strcaseeq (m.take 3) (cstr "Re[") && (m.drop 3).dropWhile isdigit == cstr "]:")

/-- The pointer is at the end of a line: at the terminator, a LF or a CR. -/
def atLineEnd (s : CStr) : Bool :=
  match s with
  | [] => true
  | ch :: _ => ch == 10 || ch == 13

/-- The string starts with a reply marker that `isre` accepts and the marker is
immediately followed by the end of the line. -/
def markerOnly (s : CStr) : Bool :=
  match isre s with
  | some postre => atLineEnd postre
  | none => false

/-- The subject that `getsubject` extracts from a header value, stated without
the counters of the loop: the value loses its leading white space (line
terminators included); the placeholder stands for a first line without visible
character and for a reply marker alone on its line; anything else yields the
first line without its trailing white space. -/
def subjectOfValue (NOSUBJECT : CStr) (value : CStr) : CStr :=
  if rtrim (firstLine (ltrim value)) = [] ∨ markerOnly (ltrim value) = true then NOSUBJECT
  else rtrim (firstLine (ltrim value))

/-- The subject in the words of claim C5: the placeholder when the value has no
visible character before the end of its first line or is a reply marker
immediately followed by the end of the line, and otherwise the first line of
the value without leading and trailing white space. -/
def subjectAsClaimed (NOSUBJECT : CStr) (value : CStr) : CStr :=
  if (firstLine value).all isspace = true ∨ markerOnly value = true then NOSUBJECT
  else rtrim (ltrim (firstLine value))

/-! ## Quoted-printable body lines: `mdecodeQP` -/

/-- The value that `sscanf(input, "%02X", &value)` stores when `input` starts
with the hexadecimal digit `a` followed by the byte `b`: at most two digits are
read, and the conversion stops at the first byte that is not one. -/
def sscanf_02X (a b : Nat) : Nat :=
  if isxdigit b then 16 * hexval a + hexval b else hexval a

/-- The variables of `mdecodeQP`: the lines that `fgets` will still deliver from
`file`, the pointer `input`, the bytes stored in `output` with their count
`outcount`, and the string pushed on `pbuf`. -/
structure QPState where
  file : List CStr
  input : CStr
  output : List Nat
  outcount : Nat
  pbuf : CStr
  deriving DecidableEq, Repr

/-- The body of the `while` loop of `mdecodeQP`.  `realloc` is taken to succeed,
so the size bookkeeping of `output` has no effect and is left out; the copy of
each continuation line to the mbox (`set_append`) is an output of no
consequence here and is left out too. -/
def mdecodeQP_body (set_ietf_mbox : Nat) (st : QPState) : LoopStep QPState :=
  match st.input with
  | [] => .exit st
  | inchar :: input =>
    if inchar = 61 then
      match input with
      | [] =>
        .next { st with input := input, output := st.output ++ [61],
                        outcount := st.outcount + 1 }
      | c :: rest =>
        if c = 10 then
          match st.file with
          | [] => .exit { st with input := input }
          | i_buffer :: file =>
            let buffer := i_buffer.drop set_ietf_mbox
            .next { st with file := file, input := buffer, pbuf := st.pbuf ++ buffer }
        else if c = 61 then
          .next { st with input := rest, output := st.output ++ [61],
                          outcount := st.outcount + 1 }
        else if isxdigit c then
          match rest with
          | [] => .undefined
          | d :: rest2 =>
            .next { st with input := rest2, output := st.output ++ [sscanf_02X c d % 256],
                            outcount := st.outcount + 1 }
        else
          .next { st with input := input, output := st.output ++ [61],
                          outcount := st.outcount + 1 }
    else
      .next { st with input := input, output := st.output ++ [inchar],
                      outcount := st.outcount + 1 }

/-- The `while` loop of `mdecodeQP`, one iteration per unit of fuel. -/
def mdecodeQP_loop (set_ietf_mbox : Nat) (fuel : Nat) (st : QPState) : Outcome QPState :=
  runLoop (mdecodeQP_body set_ietf_mbox) fuel st

/-- An upper bound on the number of iterations left: every iteration passes a
byte of the input or takes a line from the file. -/
def qpMeasure (file : List CStr) (input : CStr) : Nat :=
  input.length + (file.map (fun l => l.length + 1)).sum

/-- The function `mdecodeQP(file, input, &result, &length, fpo)`: in the final
state `output` is `*result`, `outcount` is `*length`, `pbuf` the returned
string and `file` what is left to read. -/
def mdecodeQP (set_ietf_mbox : Nat) (file : List CStr) (input : CStr) : Outcome QPState :=
  mdecodeQP_loop set_ietf_mbox (qpMeasure file input + 1)
    { file := file, input := input, output := [], outcount := 0, pbuf := [] }

/-- A line in which each '=' is followed by two hexadecimal digits. -/
def wellFormedQP : CStr → Bool
  | [] => true
  | c :: rest =>
    if c = 61 then
      match rest with
      | x :: y :: rest2 => isxdigit x && isxdigit y && wellFormedQP rest2
      | _ => false
    else wellFormedQP rest

/-- The decoding in the words of the specification: each "=XY" becomes the
single byte of value 0xXY, every other byte is copied unchanged and in order. -/
def qpDecoded : CStr → List Nat
  | [] => []
  | c :: x :: y :: rest =>
    if c = 61 then (16 * hexval x + hexval y) :: qpDecoded rest
    else c :: qpDecoded (x :: y :: rest)
  | c :: rest => c :: qpDecoded rest

/-! ## Encoded words of RFC 2047: `extract_rfc2047_content` and `mdecodeRFC2047` -/

/-- One `%N[^x]` conversion of `sscanf`: the longest run of at most `limit`
bytes satisfying `p`; the conversion fails on an empty run.  The result is the
run and the input that follows it. -/
def scanSet (limit : Nat) (p : Nat → Bool) (s : CStr) : Option (CStr × CStr) :=
  let tok := (s.takeWhile p).take limit
  if tok = [] then none else some (tok, s.drop tok.length)

/-- A literal '?' of a `sscanf` format: the next byte has to be '?'. -/
def scanQuestion (s : CStr) : Option CStr :=
  match s with
  | c :: rest => if c = 63 then some rest else none
  | [] => none

/-- The test `3 == sscanf(s, "%128[^?]?%32[^?]?%128[^ ]", charset, encoding, dummy)`:
`some (charset, encoding)` when all three conversions succeed. -/
def sscanf_word (s : CStr) : Option (CStr × CStr) :=
  match scanSet 128 (fun c => c != 63) s with
  | none => none
  | some (charset, r1) =>
    match scanQuestion r1 with
    | none => none
    | some r2 =>
      match scanSet 32 (fun c => c != 63) r2 with
      | none => none
      | some (encoding, r3) =>
        match scanQuestion r3 with
        | none => none
        | some r4 =>
          match scanSet 128 (fun c => c != 32) r4 with
          | none => none
          | some _ => some (charset, encoding)

/-- The test `3 == sscanf(s, "%128[^?]?%32[^?]?%128[^?]?", charset, encoding, dummy)` of
the look-ahead after a decoded word. -/
def sscanf_next_word (s : CStr) : Option (CStr × CStr) :=
  match scanSet 128 (fun c => c != 63) s with
  | none => none
  | some (charset, r1) =>
    match scanQuestion r1 with
    | none => none
    | some r2 =>
      match scanSet 32 (fun c => c != 63) r2 with
      | none => none
      | some (encoding, r3) =>
        match scanQuestion r3 with
        | none => none
        | some r4 =>
          match scanSet 128 (fun c => c != 63) r4 with
          | none => none
          | some _ => some (charset, encoding)

/-- The call `strstr(s, "?=")`: the bytes before the first "?=", or `none` when
the string has no "?=". -/
def beforeQuestionEquals : CStr → Option CStr
  | [] => none
  | [_] => none
  | c :: d :: rest =>
    if c = 63 ∧ d = 61 then some []
    else (beforeQuestionEquals (d :: rest)).map (fun l => c :: l)

/-- The function `extract_rfc2047_content`: `none` is NULL.  `pushEmpty` is what
`RETURN_PUSH` yields for a buffer on which the empty content was pushed; the
push macros are defined outside parse.c. -/
def extract_rfc2047_content (pushEmpty : Option CStr) (iptr : CStr) : Option CStr :=
  match (iptr.drop 2).dropWhile (fun c => c != 63) with
  | [] => none
  | _ :: ptr =>
    match ptr with
    | e :: q :: content =>
      if (e = 81 ∨ e = 113 ∨ e = 66 ∨ e = 98) ∧ q = 63 then
        match beforeQuestionEquals content with
        | some blurb => if blurb = [] then pushEmpty else some blurb
        | none => none
      else none
    | _ => none

/-- The conversion `sscanf(s, "%02X", &value)` on arbitrary input: white space is
passed, then a field of at most two bytes is read, made of an optional sign and
hexadecimal digits.  The result is the value stored (as an `unsigned int`), or
`none` when nothing is stored. -/
def sscanf_02X_any (s : CStr) : Option Nat :=
  match s.dropWhile isspace with
  | [] => none
  | c :: r =>
    if c = 43 ∨ c = 45 then
      match r with
      | d :: _ =>
        if isxdigit d then some (if c = 45 then (2 ^ 32 - hexval d) % 2 ^ 32 else hexval d)
        else none
      | [] => none
    else if isxdigit c then
      match r with
      | d :: _ => some (sscanf_02X c d)
      | [] => some (hexval c)
    else none

/-- The `for` loop that decodes a "Q" payload: the bytes produced and the final
content of `value`, which keeps its old content when a conversion stores
nothing.  The result is `none` when `value` is written out before it was ever
assigned. -/
def qdecode (value : Option Nat) : CStr → Option (List Nat × Option Nat)
  | [] => some ([], value)
  | c :: rest =>
    if c = 61 then
      let value := match sscanf_02X_any rest with
        | some v => some v
        | none => value
      match value with
      | none => none
      | some v =>
        match rest with
        | _ :: _ :: rest2 => (qdecode value rest2).map (fun r => (v % 256 :: r.1, r.2))
        | _ => some ([v % 256], value)
    else if c = 95 then (qdecode value rest).map (fun r => (32 :: r.1, r.2))
    else (qdecode value rest).map (fun r => (c :: r.1, r.2))

/-- The variables of `mdecodeRFC2047`. -/
structure RFC2047State where
  iptr : CStr
  output : List Nat
  didanything : Bool
  value : Option Nat
  charsetsave : CStr
  deriving DecidableEq, Repr

/-- The bytes of a buffer read as a C string: those before the first NUL. -/
def asCString (buf : List Nat) : CStr := buf.takeWhile (fun c => c != 0)

/-- The test of the look-ahead of `mdecodeRFC2047`: the pointer is at the start
of something that the function will take for an encoded word. -/
def atEncodedWord (pushEmpty : Option CStr) (iptr : CStr) : Bool :=
  strneq iptr (cstr "=?") 2 && (sscanf_next_word (iptr.drop 2)).isSome &&
    (extract_rfc2047_content pushEmpty iptr).isSome

/-- The decoding of one payload in `mdecodeRFC2047`: the bytes appended to the
output, the new content of `value` and the new `charsetsave`; `none` when
`value` is written out before it was ever assigned.  `conv` is
`i18n_convstring(_, charset, "UTF-8", _)` in a build with HAVE_ICONV and `none`
in a build without; `b64` is `base64_decode_string`; both are defined outside
parse.c.  With HAVE_ICONV the decoded bytes reach the conversion as a C
string. -/
def decodePayload (conv : Option (CStr → CStr → CStr)) (b64 : CStr → List Nat)
    (charset encoding blurb : CStr) (value : Option Nat) (charsetsave : CStr) :
    Option (List Nat × Option Nat × CStr) :=
  if strcaseeq (cstr "q") encoding then
    match qdecode value blurb with
    | none => none
    | some (bytes, value2) =>
      match conv with
      | some f => some (f charset (asCString bytes), value2, charset.take 255)
      | none => some (bytes, value2, charsetsave)
  else if strcaseeq (cstr "b") encoding then
    match conv with
    | some f => some (f charset (asCString (b64 blurb)), value, charset.take 255)
    | none => some (b64 blurb, value, charsetsave)
  else some (cstr "<unknown>", value, charsetsave)

/-- The body of the `while` loop of `mdecodeRFC2047`. -/
def mdecodeRFC2047_body (conv : Option (CStr → CStr → CStr)) (b64 : CStr → List Nat)
    (pushEmpty : Option CStr) (st : RFC2047State) : LoopStep RFC2047State :=
  match st.iptr with
  | [] => .exit st
  | c :: rest =>
    match (if strneq st.iptr (cstr "=?") 2 then sscanf_word (st.iptr.drop 2) else none) with
    | none => .next { st with iptr := rest, output := st.output ++ [c] }
    | some (charset, encoding) =>
      match extract_rfc2047_content pushEmpty st.iptr with
      | none => .next { st with iptr := rest, output := st.output ++ [c] }
      | some blurb =>
        let iptr := st.iptr.drop
          (2 + charset.length + 1 + encoding.length + 1 + blurb.length + 2)
        match decodePayload conv b64 charset encoding blurb st.value st.charsetsave with
        | none => .undefined
        | some (bytes, value, charsetsave) =>
          let oldptr := iptr
          let iptr := iptr.dropWhile isspace
          let iptr := if atEncodedWord pushEmpty iptr then iptr else oldptr
          .next { iptr := iptr, output := st.output ++ bytes, didanything := true,
                  value := value, charsetsave := charsetsave }

/-- The `while` loop of `mdecodeRFC2047`, one iteration per unit of fuel. -/
def mdecodeRFC2047_loop (conv : Option (CStr → CStr → CStr)) (b64 : CStr → List Nat)
    (pushEmpty : Option CStr) (fuel : Nat) (st : RFC2047State) : Outcome RFC2047State :=
  runLoop (mdecodeRFC2047_body conv b64 pushEmpty) fuel st

/-- The function `mdecodeRFC2047(string, length, charsetsave)`: the returned
string and the final content of `charsetsave`.  The storage is returned, read
as a C string, when something was decoded, and the argument otherwise. -/
def mdecodeRFC2047 (conv : Option (CStr → CStr → CStr)) (b64 : CStr → List Nat)
    (pushEmpty : Option CStr) (string charsetsave : CStr) : Outcome (CStr × CStr) :=
  match mdecodeRFC2047_loop conv b64 pushEmpty (string.length + 1)
      { iptr := string, output := [], didanything := false, value := none,
        charsetsave := charsetsave } with
  | .done st => .done (if st.didanything then asCString st.output else string, st.charsetsave)
  | .undefined => .undefined
  | .outOfFuel => .outOfFuel

/-- An encoded word "=?charset?enc?text?=". -/
def encodedWord (charset enc text : CStr) : CStr :=
  cstr "=?" ++ charset ++ [63] ++ enc ++ [63] ++ text ++ cstr "?="

/-- A "Q" payload that `mdecodeRFC2047` decodes as RFC 2047 intends: it is not
empty, has no '?' and no space, and each '=' is followed by two hexadecimal
digits. -/
def wellFormedQ (text : CStr) : Bool :=
  text != [] && text.all (fun c => c != 63 && c != 32) && wellFormedQP text

/-- The "Q" decoding in the words of RFC 2047: "=XY" is the byte 0xXY, '_' is a
space, every other byte stands for itself. -/
def qDecoded : CStr → List Nat
  | [] => []
  | c :: x :: y :: rest =>
    if c = 61 then (16 * hexval x + hexval y) :: qDecoded rest
    else (if c = 95 then 32 else c) :: qDecoded (x :: y :: rest)
  | c :: rest => (if c = 95 then 32 else c) :: qDecoded rest

/-- An encoded word that `mdecodeRFC2047` decodes: a charset of 1 to 128 bytes
without '?', the encoding "Q" or "B" in either letter case, and a payload
without '?' that is a well-formed "Q" text, or for "B" is not empty and does
not start with a space. -/
def validWord (charset enc text : CStr) : Bool :=
  charset != [] && charset.all (fun c => c != 63) && decide (charset.length ≤ 128) &&
    (((enc == [81] || enc == [113]) && wellFormedQ text) ||
     ((enc == [66] || enc == [98]) && text != [] && text.all (fun c => c != 63) &&
        text.head? != some 32))

/-- The charset conversion applied to decoded bytes: with HAVE_ICONV the bytes
are converted as a C string, without it they are kept. -/
def applyConv (conv : Option (CStr → CStr → CStr)) (charset : CStr) (bytes : List Nat) :
    List Nat :=
  match conv with
  | some f => f charset (asCString bytes)
  | none => bytes

/-- The decoded text of a valid encoded word. -/
def decodedText (conv : Option (CStr → CStr → CStr)) (b64 : CStr → List Nat)
    (charset enc text : CStr) : List Nat :=
  if enc = [81] ∨ enc = [113] then applyConv conv charset (qDecoded text)
  else applyConv conv charset (b64 text)

/-- The content of `charsetsave` after a word of the given charset was decoded. -/
def savedCharset (conv : Option (CStr → CStr → CStr)) (charset old : CStr) : CStr :=
  match conv with
  | some _ => charset.take 255
  | none => old

/-- The encoding field is one that `extract_rfc2047_content` accepts: "Q" or "B"
in either letter case. -/
def supportedEncoding (enc : CStr) : Bool :=
  enc == [81] || enc == [113] || enc == [66] || enc == [98]

/-- The outcome with a function applied to the result of a finished run. -/
def Outcome.map {α β : Type} (f : α → β) : Outcome α → Outcome β
  | .done a => .done (f a)
  | .undefined => .undefined
  | .outOfFuel => .outOfFuel

/-- The state with a string put in front of what was pushed on `pbuf`. -/
def QPState.pushedAfter (p : CStr) (st : QPState) : QPState :=
  { st with pbuf := p ++ st.pbuf }

/-- The step with a function applied to the state it carries. -/
def LoopStep.map {σ : Type} (g : σ → σ) : LoopStep σ → LoopStep σ
  | .next st => .next (g st)
  | .exit st => .exit (g st)
  | .undefined => .undefined

/-! ## Header validation and charset conversion: `_validate_header`,
`header_detect_charset_and_convert_to_utf8` -/

/-- The function `_validate_header`; the argument `none` is a NULL pointer.
`i18n_is_valid_us_ascii` is defined outside parse.c and is a parameter. -/
def _validate_header (i18n_is_valid_us_ascii : CStr → Bool) (header_line : Option CStr) :
    Bool :=
  match header_line with
  | none => false
  | some line =>
    match line with
    | [] => false
    | first :: _ =>
      -- ptr = strstr(header_line, ":")
      match line.dropWhile (fun c => c != 58) with
      | [] => false
      | _ :: afterColon =>
        if first = 58 then false                       -- ptr == header_line
        else
          match afterColon with
          | [] => false                                 -- *(ptr + 1) == '\0'
          | sep :: _ =>
            if sep ≠ 32 ∧ sep ≠ 9 then false
            else
              match scanSet 127 (fun c => c != 58) line with
              | none => false                           -- !sscanf(...)
              | some (header_name, _) =>
                if (line.drop header_name.length).head? ≠ some 58 then false
                else if !i18n_is_valid_us_ascii header_name then false
                else
                  -- ptr = header_line + strlen(header_name) + 1; while (*ptr) ...
                  (line.drop (header_name.length + 1)).any
                    (fun c => c != 32 && c != 9 && c != 13 && c != 10)

/-- The i18n services that parse.c calls and that are defined outside it:
`i18n_is_valid_us_ascii`, `i18n_is_valid_utf8`, `i18n_convstring(s, from, "UTF-8", _)`
(the charset `from` may be a NULL pointer; the result is NULL on failure) and
`i18n_charset_detect`. -/
structure I18n where
  is_valid_us_ascii : CStr → Bool
  is_valid_utf8 : CStr → Bool
  convstring : CStr → Option CStr → Option CStr
  charset_detect : CStr → Option CStr

/-- One conversion attempt of `header_detect_charset_and_convert_to_utf8`: the
value is converted from the charset `from`, and the result is pushed when it is
not NULL and is valid UTF-8.  The result is the new `pbuf` and `did_anything`. -/
def convAttempt (i : I18n) (header_value : CStr) (from_charset : Option CStr)
    (pbuf : CStr) : CStr × Bool :=
  match i.convstring header_value from_charset with
  | some conv_string =>
    if i.is_valid_utf8 conv_string then (pbuf ++ conv_string, true) else (pbuf, false)
  | none => (pbuf, false)

/-- The function `header_detect_charset_and_convert_to_utf8(string, ct_charset,
charsetsave)`: the returned line and the final content of `charsetsave`.
`ct_charset` is `none` for a NULL pointer; `have_chardet_iconv` tells whether
the build defines HAVE_CHARDET and HAVE_ICONV.  The run is undefined when
`sscanf` assigns no header name or when fewer than two bytes follow the name,
since the C code then reads an unassigned buffer or steps past the terminator. -/
def header_detect_charset_and_convert_to_utf8 (i : I18n) (have_chardet_iconv : Bool)
    (string : CStr) (ct_charset : Option CStr) (charsetsave : CStr) : Outcome (CStr × CStr) :=
  if i.is_valid_us_ascii string then .done (string, charsetsave)
  else if i.is_valid_utf8 string then .done (string, cstr "UTF-8")
  else
    match scanSet 127 (fun c => c != 58) string with
    | none => .undefined
    | some (header_name, _) =>
      match string.drop header_name.length with
      | b1 :: b2 :: header_value =>
        let pbuf := header_name ++ [b1] ++ [b2]
        if have_chardet_iconv then
          -- let's try the charset if present in Content-Type
          let r1 : CStr × Bool :=
            if ct_charset.isSome ∧ ct_charset ≠ some [] then
              convAttempt i header_value ct_charset pbuf
            else (pbuf, false)
          -- nope, let's try the previous saved_charset
          let r2 : CStr × Bool :=
            if r1.2 = false ∧ charsetsave ≠ [] then
              convAttempt i header_value ct_charset r1.1
            else r1
          -- nope, let's try to libchardet
          let r3 : (CStr × Bool) × CStr :=
            if r2.2 = false then
              match i.charset_detect header_value with
              | some detected_charset =>
                if detected_charset ≠ [] then
                  let a := convAttempt i header_value (some detected_charset) r2.1
                  if a.2 then (a, detected_charset.take 255) else (a, charsetsave)
                else (r2, charsetsave)
              | none => (r2, charsetsave)
            else (r2, charsetsave)
          if r3.1.2 = false then .done (r3.1.1 ++ cstr "(invalid string)", r3.2)
          else .done (r3.1.1, r3.2)
        else .done (pbuf ++ cstr "(invalid string)", charsetsave)
      | _ => .undefined

/-- A UTF-8 validity test for the examples: lead bytes followed by the right
number of continuation bytes. -/
def sampleIsUtf8 : CStr → Bool
  | [] => true
  | b :: rest =>
    if b < 128 then sampleIsUtf8 rest
    else if 194 ≤ b ∧ b < 224 then
      match rest with
      | c1 :: rest2 => decide (128 ≤ c1 ∧ c1 < 192) && sampleIsUtf8 rest2
      | _ => false
    else if 224 ≤ b ∧ b < 240 then
      match rest with
      | c1 :: c2 :: rest2 =>
        decide (128 ≤ c1 ∧ c1 < 192) && decide (128 ≤ c2 ∧ c2 < 192) && sampleIsUtf8 rest2
      | _ => false
    else false

/-- The conversion of ISO-8859-1 bytes to UTF-8, for the examples. -/
def sampleLatin1ToUtf8 : CStr → CStr
  | [] => []
  | b :: rest =>
    if b < 128 then b :: sampleLatin1ToUtf8 rest
    else (192 + b / 64) :: (128 + b % 64) :: sampleLatin1ToUtf8 rest

/-- An instance of the i18n services for the examples: ASCII is bytes below
128, the only known source charset is "iso-8859-1", and detection finds
nothing. -/
def sampleI18n : I18n where
  is_valid_us_ascii := fun s => s.all (fun c => c < 128)
  is_valid_utf8 := sampleIsUtf8
  convstring := fun s from_charset =>
    if from_charset = some (cstr "iso-8859-1") then some (sampleLatin1ToUtf8 s) else none
  charset_detect := fun _ => none

/-- What a conversion attempt leaves in the buffer: nothing new, or a
conversion result that passed the UTF-8 check. -/
def AttemptOk (i : I18n) (value pbuf : CStr) (r : CStr × Bool) : Prop :=
  r = (pbuf, false) ∨
    ∃ c from_charset, i.convstring value from_charset = some c ∧ i.is_valid_utf8 c = true ∧
      r = (pbuf ++ c, true)

/-- The result described for a validated header line: the line itself when it
is valid US-ASCII or valid UTF-8, otherwise the header name, the two bytes
after it and a value that is a conversion result accepted by the UTF-8 check or
the text "(invalid string)", the latter whenever no conversion of the value passes
the check. -/
def ConvertedHeader (i : I18n) (line : CStr) (r : Outcome (CStr × CStr)) : Prop :=
  (i.is_valid_us_ascii line = true ∨ i.is_valid_utf8 line = true →
    ∃ cs, r = .done (line, cs)) ∧
  (i.is_valid_us_ascii line = false → i.is_valid_utf8 line = false →
    ∃ name sep value v cs, line = name ++ 58 :: sep :: value ∧ 58 ∉ name ∧
      r = .done (name ++ [58, sep] ++ v, cs) ∧
      (v = cstr "(invalid string)" ∨
        (i.is_valid_utf8 v = true ∧ ∃ f, i.convstring value f = some v)) ∧
      ((∀ f c, i.convstring value f = some c → i.is_valid_utf8 c = false) →
        v = cstr "(invalid string)"))

/-! ## The end of a part's header block, the node of an alternative, the
transfer decoder -/

/-- The test made in `parsemail` when a header block ends (and again before
the body of a part): more parts than `set_max_attach_per_msg` turn the content
into `CONTENT_IGNORE`. -/
def maxAttachLimit (set_max_attach_per_msg att_counter : Int) (content : ContentType) :
    ContentType :=
  if set_max_attach_per_msg ≠ 0 ∧ att_counter > set_max_attach_per_msg then .CONTENT_IGNORE
  else content

/-- The statements of `parsemail` after the header lines of a part have been
read: the limit on the number of parts, then `ignorecontent(type)`.  The result
is the value of `content` and whether the `continue` was taken.  `ignorecontent`
looks the type up in a configured list. -/
def headerBlockEnd (set_max_attach_per_msg att_counter : Int) (ignorecontent : CStr → Bool)
    (content : ContentType) (type : CStr) : ContentType × Bool :=
  let content := maxAttachLimit set_max_attach_per_msg att_counter content
  if content = .CONTENT_IGNORE then (content, true)
  else if ignorecontent type then (.CONTENT_IGNORE, true)
  else (content, false)

/-- The field `skip` of `current_message_node` after the `if (alternativeparser)`
block has handled one sibling: when `preferedcontent` accepts the sibling and
the node is flagged `alternative`, the node becomes `MN_SKIP_ALL`. -/
def alternativeNodeSkip (set_save_alts local_set_save_alts : Int) (force topIsAlt : Bool)
    (prefs : List CStr) (st : AltState) (type : CStr) (decode : EncodeType)
    (node_alternative : Bool) (node_skip : message_node_skip_t) : message_node_skip_t :=
  if (alternativeStep set_save_alts local_set_save_alts force topIsAlt prefs st type decode).2.2
      && node_alternative then .MN_SKIP_ALL
  else node_skip

/-- The variables `decode` and `b64_decoder_state` of `parsemail`; the decoder
state is `none` for a NULL pointer. -/
structure DecoderState where
  decode : EncodeType
  b64_decoder_state : Option Unit
  deriving DecidableEq, Repr

/-- The handling of a "Content-Transfer-Encoding:" header; `value` is the line
after the 26 bytes of the header name.  Uudecoding and the message for an
unknown encoding do not touch the two variables. -/
def contentTransferEncoding (value : CStr) (st : DecoderState) : DecoderState :=
  let ptr := value.dropWhile isspace
  if strncaseeq ptr (cstr "QUOTED-PRINTABLE") 16 then { st with decode := .ENCODE_QP }
  else if strncaseeq ptr (cstr "BASE64") 6 then
    { decode := .ENCODE_BASE64, b64_decoder_state := some () }
  else if strncaseeq ptr (cstr "8BIT") 4 then { st with decode := .ENCODE_NORMAL }
  else if strncaseeq ptr (cstr "7BIT") 4 then { st with decode := .ENCODE_NORMAL }
  else if strncaseeq ptr (cstr "x-uue") 5 then { st with decode := .ENCODE_UUENCODE }
  else st

/-- The reset made when a boundary line of the open multipart is met, when a
message ends, and at the end of the mailbox. -/
def resetDecoder (st : DecoderState) : DecoderState :=
  { decode := .ENCODE_NORMAL,
    b64_decoder_state := if st.decode = .ENCODE_BASE64 then none else st.b64_decoder_state }

/-- What happens to the two variables on the lines of a message part. -/
inductive PartEvent
  /-- A "Content-Transfer-Encoding:" header with the given value. -/
  | transferEncoding (value : CStr)
  /-- The Content-Type multipart/* with its boundary has been read and the lines
  up to the first start boundary are consumed. -/
  | startBoundary
  /-- A boundary line of the open multipart. -/
  | boundary
  /-- The end of the message. -/
  | messageEnd
  deriving DecidableEq, Repr

/-- The effect of one event on `decode` and `b64_decoder_state`.  The code that
scans for the first start boundary of a new multipart assigns neither. -/
def decoderStep (st : DecoderState) : PartEvent → DecoderState
  | .transferEncoding value => contentTransferEncoding value st
  | .startBoundary => st
  | .boundary => resetDecoder st
  | .messageEnd => resetDecoder st

/-- The two variables at the start of `parsemail`. -/
def initialDecoder : DecoderState :=
  { decode := .ENCODE_NORMAL, b64_decoder_state := none }

/-! ## Extraction of the date and of message ids: `getmaildate`, `getid`,
`getreply` -/

/-- Sequencing of computations that may be undefined. -/
def Outcome.bind {α β : Type} (o : Outcome α) (f : α → Outcome β) : Outcome β :=
  match o with
  | .done a => f a
  | .undefined => .undefined
  | .outOfFuel => .outOfFuel

/-- The library function `strstr`: the part of `hay` from the first occurrence
of `needle`, `none` when there is none. -/
def strstr : CStr → CStr → Option CStr
  | [], needle => if needle = [] then some [] else none
  | h :: t, needle =>
    if strneq (h :: t) needle needle.length then some (h :: t) else strstr t needle

/-- The library function `strrchr` for a byte other than NUL: the part of `s`
from the last occurrence of `c`. -/
def strrchr : CStr → Nat → Option CStr
  | [], _ => none
  | h :: t, c =>
    match strrchr t c with
    | some r => some r
    | none => if h = c then some (h :: t) else none

/-- The macro `RETURN_PUSH` (defined outside parse.c) applied to a buffer into
which the bytes `buff` were pushed; `pushEmpty` is its result for a buffer into
which nothing was pushed. -/
def RETURN_PUSH (pushEmpty : Option CStr) (buff : CStr) : Option CStr :=
  if buff = [] then pushEmpty else some buff

/-- The function `getmaildate`; the macros `NODATE` and `DATESTRLEN` are
parameters.  The counter `i` of the copying loop is never incremented, so the
loop is bounded by the end of the line alone.  A line without colon makes the
C code dereference NULL. -/
def getmaildate (NODATE : CStr) (DATESTRLEN : Int) (pushEmpty : Option CStr) (line : CStr) :
    Outcome (Option CStr) :=
  match line.dropWhile (fun ch => ch != 58) with
  | [] => .undefined
  | _ :: afterColon =>
    match afterColon with
    | [] => .done (RETURN_PUSH pushEmpty NODATE)
    | c1 :: rest =>
      if c1 = 10 ∨ c1 = 13 then .done (RETURN_PUSH pushEmpty NODATE)
      else
        let c := rest.dropWhile (fun ch => ch == 32 || ch == 9)
        if 0 < DATESTRLEN - 1 then
          .done (RETURN_PUSH pushEmpty (c.takeWhile (fun ch => ch != 10 && ch != 13)))
        else .done (RETURN_PUSH pushEmpty [])

/-- The bytes of an id: those before the first '>', LF or CR. -/
def untilClose (c : CStr) : CStr := c.takeWhile (fun ch => ch != 62 && ch != 10 && ch != 13)

/-- The bytes of a date phrase: those before the first '.', LF or CR. -/
def untilDot (c : CStr) : CStr := c.takeWhile (fun ch => ch != 46 && ch != 10 && ch != 13)

/-- The function `getid`: the text after the last '<' of the line, or after the
colon and the blanks that follow it when the line has no '<', up to '>' or
the end of the line, without backslashes; "BOZO" when that is empty.  A line
with neither '<' nor colon makes the C code step from a NULL pointer. -/
def getid (pushEmpty : Option CStr) (line : CStr) : Outcome (Option CStr) :=
  let start : Option CStr :=
    match strrchr line 60 with
    | none =>
      match line.dropWhile (fun ch => ch != 58) with
      | [] => none
      | _ :: c => some (c.dropWhile (fun ch => ch == 32 || ch == 9))
    | some r => some (r.drop 1)
  match start with
  | none => .undefined
  | some c =>
    let buff := (untilClose c).filter (fun ch => ch != 92)
    if buff.length = 0 then .done (RETURN_PUSH pushEmpty (cstr "BOZO"))
    else .done (RETURN_PUSH pushEmpty buff)

/-- The function `getreply`.  `angle` is `strchr(line, '<')`, empty when the line
has no '<'. -/
def getreply (pushEmpty : Option CStr) (line : CStr) : Option CStr :=
  let angle := line.dropWhile (fun ch => ch != 60)
  if (strstr line (cstr " from ")).isSome ∧ (strstr line (cstr " at ")).isSome ∧ angle ≠ [] then
    RETURN_PUSH pushEmpty (untilClose (angle.drop 1))
  else
    match strstr line (cstr "message of ") with
    | some c =>
      if angle ≠ [] then RETURN_PUSH pushEmpty (untilClose (angle.drop 1))
      else
        let c := (c.drop 11).dropWhile isspace
        let c := if c.head? = some 34 then c.drop 1 else c
        RETURN_PUSH pushEmpty (untilDot c)
    | none =>
      match strstr line (cstr "dated: ") with
      | some c => RETURN_PUSH pushEmpty (untilDot (c.drop 7))
      | none =>
        match strstr line (cstr "dated ") with
        | some c => RETURN_PUSH pushEmpty (untilDot (c.drop 6))
        | none =>
          if angle ≠ [] then
            RETURN_PUSH pushEmpty ((untilClose (angle.drop 1)).filter (fun ch => ch != 92))
          else
            match strstr line (cstr "sage of ") with
            | some c =>
              let c := c.drop 8
              let c := if c.head? = some 34 then c.drop 1 else c
              RETURN_PUSH pushEmpty
                (c.takeWhile (fun ch => ch != 46 && ch != 10 && ch != 13 && ch != 102))
            | none => some []

/-- The function `_unescape_reply_and_reference_values`: `none` is the NULL
returned when nothing is unescaped.  `lt` and `gt` are the offsets of " %3C" and
of "%3E" in the line.  When "%3E" comes first the length given to `PushNString`
is negative before its conversion to an unsigned type. -/
def _unescape_reply_and_reference_values (pushEmpty : Option CStr) (line : Option CStr) :
    Outcome (Option CStr) :=
  match line with
  | none => .done none
  | some [] => .done none
  | some (c0 :: rest) =>
    if c0 = 10 ∨ c0 = 13 then .done none
    else
      match strstr (c0 :: rest) (cstr " %3C"), strstr (c0 :: rest) (cstr "%3E") with
      | some ptr_lower_than, some ptr_greater_than =>
        let lt := (c0 :: rest).length - ptr_lower_than.length
        let gt := (c0 :: rest).length - ptr_greater_than.length
        if ((ptr_lower_than.drop 1).take (gt - (lt + 1))).any isspace then .done none
        else
          match ptr_greater_than.drop 3 with
          | [] => .done none
          | c :: _ =>
            if !isspace c then .done none
            else if gt < lt + 4 then .undefined
            else
              .done (RETURN_PUSH pushEmpty
                ((c0 :: rest).take (lt + 1) ++ [60] ++
                  (ptr_lower_than.drop 4).take (gt - lt - 4) ++ cstr ">" ++
                  ptr_greater_than.drop 3))
      | _, _ => .done none

/-! ## The header loop of `parsemail` -/

/-- What the header loop of `parsemail` takes from outside parse.c or from the
configuration: the i18n functions, the decoder of base64 text, the macros
`RETURN_PUSH`, `NOSUBJECT`, `NODATE` and `DATESTRLEN`, the functions
`rfc3676_ishardlb`, `strlftonl`, `getname`, `spamify` and `replace`, the
settings `set_spamprotect` and `set_stripsubject`; and two variables of
`parsemail` that the loop reads and does not assign: `charset` and
`message_headers_parsed`. -/
structure HeaderEnv where
  i18n : I18n
  have_chardet_iconv : Bool
  conv : Option (CStr → CStr → CStr)
  b64 : CStr → List Nat
  pushEmpty : Option CStr
  rfc3676_ishardlb : CStr → Bool
  strlftonl : CStr → CStr
  getname : CStr → Option CStr × Option CStr
  set_spamprotect : Bool
  spamify : Option CStr → Option CStr
  replace : CStr → CStr → CStr → CStr
  set_stripsubject : Option CStr
  NOSUBJECT : CStr
  NODATE : CStr
  DATESTRLEN : Int
  charset : Option CStr
  message_headers_parsed : Bool

/-- The variables of `parsemail` that hold what the header loop records for the
message; `none` is a NULL pointer. -/
structure HeaderVars where
  charsetsave : CStr
  hasdate : Bool
  date : Option CStr
  namep : Option CStr
  emailp : Option CStr
  msgid : Option CStr
  hassubject : Bool
  subject : Option CStr
  inreply : Option CStr
  deriving DecidableEq, Repr

/-- The variables when `parsemail` starts on a message. -/
def initialHeaderVars (NOSUBJECT : CStr) : HeaderVars :=
  { charsetsave := [], hasdate := false, date := none, namep := none, emailp := none,
    msgid := none, hassubject := false, subject := some NOSUBJECT, inreply := none }

/-- The branch of the `if` ... `else if` chain of the header loop that a line
takes. -/
inductive HeaderKind
  | received
  | date
  | from_
  | to
  | messageId
  | subject
  | inReplyTo
  | references
  | other
  deriving DecidableEq, Repr

/-- The tests of the chain, in the order of the code; the first one compares
8 bytes only. -/
def headerKind (line : CStr) : HeaderKind :=
  if strncaseeq line (cstr "Received:") 8 then .received
  else if strncaseeq line (cstr "Date:") 5 then .date
  else if strncaseeq line (cstr "From:") 5 then .from_
  else if strncaseeq line (cstr "To:") 3 then .to
  else if strncaseeq line (cstr "Message-Id:") 11 then .messageId
  else if strncaseeq line (cstr "Subject:") 8 then .subject
  else if strncaseeq line (cstr "In-Reply-To:") 12 then .inReplyTo
  else if strncaseeq line (cstr "References:") 11 then .references
  else .other

/-- The line of a reply header with `_unescape_reply_and_reference_values`
applied: the line is replaced when the function returns a string. -/
def unescaped (pushEmpty : Option CStr) (line : CStr) : Outcome CStr :=
  (_unescape_reply_and_reference_values pushEmpty (some line)).bind fun r =>
    match r with
    | some u => .done u
    | none => .done line

/-- The chain of tests on `head->line` in the header loop, for a line that was
validated and decoded: what it does to the recorded variables.  The branches
after "References:" (the Apple-mail header) assign none of them. -/
def headerDispatch (env : HeaderEnv) (st : HeaderVars) (line : CStr) : Outcome HeaderVars :=
  match headerKind line with
  | .received => .done st
  | .date =>
    let line := env.strlftonl line
    if !env.message_headers_parsed then
      if st.hasdate then .done st
      else
        (getmaildate env.NODATE env.DATESTRLEN env.pushEmpty line).bind fun d =>
          .done { st with date := d, hasdate := true }
    else .done st
  | .from_ =>
    let line := env.strlftonl line
    if !env.message_headers_parsed then
      if st.namep.isSome ∨ st.emailp.isSome then .done st
      else
        (header_detect_charset_and_convert_to_utf8 env.i18n env.have_chardet_iconv line
          env.charset st.charsetsave).bind fun r =>
          let names := env.getname r.1
          let names := if env.set_spamprotect then (env.spamify names.1, env.spamify names.2)
            else names
          .done { st with charsetsave := r.2, namep := names.1, emailp := names.2 }
    else .done st
  | .to =>
    (header_detect_charset_and_convert_to_utf8 env.i18n env.have_chardet_iconv line
      env.charset st.charsetsave).bind fun r =>
      .done { st with charsetsave := r.2 }
  | .messageId =>
    let line := env.strlftonl line
    if !env.message_headers_parsed then
      if st.msgid.isSome then .done st
      else (getid env.pushEmpty line).bind fun m => .done { st with msgid := m }
    else .done st
  | .subject =>
    (header_detect_charset_and_convert_to_utf8 env.i18n env.have_chardet_iconv line
      env.charset st.charsetsave).bind fun r =>
      let line := env.strlftonl r.1
      let st := { st with charsetsave := r.2 }
      if !env.message_headers_parsed then
        if st.hassubject then .done st
        else
          .done { st with
            subject := getsubject env.replace env.set_stripsubject env.NOSUBJECT line,
            hassubject := true }
      else .done st
  | .inReplyTo =>
    let line := env.strlftonl line
    (unescaped env.pushEmpty line).bind fun line =>
      if !env.message_headers_parsed then
        .done { st with inreply := getreply env.pushEmpty line }
      else .done st
  | .references =>
    if !env.message_headers_parsed then
      (unescaped env.pushEmpty line).bind fun line =>
        if st.inreply.isNone then
          (getid env.pushEmpty line).bind fun r => .done { st with inreply := r }
        else .done st
    else .done st
  | .other => .done st

/-- The start of the body of the header loop for a line not seen before: a hard
line break and a line that `_validate_header` rejects are passed over (`none`);
any other line is decoded by `mdecodeRFC2047`, and passed over as well when
nothing precedes its colon.  The tests against the configured lists of header
names and filters that follow in the code assign none of the recorded
variables. -/
def headerPrelude (env : HeaderEnv) (charsetsave : CStr) (line : CStr) :
    Outcome (Option (CStr × CStr)) :=
  if env.rfc3676_ishardlb line then .done none
  else if !_validate_header env.i18n.is_valid_us_ascii (some line) then .done none
  else
    (mdecodeRFC2047 env.conv env.b64 env.pushEmpty line charsetsave).bind fun r =>
      .done (some r)

/-- One pass through the body of the header loop. -/
def headerLine (env : HeaderEnv) (st : HeaderVars) (line : CStr) : Outcome HeaderVars :=
  (headerPrelude env st.charsetsave line).bind fun r =>
    match r with
    | none => .done st
    | some (decoded, charsetsave) =>
      let st := { st with charsetsave := charsetsave }
      if decoded.head? = some 58 then .done st
      else headerDispatch env st decoded

/-- The header loop over the lines of a header block. -/
def parseHeaders (env : HeaderEnv) : List CStr → HeaderVars → Outcome HeaderVars
  | [], st => .done st
  | line :: rest, st => (headerLine env st line).bind (parseHeaders env rest)

/-- The branch of the chain that a line of the block reaches, `none` for a line
that is passed over before. -/
def headerKindOf (env : HeaderEnv) (st : HeaderVars) (line : CStr) : Option HeaderKind :=
  match headerPrelude env st.charsetsave line with
  | .done (some (decoded, _)) =>
    if decoded.head? = some 58 then none else some (headerKind decoded)
  | _ => none

/-- The branches reached by the lines of a block, in order. -/
def kindsSeen (env : HeaderEnv) : List CStr → HeaderVars → List (Option HeaderKind)
  | [], _ => []
  | line :: rest, st =>
    headerKindOf env st line ::
      (match headerLine env st line with
       | .done st2 => kindsSeen env rest st2
       | _ => [])

/-- An environment for the examples: no charset conversion available, `strlftonl`
and `spamify` leaving their argument as it is, no sender extracted. -/
def sampleEnv : HeaderEnv :=
  { i18n := sampleI18n, have_chardet_iconv := true, conv := none, b64 := fun _ => [],
    pushEmpty := none, rfc3676_ishardlb := fun l => l == [10], strlftonl := fun l => l,
    getname := fun _ => (none, none), set_spamprotect := false, spamify := fun x => x,
    replace := fun s _ _ => s, set_stripsubject := none, NOSUBJECT := cstr "No Subject",
    NODATE := cstr "(no date)", DATESTRLEN := 80, charset := none,
    message_headers_parsed := false }

/-! ## Reply markers: `isre` and `findre` -/

/-- The text that `strtol(_, _, 10)` passes over in front of "]:": nothing at
all, or white space, an optional sign and at least one decimal digit. -/
def StrtolText (n : CStr) : Prop :=
  n = [] ∨ ∃ ws sign digits, n = ws ++ sign ++ digits ∧ (∀ x ∈ ws, isspace x = true) ∧
    (sign = [] ∨ sign = [43] ∨ sign = [45]) ∧ digits ≠ [] ∧ ∀ d ∈ digits, isdigit d = true

/-- A reply marker as `isre` accepts it: "Re:" or "Fw:" in any letter case, or "Re["
in any letter case, a text that `strtol` passes over, and "]:". -/
def AcceptedMarker (m : CStr) : Prop :=
  strcaseeq m (cstr "Re:") = true ∨ strcaseeq m (cstr "Fw:") = true ∨
    ∃ head n, m = head ++ n ++ cstr "]:" ∧ strcaseeq head (cstr "Re[") = true ∧ StrtolText n

/-- The function `findre`: `none` is NULL, `some (p, e)` the returned position
with `*end = e`.  The loop goes on over white space only. -/
def findre : CStr → Option (CStr × CStr)
  | [] => none
  | c :: rest =>
    match isre (c :: rest) with
    | some e => some (c :: rest, e)
    | none => if isspace c then findre rest else none

/-! ## Encoded words: what `mdecodeRFC2047` leaves in `charsetsave` -/

/-- The charset labels of the encoded words that the loop of `mdecodeRFC2047`
decodes from the pointer `iptr` on, in order: at each position the tests of the
loop decide whether an encoded word starts there; a word with the encoding "q"
or "b" contributes its label and the scan goes on after it, passing white
space that is followed by another encoded word. -/
def decodedCharsets (pushEmpty : Option CStr) : Nat → CStr → List CStr
  | 0, _ => []
  | _ + 1, [] => []
  | fuel + 1, c :: rest =>
    match (if strneq (c :: rest) (cstr "=?") 2 then sscanf_word ((c :: rest).drop 2)
        else none) with
    | none => decodedCharsets pushEmpty fuel rest
    | some (charset, encoding) =>
      match extract_rfc2047_content pushEmpty (c :: rest) with
      | none => decodedCharsets pushEmpty fuel rest
      | some blurb =>
        let after := (c :: rest).drop
          (2 + charset.length + 1 + encoding.length + 1 + blurb.length + 2)
        let next := if atEncodedWord pushEmpty (after.dropWhile isspace)
          then after.dropWhile isspace else after
        if strcaseeq (cstr "q") encoding || strcaseeq (cstr "b") encoding then
          charset :: decodedCharsets pushEmpty fuel next
        else decodedCharsets pushEmpty fuel next

/-- The charset label of the last encoded word that `mdecodeRFC2047` decodes in
a string, `none` when it decodes none. -/
def lastDecodedCharset (pushEmpty : Option CStr) (string : CStr) : Option CStr :=
  (decodedCharsets pushEmpty (string.length + 1) string).getLast?

/-- The content of `charsetsave` after `mdecodeRFC2047`, given the label of the last
encoded word decoded: in a build with HAVE_ICONV the first 255 bytes of that
label, and the previous content when no word was decoded or in a build without
HAVE_ICONV. -/
def savedAfter (conv : Option (CStr → CStr → CStr)) (last : Option CStr) (old : CStr) : CStr :=
  match conv, last with
  | some _, some charset => charset.take 255
  | _, _ => old

/-! ## Lines of the main loop of `parsemail`: separators, the MIME epilogue,
header continuations -/

/-- The function `getfromdate`: the text of the line from the first name of the
array `days` (defined outside parse.c) that occurs in it, up to the end of the
line and at most `DATESTRLEN - 1` bytes; empty when no name occurs. -/
def getfromdate (days : List CStr) (DATESTRLEN : Int) (line : CStr) : CStr :=
  match days.findSome? (fun day => strstr line day) with
  | none => []
  | some c => (c.takeWhile (fun ch => ch != 10 && ch != 13)).take (DATESTRLEN - 1).toNat

/-- The test of `parsemail` on a line read outside the headers: the line ends the
message and starts the next one.  `line_buf` is the line as read and `line` is
`line_buf + set_ietf_mbox`. -/
def isMessageSeparator (readone : Bool) (days : List CStr) (DATESTRLEN : Int)
    (set_ietf_mbox : Nat) (line_buf : CStr) : Bool :=
  !readone && strneq line_buf (cstr "From ") 5 &&
    decide (getfromdate days DATESTRLEN (line_buf.drop set_ietf_mbox) ≠ [])

/-- The function `_is_signature_separator`: the line is "--" alone, or "--" followed
by a space, a CR or a LF. -/
def _is_signature_separator (line : CStr) : Bool :=
  strneq line (cstr "--") 2 &&
    (decide (line.length = 2) ||
      (decide (line.length > 2) &&
        (line.drop 2).head? ∈ [some 32, some 13, some 10]))

/-- The test made at the top of the main loop while `skip_mime_epilogue` is set:
the line is passed over (`continue`).  `boundary_stack_has_id` (defined outside
parse.c) tells whether the line carries a boundary of the stack. -/
def epilogueLineSkipped (boundary_stack_has_id : CStr → Bool) (set_ietf_mbox : Nat)
    (line_buf : CStr) : Bool :=
  let line := line_buf.drop set_ietf_mbox
  (!strneq line (cstr "--") 2 || _is_signature_separator line || !boundary_stack_has_id line) &&
    !strncaseeq line_buf (cstr "From ") 5

/-- The top of the main loop for one line: the new value of `skip_mime_epilogue`
and whether the line is passed over. -/
def epilogueStep (boundary_stack_has_id : CStr → Bool) (set_ietf_mbox : Nat)
    (skip_mime_epilogue : Bool) (line_buf : CStr) : Bool × Bool :=
  if skip_mime_epilogue then
    if epilogueLineSkipped boundary_stack_has_id set_ietf_mbox line_buf then (true, true)
    else (false, false)
  else (false, false)

/-- What `parsemail` does with a line read while `isinheader` is set. -/
inductive HeaderModeLine
  /-- A line "From ": `fromdate` receives the date found by `getfromdate`. -/
  | fromLine (fromdate : CStr)
  /-- A line "MIME-Version:": `Mime_B` is set. -/
  | mimeVersion
  /-- A line "Content-Type:", stored as a header line without anti-spam. -/
  | contentType (stored : CStr)
  /-- A continuation of the previous header line: the text stored with
  `BODY_CONTINUE`. -/
  | continuation (stored : CStr)
  /-- The empty line that ends the headers. -/
  | endOfHeader
  /-- Any other line, stored as a header line. -/
  | header (stored : CStr)
  deriving DecidableEq, Repr

/-- The chain of tests of `parsemail` on a line read while `isinheader` is set.  In
the continuation branch the pointer passes the white space, steps back by one and
a space is written there. -/
def headerModeLine (days : List CStr) (DATESTRLEN : Int) (set_ietf_mbox : Nat)
    (line_buf : CStr) : HeaderModeLine :=
  let line := line_buf.drop set_ietf_mbox
  if strncaseeq line_buf (cstr "From ") 5 then .fromLine (getfromdate days DATESTRLEN line)
  else if strncaseeq line (cstr "MIME-Version:") 13 then .mimeVersion
  else if strncaseeq line (cstr "Content-Type:") 13 then .contentType line
  else if (line.head?.map isspace = some true) ∧ line.head? ≠ some 10 ∧
      ¬ (line.head? = some 13 ∧ (line.drop 1).head? = some 10) then
    .continuation (32 :: line.dropWhile isspace)
  else if line.head? = some 10 ∨ (line.head? = some 13 ∧ (line.drop 1).head? = some 10) then
    .endOfHeader
  else .header line

/-- The three-letter English day names, as an example of the array `days`. -/
def sampleDays : List CStr :=
  [cstr "Sun", cstr "Mon", cstr "Tue", cstr "Wed", cstr "Thu", cstr "Fri", cstr "Sat"]

/-! ## An unknown Content-Transfer-Encoding and the decoding of body lines -/

/-- The five tests of `parsemail` on the value of a "Content-Transfer-Encoding:"
header, white space passed: one of the names compared there starts the value. -/
def recognisedEncoding (ptr : CStr) : Bool :=
  strncaseeq ptr (cstr "QUOTED-PRINTABLE") 16 || strncaseeq ptr (cstr "BASE64") 6 ||
    strncaseeq ptr (cstr "8BIT") 4 || strncaseeq ptr (cstr "7BIT") 4 ||
    strncaseeq ptr (cstr "x-uue") 5

/-- The conversion `%63s` of `sscanf`: white space is passed and at most 63 bytes
that are not white space are taken; `none` is the result EOF for an input that
ends before such a byte. -/
def sscanf_63s (s : CStr) : Option CStr :=
  match s.dropWhile isspace with
  | [] => none
  | c :: rest => some ((c :: rest).takeWhile (fun ch => !isspace ch) |>.take 63)

/-- The last branch of the handling of a "Content-Transfer-Encoding:" header: the
line that is added to the body for a value that none of the five tests
accepts, `none` when no line is added.  The text is " ('code' message)" and a
line end, cut to the size of the line buffer; the message
`lang[MSG_ENCODING_IS_NOT_SUPPORTED]` and `MAXLINE` come from outside parse.c. -/
def transferEncodingWarning (MSG_ENCODING_IS_NOT_SUPPORTED : CStr) (MAXLINE set_ietf_mbox : Nat)
    (value : CStr) : Option CStr :=
  let ptr := value.dropWhile isspace
  if strncaseeq ptr (cstr "QUOTED-PRINTABLE") 16 then none
  else if strncaseeq ptr (cstr "BASE64") 6 then none
  else if strncaseeq ptr (cstr "8BIT") 4 then none
  else if strncaseeq ptr (cstr "7BIT") 4 then none
  else if strncaseeq ptr (cstr "x-uue") 5 then none
  else
    match sscanf_63s ptr with
    | none => none
    | some code =>
      some (([32, 40, 39] ++ code ++ [39, 32] ++ MSG_ENCODING_IS_NOT_SUPPORTED ++ [41, 10]).take
        (MAXLINE - set_ietf_mbox - 1))

/-- The `switch (decode)` of `parsemail` on a body line: the decoded data (`none` for
`data = NULL`) and what is left of the file.  `base64_decode_stream` and
`uudecode` are defined outside parse.c. -/
def decodeSwitch (set_ietf_mbox : Nat) (base64_decode_stream uudecode : CStr → List Nat)
    (decode : EncodeType) (file : List CStr) (line : CStr) :
    Outcome (Option (List Nat) × List CStr) :=
  match decode with
  | .ENCODE_QP => (mdecodeQP set_ietf_mbox file line).map (fun st => (some st.output, st.file))
  | .ENCODE_BASE64 => .done (some (base64_decode_stream line), file)
  | .ENCODE_UUENCODE => .done (some (uudecode line), file)
  | .ENCODE_NORMAL => .done (some line, file)
  | _ => .done (none, file)

/-! ## The boundary stack and the alternative selection -/

/-- The variables of `parsemail` that a frame of the boundary stack saves while a
nested multipart is parsed; a pointer is `none` when NULL. -/
structure AlternativeVars where
  alternativeparser : Bool
  alternative_weight : Int
  alternative_message_node_created : Bool
  alternative_file : CStr
  alternative_lastfile : CStr
  last_alternative_type : CStr
  alternative_lp : Option Nat
  alternative_bp : Option Nat
  current_alt_message_node : Option Nat
  root_alt_message_node : Option Nat
  deriving DecidableEq, Repr

/-- A frame of the boundary stack (`struct boundary_stack`, declared outside
parse.c): the boundary, the saved alternative variables and the saved
settings. -/
structure BoundaryFrame where
  boundary_id : CStr
  saved : AlternativeVars
  parse_multipart_alternative_force_save_alts : Int
  applemail_old_set_save_alts : Int
  set_save_alts : Int
  deriving DecidableEq, Repr

/-- The variables of `parsemail` that the push and the pop of a frame read or
assign. -/
structure MultipartVars where
  alt : AlternativeVars
  alternative_lastfile_created : FileStatus
  parse_multipart_alternative_force_save_alts : Int
  applemail_old_set_save_alts : Int
  local_set_save_alts : Int
  deriving DecidableEq, Repr

/-- The statements of `parsemail` that enter a multipart once its start boundary
is found: when alternatives are being parsed, the alternative variables go into
the top frame and are cleared; then a frame is pushed for the new boundary.
`fresh` is what `boundary_stack_push` (defined outside parse.c) leaves in the
saved fields of a new frame. -/
def pushMultipart (fresh : AlternativeVars) (boundbuffer : CStr) (v : MultipartVars)
    (boundp : List BoundaryFrame) : MultipartVars × List BoundaryFrame :=
  let r : MultipartVars × List BoundaryFrame :=
    match boundp with
    | top :: rest =>
      if v.alt.alternativeparser then
        ({ v with alt := { v.alt with
              current_alt_message_node := none, root_alt_message_node := none,
              alternative_file := [], alternative_lastfile := [], last_alternative_type := [],
              alternative_message_node_created := false, alternativeparser := false } },
          { top with saved := v.alt } :: rest)
      else (v, boundp)
    | [] => (v, boundp)
  (r.1,
    { boundary_id := boundbuffer, saved := fresh,
      parse_multipart_alternative_force_save_alts :=
        r.1.parse_multipart_alternative_force_save_alts,
      applemail_old_set_save_alts := r.1.applemail_old_set_save_alts,
      set_save_alts := r.1.local_set_save_alts } :: r.2)

/-- The statements of `parsemail` at an end boundary: the top frame is popped, the
settings and, when the new top frame holds saved alternative variables, those
variables are restored and the frame's copy is cleared; at last the alternative
variables are reset when no multipart/alternative is left on the multipart
stack (`hasAlternative` is `multipart_stack_has_type(multipartp,
"multipart/alternative")` after the pop of that stack). -/
def popEndBoundary (hasAlternative : Bool) (v : MultipartVars) (boundp : List BoundaryFrame) :
    MultipartVars × List BoundaryFrame :=
  let r : MultipartVars × List BoundaryFrame :=
    match boundp.tail with
    | top :: rest =>
      let v := { v with
        parse_multipart_alternative_force_save_alts :=
          top.parse_multipart_alternative_force_save_alts,
        applemail_old_set_save_alts := top.applemail_old_set_save_alts,
        local_set_save_alts := top.set_save_alts }
      if top.saved.alternativeparser then
        ({ v with alt := top.saved },
          { top with saved := { top.saved with
              alternative_file := [], alternative_lastfile := [], last_alternative_type := [],
              current_alt_message_node := none, root_alt_message_node := none,
              alternativeparser := false, alternative_message_node_created := false } } :: rest)
      else (v, top :: rest)
    | [] => (v, [])
  if r.1.alt.alternativeparser && !hasAlternative then
    ({ r.1 with
        alt := { r.1.alt with
          alternativeparser := false, alternative_weight := -1, alternative_bp := none,
          alternative_lp := none, alternative_file := [], alternative_lastfile := [],
          last_alternative_type := [], root_alt_message_node := none,
          current_alt_message_node := none },
        alternative_lastfile_created := .NO_FILE }, r.2)
  else r

/-- Alternative variables with nothing saved: the flag off, no file, no type, no node. -/
def noAlternativeVars : AlternativeVars :=
  { alternativeparser := false, alternative_weight := 0,
    alternative_message_node_created := false, alternative_file := [],
    alternative_lastfile := [], last_alternative_type := [],
    alternative_lp := none, alternative_bp := none,
    current_alt_message_node := none, root_alt_message_node := none }

/-- Example: the variables while the alternatives of a part are parsed, text/plain
being the best type so far. -/
def sampleMultipartVars : MultipartVars :=
  { alt := { alternativeparser := true, alternative_weight := 0,
             alternative_message_node_created := true, alternative_file := [],
             alternative_lastfile := [], last_alternative_type := cstr "text/plain",
             alternative_lp := none, alternative_bp := none,
             current_alt_message_node := some 3, root_alt_message_node := some 2 },
    alternative_lastfile_created := .NO_FILE,
    parse_multipart_alternative_force_save_alts := 0,
    applemail_old_set_save_alts := -1, local_set_save_alts := 0 }

/-- Example: a frame for the boundary `id` with nothing saved. -/
def sampleFrame (id : CStr) : BoundaryFrame :=
  { boundary_id := id, saved := noAlternativeVars,
    parse_multipart_alternative_force_save_alts := 0,
    applemail_old_set_save_alts := -1, set_save_alts := 0 }

/-! ## The search for the start boundary of a multipart -/

/-- The variables after the loop of `parsemail` that reads lines until the start
boundary of a multipart: whether it was found, the lines saved in `tmpbp`, the
content of `line_buf`, `boundary_id`, and the lines not yet read. -/
structure StartBoundarySearch where
  found_start_boundary : Bool
  tmpbp : List CStr
  line_buf : CStr
  boundary_id : Option CStr
  file : List CStr
  deriving DecidableEq, Repr

/-- The loop `while (fgets(line_buf, MAXLINE, fp))` that looks for the start boundary.
The file is the list of the lines that `fgets` will return; at its end `fgets`
returns NULL and leaves `line_buf` as it is.  `is_start_boundary` (for the
boundary looked for) and `boundary_stack_has_id` are defined outside parse.c. -/
def startBoundaryLoop (is_start_boundary : CStr → Bool)
    (boundary_stack_has_id : CStr → Option CStr) (set_ietf_mbox : Nat)
    (boundary_id : Option CStr) :
    List CStr → CStr → List CStr → StartBoundarySearch
  | [], line_buf, tmpbp =>
    { found_start_boundary := false, tmpbp := tmpbp, line_buf := line_buf,
      boundary_id := boundary_id, file := [] }
  | l :: rest, _, tmpbp =>
    let tmpline := l.drop set_ietf_mbox
    if is_start_boundary tmpline then
      { found_start_boundary := true, tmpbp := tmpbp, line_buf := l,
        boundary_id := boundary_id, file := rest }
    else if strncaseeq l (cstr "From ") 5 then
      { found_start_boundary := false, tmpbp := tmpbp, line_buf := l,
        boundary_id := boundary_id, file := rest }
    else if strneq tmpline (cstr "--") 2 && !_is_signature_separator tmpline then
      { found_start_boundary := false, tmpbp := tmpbp, line_buf := l,
        boundary_id := boundary_stack_has_id tmpline, file := rest }
    else
      startBoundaryLoop is_start_boundary boundary_stack_has_id set_ietf_mbox boundary_id
        rest l (tmpbp ++ [tmpline])

/-- What `parsemail` does when the loop ends without the start boundary: the
saved lines are appended to the body, the type becomes "text/plain", no frame is
pushed, and the code jumps to `leave_header`, where the content of `line_buf` is
handled as a line read outside the headers. -/
structure Downgrade where
  bp : List CStr
  type : CStr
  isinheader : Nat
  boundary_id : Option CStr
  lineAtLeaveHeader : CStr
  file : List CStr
  deriving DecidableEq, Repr

/-- The branch `if (!found_start_boundary)`. -/
def startBoundaryMissing (bp : List CStr) (s : StartBoundarySearch) : Downgrade :=
  { bp := bp ++ s.tmpbp, type := cstr "text/plain", isinheader := 0, boundary_id := none,
    lineAtLeaveHeader := s.line_buf, file := s.file }

/-! ## Annotations: `getannotation` -/

/-- The enum `annotation_content_t` (declared outside parse.c; the values that
`getannotation` assigns). -/
inductive annotation_content_t
  | ANNOTATION_CONTENT_NONE
  | ANNOTATION_CONTENT_DELETED_OTHER
  | ANNOTATION_CONTENT_DELETED_SPAM
  | ANNOTATION_CONTENT_EDITED
  deriving DecidableEq, Repr

/-- The variables of `getannotation`: the pointer `c`, `*annotation_content`, and the
two bits of `*annotation_robot`. -/
structure AnnotationState where
  c : CStr
  annotation_content : annotation_content_t
  robot_no_index : Bool
  robot_no_follow : Bool
  deriving DecidableEq, Repr

/-- The body of the loop `while (*c != '\n')` of `getannotation`.  The loop that
passes white space also passes a line end; the loop that passes a token has no
test for the terminator of the string and steps over it. -/
def getannotation_body (st : AnnotationState) : LoopStep AnnotationState :=
  if st.c.head? = some 10 then .exit st
  else
    let startp := st.c.dropWhile isspace
    let token := startp.takeWhile (fun ch => !isspace ch && ch != 10 && ch != 13 && ch != 44)
    let c := startp.drop token.length
    match c with
    | [] => .undefined
    | stop :: after =>
      let len := token.length
      let next := if stop = 44 then after else stop :: after
      if len > 0 then
        if strncaseeq startp (cstr "deleted") len then
          .exit { st with c := c, annotation_content := .ANNOTATION_CONTENT_DELETED_OTHER }
        else if strncaseeq startp (cstr "spam") len then
          .exit { st with c := c, annotation_content := .ANNOTATION_CONTENT_DELETED_SPAM }
        else if strncaseeq startp (cstr "edited") len then
          .next { st with c := next, annotation_content := .ANNOTATION_CONTENT_EDITED }
        else if strncaseeq startp (cstr "noindex") len then
          .next { st with c := next, robot_no_index := true }
        else if strncaseeq startp (cstr "nofollow") len then
          .next { st with c := next, robot_no_follow := true }
        else .next { st with c := next }
      else .next { st with c := next }

/-- The function `getannotation`: the returned flag, `*annotation_content` and the
two bits of `*annotation_robot`. -/
def getannotation (line : CStr) :
    Outcome (Bool × annotation_content_t × Bool × Bool) :=
  match line.dropWhile (fun ch => ch != 58) with
  | [] => .done (false, .ANNOTATION_CONTENT_NONE, false, false)
  | _ :: c =>
    (runLoop getannotation_body (c.length + 1)
      { c := c, annotation_content := .ANNOTATION_CONTENT_NONE, robot_no_index := false,
        robot_no_follow := false }).map fun st =>
      (decide (st.annotation_content ≠ .ANNOTATION_CONTENT_NONE) || st.robot_no_index ||
          st.robot_no_follow,
        st.annotation_content, st.robot_no_index, st.robot_no_follow)

/-! ## Links to attachments: `createlink` -/

/-- The text that `sprintf(buffer, "%04d", num)` writes: the decimal digits of the
number, filled with zeros on the left to four characters, the sign included. -/
def sprintf_04d (num : Int) : CStr :=
  let digits := (Nat.toDigits 10 num.natAbs).map Char.toNat
  if num < 0 then 45 :: (List.replicate (3 - digits.length) 48 ++ digits)
  else List.replicate (4 - digits.length) 48 ++ digits

/-- The loop of `createlink` over the format.  After a '%' the pointer is moved on
and the byte there selects the expansion; when that byte is the terminator of
the format, the default branch pushes it and the pointer is then moved past the
terminator.  `file` is `none` when NULL; `pushNull` is what `PushString` (defined
outside parse.c) appends for a NULL string. -/
def createlink_loop (pushNull dir : CStr) (file : Option CStr) (num : Int) (type : CStr) :
    Nat → CStr → CStr → Outcome CStr
  | 0, _, _ => .outOfFuel
  | _ + 1, [], buff => .done buff
  | fuel + 1, c :: format, buff =>
    if c = 37 then
      match format with
      | [] => .undefined
      | d :: rest =>
        let pushed : CStr :=
          if d = 37 then [37]
          else if d = 112 then
            dir ++ [47] ++ (match file with
              | some f => f
              | none => cstr "<void>")
          else if d = 102 then (match file with
              | some f => f
              | none => pushNull)
          else if d = 100 then dir
          else if d = 110 then sprintf_04d num
          else if d = 99 then type
          else [37, d]
        createlink_loop pushNull dir file num type fuel rest (buff ++ pushed)
    else createlink_loop pushNull dir file num type fuel format (buff ++ [c])

/-- The function `createlink`: a NULL or empty format stands for "%p". -/
def createlink (pushEmpty : Option CStr) (pushNull : CStr) (format : Option CStr) (dir : CStr)
    (file : Option CStr) (num : Int) (type : CStr) : Outcome (Option CStr) :=
  let format := match format with
    | none => cstr "%p"
    | some [] => cstr "%p"
    | some f => f
  (createlink_loop pushNull dir file num type (format.length + 1) format []).map
    (RETURN_PUSH pushEmpty)

/-! ## Messages deleted by their date: `check_expiry` and `parsemail` -/

/-- The values of `is_deleted` that parse.c assigns (macros defined outside
parse.c); `NOT_DELETED` is 0. -/
inductive Filtered
  | NOT_DELETED
  | FILTERED_DELETE
  | FILTERED_EXPIRE
  | FILTERED_OUT
  | FILTERED_OLD
  | FILTERED_NEW
  | FILTERED_DELETE_OTHER
  deriving DecidableEq, Repr

/-- The function `check_expiry`: the new value of `emp->is_deleted`.  `now` is
`time(NULL)`; `delete_older` and `delete_newer` are `none` when the option is not
set and the value of `convtoyearsecs` on the option otherwise. -/
def check_expiry (now : Int) (delete_older delete_newer : Option Int) (is_deleted : Filtered)
    (exp_time fromdate date : Int) : Filtered :=
  if is_deleted = .NOT_DELETED then
    let d1 := if exp_time ≠ -1 ∧ exp_time < now then Filtered.FILTERED_EXPIRE else is_deleted
    let email_time := if fromdate = -1 then date else fromdate
    let d2 := match delete_older with
      | some t => if email_time ≠ -1 ∧ email_time < t then Filtered.FILTERED_OLD else d1
      | none => d1
    match delete_newer with
    | some t => if email_time ≠ -1 ∧ email_time < t then Filtered.FILTERED_NEW else d2
    | none => d2
  else is_deleted

/-- The two tests of `parsemail` after the headers of a message: the new value of
`is_deleted`.  `hasDate` is `date || *fromdate`; `date` and `fromdate` are the
values of `convtoyearsecs` on the two strings. -/
def parsemailDateFilter (delete_older delete_newer : Option Int) (is_deleted : Filtered)
    (hasDate : Bool) (date fromdate : Int) : Filtered :=
  let email_time := if date = -1 then fromdate else date
  let d1 := match delete_older with
    | some t =>
      if is_deleted = .NOT_DELETED ∧ hasDate = true ∧ email_time ≠ -1 ∧ email_time < t then
        Filtered.FILTERED_OLD
      else is_deleted
    | none => is_deleted
  match delete_newer with
  | some t =>
    if d1 = .NOT_DELETED ∧ hasDate = true ∧ email_time ≠ -1 ∧ email_time > t then
      Filtered.FILTERED_NEW
    else d1
  | none => d1

/-! ## Attachment names: `safe_filename` -/

/-- The characters that `safe_filename` stores as they are: ASCII letters, digits,
'-', '.', ':' and '_'. -/
def isSafeChar (c : Nat) : Bool :=
  (97 ≤ c && c ≤ 122) || (48 ≤ c && c ≤ 57) || (65 ≤ c && c ≤ 90) || c == 45 || c == 46 ||
    c == 58 || c == 95

/-- The test `set_unsafe_chars && strchr(set_unsafe_chars, c)` for a character
other than NUL; `none` is a NULL setting. -/
def inUnsafeChars (set_unsafe_chars : Option CStr) (c : Nat) : Bool :=
  match set_unsafe_chars with
  | some u => u.contains c
  | none => false

/-- The byte that the loop of `safe_filename` stores for the byte `c`. -/
def storedChar (REPLACEMENT_CHAR : Nat) (set_unsafe_chars : Option CStr) (c : Nat) : Nat :=
  if isSafeChar c && !inUnsafeChars set_unsafe_chars c then c else REPLACEMENT_CHAR

/-- The function `safe_filename`: `none` is NULL.  The macro `REPLACEMENT_CHAR` and the
setting `set_unsafe_chars` are parameters.  The name is rewritten in place up to
its first LF or CR, and a final ".shtml" becomes ".html". -/
def safe_filename (REPLACEMENT_CHAR : Nat) (set_unsafe_chars : Option CStr)
    (name : Option CStr) : Option CStr :=
  match name with
  | none => none
  | some [] => none
  | some (c0 :: rest) =>
    let stored := ((c0 :: rest).takeWhile (fun c => c != 10 && c != 13)).map
      (storedChar REPLACEMENT_CHAR set_unsafe_chars)
    if 6 ≤ stored.length ∧ stored.drop (stored.length - 6) = cstr ".shtml" then
      some (stored.take (stored.length - 6) ++ cstr ".html")
    else some stored

/-! ## Lines of format=flowed text: `rfc3676_handler` -/

/-- The function `is_sig_separator`. -/
def is_sig_separator (line : CStr) : Bool :=
  line == cstr "-- \n" || line == cstr "-- \r\n" || line == cstr "--\n"

/-- The function `get_quotelevel`: the number of '>' at the start of the line. -/
def get_quotelevel (line : CStr) : Nat := (line.takeWhile (fun c => c == 62)).length

/-- The value of `tmp_padding` in `rfc3676_handler`: the quote marks and one space
after them. -/
def quotePadding (line : CStr) : Nat :=
  if (line.drop (get_quotelevel line)).head? = some 32 then get_quotelevel line + 1
  else get_quotelevel line

/-- What `rfc3676_handler` returns and leaves in its arguments. -/
structure FlowedLine where
  flowed : Bool
  line : CStr
  quotelevel : Int
  continue_prev_flow_flag : Bool
  deriving DecidableEq, Repr

/-- The function `rfc3676_handler`.  `rfc3676_ishardlb` and `rfc3676_trim_softlb` are
defined outside parse.c.  A line without LF makes the code step back from a
NULL pointer. -/
def rfc3676_handler (rfc3676_ishardlb : CStr → Bool) (rfc3676_trim_softlb : CStr → CStr)
    (set_format_flowed_disable_quoted : Bool) (line : CStr) (delsp_flag : Bool)
    (quotelevel : Int) (continue_prev_flow_flag : Bool) : Outcome FlowedLine :=
  if rfc3676_ishardlb line then
    .done { flowed := false, line := line, quotelevel := 0, continue_prev_flow_flag := false }
  else
    let new_quotelevel := get_quotelevel line
    let flag :=
      if (new_quotelevel : Int) ≠ quotelevel ∨
          (new_quotelevel > 0 ∧ set_format_flowed_disable_quoted = true) then false
      else continue_prev_flow_flag
    let tmp_padding := quotePadding line
    if rfc3676_ishardlb (line.drop tmp_padding) then
      .done { flowed := false, line := line, quotelevel := new_quotelevel,
              continue_prev_flow_flag := flag }
    else if is_sig_separator (line.drop tmp_padding) then
      .done { flowed := false, line := if delsp_flag then rfc3676_trim_softlb line else line,
              quotelevel := new_quotelevel, continue_prev_flow_flag := false }
    else
      match strrchr line 10 with
      | none => .undefined
      | some tail =>
        let eold := line.length - tail.length
        let eold := if eold ≠ 0 ∧ (line.drop (eold - 1)).head? = some 13 then eold - 1 else eold
        if eold ≠ 0 ∧ tmp_padding ≠ eold ∧ (line.drop (eold - 1)).head? = some 32 then
          .done { flowed := true,
                  line := if delsp_flag then rfc3676_trim_softlb line else line,
                  quotelevel := new_quotelevel, continue_prev_flow_flag := flag }
        else
          .done { flowed := false, line := line, quotelevel := new_quotelevel,
                  continue_prev_flow_flag := flag }

/-- The line after its quote marks and the space that may follow them. -/
def flowedContent (body : CStr) : CStr := body.drop (quotePadding body)

/-- Example of `rfc3676_ishardlb`: the line is a bare line end. -/
def sampleIshardlb (line : CStr) : Bool := line == [10] || line == [13, 10]

/-! ## `safe_filename` -/

/-- A byte that `safe_filename` may store: a safe character outside the unsafe set,
or the replacement character. -/
def StoredChar (REPLACEMENT_CHAR : Nat) (set_unsafe_chars : Option CStr) (c : Nat) : Prop :=
  (isSafeChar c = true ∧ ∀ u, set_unsafe_chars = some u → c ∉ u) ∨ c = REPLACEMENT_CHAR

/-- The line ends a text line: a lone LF after a body that does not end in CR,
or CR LF; the body has no LF. -/
def LineEnd (body term : CStr) : Prop :=
  10 ∉ body ∧ ((term = [10] ∧ body.getLast? ≠ some 13) ∨ term = [13, 10])

instance (body term : CStr) : Decidable (LineEnd body term) := by
  unfold LineEnd
  exact inferInstance

/-! # Properties -/

/-! ## Loops -/

theorem runLoop_next {σ : Type} (body : σ → LoopStep σ) (fuel : Nat) (st st2 : σ)
    (h : body st = .next st2) : runLoop body (fuel + 1) st = runLoop body fuel st2 := by
  rw [runLoop, h]

theorem runLoop_exit {σ : Type} (body : σ → LoopStep σ) (fuel : Nat) (st st2 : σ)
    (h : body st = .exit st2) : runLoop body (fuel + 1) st = .done st2 := by
  rw [runLoop, h]

theorem runLoop_undefined {σ : Type} (body : σ → LoopStep σ) (fuel : Nat) (st : σ)
    (h : body st = .undefined) : runLoop body (fuel + 1) st = .undefined := by
  rw [runLoop, h]

/-- A loop whose body lowers a measure at every pass does not exhaust a budget
above the measure. -/
theorem runLoop_total {σ : Type} (body : σ → LoopStep σ) (μ : σ → Nat)
    (hμ : ∀ st st2, body st = .next st2 → μ st2 < μ st) :
    ∀ (fuel : Nat) (st : σ), μ st < fuel → runLoop body fuel st ≠ .outOfFuel := by
  intro fuel
  induction fuel with
  | zero => intro st h; omega
  | succ f ih =>
    intro st h
    rw [runLoop]
    cases hb : body st with
    | next st2 => exact ih st2 (by have := hμ st st2 hb; omega)
    | exit st2 => simp
    | undefined => simp

/-- More budget does not change the result of a run that did not exhaust its
budget. -/
theorem runLoop_fuel {σ : Type} (body : σ → LoopStep σ) :
    ∀ (fuel : Nat) (st : σ), runLoop body fuel st ≠ .outOfFuel →
      ∀ k, runLoop body (fuel + k) st = runLoop body fuel st := by
  intro fuel
  induction fuel with
  | zero => intro st h; simp [runLoop] at h
  | succ f ih =>
    intro st h k
    rw [show f + 1 + k = (f + k) + 1 by omega]
    cases hb : body st with
    | next st2 =>
      rw [runLoop_next body _ st st2 hb, runLoop_next body _ st st2 hb]
      rw [runLoop_next body _ st st2 hb] at h
      exact ih st2 h k
    | exit st2 => rw [runLoop_exit body _ st st2 hb, runLoop_exit body _ st st2 hb]
    | undefined => rw [runLoop_undefined body _ st hb, runLoop_undefined body _ st hb]

/-! ## Alternative selector -/

theorem EncodeType.toInt_nonneg (d : EncodeType) : 0 ≤ d.toInt := by
  cases d <;> simp [EncodeType.toInt]

theorem inlist_pos_eq_findIdx (l : List CStr) (s : CStr) :
    inlist_pos l s =
      match l.findIdx? (fun e => strcaseeq e s) with
      | some p => (p : Int)
      | none => -1 := by
  induction l with
  | nil => simp [inlist_pos]
  | cons e rest ih =>
    rw [inlist_pos, List.findIdx?_cons]
    by_cases h : strcaseeq e s = true
    · simp [h]
    · simp only [h, Bool.false_eq_true, if_false, ih, List.findIdx?_succ]
      cases hq : List.findIdx? (fun e => strcaseeq e s) rest 0 with
      | none => simp
      | some p =>
        simp only [Option.map_some']
        have : (p : Int) ≠ -1 := by omega
        simp [this]

theorem specWeight_eq (prefs : List CStr) (t : CStr) (d : EncodeType)
    (hp : strcaseeq (cstr "text/plain") t = false) :
    specWeight prefs t d =
      (if inlist_pos prefs t = -1 then
        (if strncaseeq (cstr "text/") t 5 then 1000 else 2000 + d.toInt)
       else inlist_pos prefs t) + 1 := by
  rw [specWeight, inlist_pos_eq_findIdx]
  simp only [hp, Bool.false_eq_true, if_false]
  cases hq : List.findIdx? (fun e => strcaseeq e t) prefs with
  | none =>
    simp only [if_true]
    split <;> ring
  | some p =>
    have : (p : Int) ≠ -1 := by omega
    simp [this]

theorem specWeight_pos (prefs : List CStr) (t : CStr) (d : EncodeType)
    (hp : strcaseeq (cstr "text/plain") t = false) : 1 ≤ specWeight prefs t d := by
  rw [specWeight]
  simp only [hp, Bool.false_eq_true, if_false]
  have hd := d.toInt_nonneg
  cases List.findIdx? (fun e => strcaseeq e t) prefs with
  | none =>
    simp only
    split <;> omega
  | some p => simp only; omega

theorem specWeight_plain (prefs : List CStr) (t : CStr) (d : EncodeType)
    (hp : strcaseeq (cstr "text/plain") t = true) : specWeight prefs t d = 0 := by
  simp [specWeight, hp]

/-- The text/plain branch of `preferedcontent`. -/
theorem preferedcontent_plain (set_save_alts : Int) (prefs : List CStr) (w : Int)
    (t : CStr) (d : Int) (hs : set_save_alts ≠ 1)
    (hp : strcaseeq (cstr "text/plain") t = true) :
    preferedcontent set_save_alts prefs w t d = if w ≠ 0 then (1, 0) else (0, w) := by
  unfold preferedcontent
  simp only [hs, if_false, hp, if_true]

/-- The branch of `preferedcontent` for the types other than text/plain. -/
theorem preferedcontent_other (set_save_alts : Int) (prefs : List CStr) (w : Int)
    (t : CStr) (d : EncodeType) (hs : set_save_alts ≠ 1)
    (hp : strcaseeq (cstr "text/plain") t = false) :
    preferedcontent set_save_alts prefs w t d.toInt =
      if w = -1 ∨ specWeight prefs t d < w then (1, specWeight prefs t d) else (0, w) := by
  unfold preferedcontent
  have hnil : (if prefs ≠ [] then inlist_pos prefs t else (-1 : Int)) = inlist_pos prefs t := by
    by_cases hn : prefs = []
    · subst hn; simp [inlist_pos]
    · simp [hn]
  have hsw := specWeight_eq prefs t d hp
  have hd := d.toInt_nonneg
  simp only [hs, if_false, hp, Bool.false_eq_true, hnil]
  set wt : Int := (if inlist_pos prefs t = -1 then
      (if strncaseeq (cstr "text/") t 5 then 1000 else 2000 + d.toInt)
     else inlist_pos prefs t) with hwt
  have hne : wt ≠ -1 := by
    rw [hwt]
    split
    · split <;> omega
    · assumption
  rw [hsw]
  simp only [hne, ne_eq, not_false_eq_true, if_true]
  by_cases h1 : w = -1
  · simp [h1]
  · by_cases h2 : w > wt + 1
    · have : wt + 1 < w := h2
      simp [h1, h2, this]
    · have : ¬ (wt + 1 < w) := h2
      simp [h1, h2, this]

/-- C1: with save-alternatives mode other than 1 and a current weight w ≥ -1,
`preferedcontent` returns 1 and stores weight(t) exactly when w = -1 or
weight(t) < w, and otherwise returns 0 and leaves the weight as it was. -/
theorem preferedcontent_spec (set_save_alts : Int) (prefs : List CStr) (w : Int)
    (t : CStr) (d : EncodeType) (hs : set_save_alts ≠ 1) (hw : -1 ≤ w) :
    preferedcontent set_save_alts prefs w t d.toInt =
      if w = -1 ∨ specWeight prefs t d < w then (1, specWeight prefs t d) else (0, w) := by
  by_cases hp : strcaseeq (cstr "text/plain") t = true
  · rw [preferedcontent_plain set_save_alts prefs w t d.toInt hs hp,
      specWeight_plain prefs t d hp]
    by_cases h0 : w = 0
    · subst h0; simp
    · have : w = -1 ∨ 0 < w := by omega
      simp [h0, this]
  · exact preferedcontent_other set_save_alts prefs w t d hs (by simpa using hp)

/-- The claim C1 at a sibling of equal weight: a second text/html part at
weight 1001 is not accepted and the weight stays 1001. -/
theorem preferedcontent_spec_witness :
    (0 : Int) ≠ 1 ∧ (-1 : Int) ≤ 1001 ∧
    preferedcontent 0 [] 1001 (cstr "text/html") EncodeType.ENCODE_NORMAL.toInt =
      if (1001 : Int) = -1 ∨ specWeight [] (cstr "text/html") .ENCODE_NORMAL < 1001
      then (1, specWeight [] (cstr "text/html") .ENCODE_NORMAL) else (0, 1001) :=
  ⟨by decide, by decide,
    preferedcontent_spec 0 [] 1001 (cstr "text/html") .ENCODE_NORMAL (by decide) (by decide)⟩

theorem alternativeStep_at_zero (tia : Bool) (prefs : List CStr) (st : AltState)
    (type : CStr) (d : EncodeType) (h0 : st.alternative_weight = 0) :
    alternativeStep 0 0 false tia prefs st type d = (st, .CONTENT_IGNORE, false) := by
  have hpc : preferedcontent 0 prefs 0 type d.toInt = (0, 0) := by
    by_cases hp : strcaseeq (cstr "text/plain") type = true
    · rw [preferedcontent_plain 0 prefs 0 type d.toInt (by decide) hp]
      simp
    · have hp2 : strcaseeq (cstr "text/plain") type = false := by simpa using hp
      have := specWeight_pos prefs type d hp2
      rw [preferedcontent_other 0 prefs 0 type d (by decide) hp2]
      have hnot : ¬ ((0 : Int) = -1 ∨ specWeight prefs type d < 0) := by omega
      rw [if_neg hnot]
  cases st with
  | mk w l =>
    simp only at h0
    subst h0
    simp [alternativeStep, hpc]

theorem alternativeStep_plain (tia : Bool) (prefs : List CStr) (st : AltState)
    (type : CStr) (d : EncodeType) (hp : strcaseeq (cstr "text/plain") type = true)
    (hw : st.alternative_weight = -1 ∨ 1 ≤ st.alternative_weight) :
    alternativeStep 0 0 false tia prefs st type d =
      ({ alternative_weight := 0, last_alternative_type := type.take 129 },
        .CONTENT_UNKNOWN, true) := by
  have hpc := preferedcontent_plain 0 prefs st.alternative_weight type d.toInt (by decide) hp
  have hc : st.alternative_weight ≠ 0 := by omega
  rw [if_pos hc] at hpc
  simp [alternativeStep, hpc]

theorem alternativeStep_other (tia : Bool) (prefs : List CStr) (st : AltState)
    (type : CStr) (d : EncodeType) (hp : strcaseeq (cstr "text/plain") type = false)
    (hw : st.alternative_weight = -1 ∨ 1 ≤ st.alternative_weight) :
    (alternativeStep 0 0 false tia prefs st type d).1.alternative_weight = -1 ∨
      1 ≤ (alternativeStep 0 0 false tia prefs st type d).1.alternative_weight := by
  have hpc := preferedcontent_other 0 prefs st.alternative_weight type d (by decide) hp
  have hpos := specWeight_pos prefs type d hp
  simp only [alternativeStep, Bool.false_and, Bool.false_eq_true, if_false, hpc]
  split <;> simp <;> omega

theorem runAlternativesFrom_at_zero (tia : Bool) (prefs : List CStr)
    (siblings : List (CStr × EncodeType)) :
    ∀ (idx : Nat) (acc : AltRun), acc.st.alternative_weight = 0 →
      runAlternativesFrom 0 0 false tia prefs siblings idx acc =
        { st := acc.st, last := acc.last,
          classes := acc.classes ++ List.replicate siblings.length .CONTENT_IGNORE } := by
  induction siblings with
  | nil => intro idx acc _; simp [runAlternativesFrom]
  | cons s rest ih =>
    intro idx acc h0
    obtain ⟨type, d⟩ := s
    rw [runAlternativesFrom]
    simp only [alternativeStep_at_zero tia prefs acc.st type d h0]
    rw [ih]
    · simp [List.replicate_succ]
    · exact h0

theorem runAlternativesFrom_plain (tia : Bool) (prefs : List CStr)
    (siblings : List (CStr × EncodeType)) :
    ∀ (idx : Nat) (acc : AltRun) (k : Nat),
      (acc.st.alternative_weight = -1 ∨ 1 ≤ acc.st.alternative_weight) →
      siblings.findIdx? (fun s => strcaseeq (cstr "text/plain") s.1) 0 = some k →
      (runAlternativesFrom 0 0 false tia prefs siblings idx acc).last = some (idx + k) ∧
      (runAlternativesFrom 0 0 false tia prefs siblings idx acc).st.alternative_weight = 0 ∧
      (runAlternativesFrom 0 0 false tia prefs siblings idx acc).classes.drop
          (acc.classes.length + k) =
        ContentType.CONTENT_UNKNOWN ::
          List.replicate (siblings.length - (k + 1)) ContentType.CONTENT_IGNORE := by
  induction siblings with
  | nil => intro idx acc k _ hk; simp at hk
  | cons s rest ih =>
    intro idx acc k hw hk
    obtain ⟨type, d⟩ := s
    rw [List.findIdx?_cons] at hk
    rw [runAlternativesFrom]
    by_cases hp : strcaseeq (cstr "text/plain") type = true
    · simp only [hp, if_true, Option.some.injEq] at hk
      subst hk
      simp only [alternativeStep_plain tia prefs acc.st type d hp hw]
      rw [runAlternativesFrom_at_zero]
      · simp
      · rfl
    · have hp' : strcaseeq (cstr "text/plain") type = false := by simpa using hp
      simp only [hp', Bool.false_eq_true, if_false, List.findIdx?_succ] at hk
      cases hq : List.findIdx? (fun s => strcaseeq (cstr "text/plain") s.1) rest 0 with
      | none => simp [hq] at hk
      | some j =>
        simp only [hq, Option.map_some', Option.some.injEq] at hk
        subst hk
        have hstep := alternativeStep_other tia prefs acc.st type d hp' hw
        have := ih (idx + 1)
          { st := (alternativeStep 0 0 false tia prefs acc.st type d).1,
            last := if (alternativeStep 0 0 false tia prefs acc.st type d).2.2 then some idx
              else acc.last,
            classes := acc.classes ++ [(alternativeStep 0 0 false tia prefs acc.st type d).2.1] }
          j hstep hq
        obtain ⟨h1, h2, h3⟩ := this
        refine ⟨?_, h2, ?_⟩
        · rw [h1]; congr 1; omega
        · simp only [List.length_append, List.length_singleton] at h3
          have e1 : acc.classes.length + (j + 1) = acc.classes.length + 1 + j := by omega
          rw [e1, h3]
          simp

/-- C2: with save-alternatives off and the Apple-mail exception off, when the
siblings of a multipart/alternative contain text/plain, the last sibling that
`preferedcontent` accepts is the first text/plain one (at position k), the
final weight is 0, that sibling is not classified ignored and every later
sibling is classified CONTENT_IGNORE, whatever the preferred-types list. -/
theorem alternatives_plain_wins (topIsAlt : Bool) (prefs : List CStr)
    (siblings : List (CStr × EncodeType))
    (h : ∃ s ∈ siblings, strcaseeq (cstr "text/plain") s.1 = true) :
    ∃ k, siblings.findIdx? (fun s => strcaseeq (cstr "text/plain") s.1) 0 = some k ∧
      (runAlternatives 0 0 false topIsAlt prefs siblings).last = some k ∧
      (runAlternatives 0 0 false topIsAlt prefs siblings).st.alternative_weight = 0 ∧
      (runAlternatives 0 0 false topIsAlt prefs siblings).classes.drop k =
        ContentType.CONTENT_UNKNOWN ::
          List.replicate (siblings.length - (k + 1)) ContentType.CONTENT_IGNORE := by
  have hk : ∃ k, siblings.findIdx? (fun s => strcaseeq (cstr "text/plain") s.1) 0 = some k := by
    cases hq : siblings.findIdx? (fun s => strcaseeq (cstr "text/plain") s.1) 0 with
    | some k => exact ⟨k, rfl⟩
    | none =>
      rw [List.findIdx?_eq_none_iff] at hq
      obtain ⟨s, hs, hp⟩ := h
      have := hq s hs
      simp [hp] at this
  obtain ⟨k, hk⟩ := hk
  have := runAlternativesFrom_plain topIsAlt prefs siblings 0
    { st := { alternative_weight := -1, last_alternative_type := [] }, last := none,
      classes := [] } k (Or.inl rfl) hk
  refine ⟨k, hk, ?_⟩
  simpa [runAlternatives] using this

/-- The claim C2 at the siblings text/plain, text/html: the plain part (position
0) is accepted, the HTML part is classified CONTENT_IGNORE. -/
theorem alternatives_plain_wins_witness :
    (∃ s ∈ [(cstr "text/plain", EncodeType.ENCODE_NORMAL),
        (cstr "text/html", EncodeType.ENCODE_QP)],
      strcaseeq (cstr "text/plain") s.1 = true) ∧
    (∃ k, [(cstr "text/plain", EncodeType.ENCODE_NORMAL),
        (cstr "text/html", EncodeType.ENCODE_QP)].findIdx?
          (fun s => strcaseeq (cstr "text/plain") s.1) 0 = some k ∧
      (runAlternatives 0 0 false true [cstr "text/html"]
        [(cstr "text/plain", .ENCODE_NORMAL), (cstr "text/html", .ENCODE_QP)]).last = some k ∧
      (runAlternatives 0 0 false true [cstr "text/html"]
        [(cstr "text/plain", .ENCODE_NORMAL),
          (cstr "text/html", .ENCODE_QP)]).st.alternative_weight = 0 ∧
      (runAlternatives 0 0 false true [cstr "text/html"]
        [(cstr "text/plain", .ENCODE_NORMAL), (cstr "text/html", .ENCODE_QP)]).classes.drop k =
        ContentType.CONTENT_UNKNOWN ::
          List.replicate (2 - (k + 1)) ContentType.CONTENT_IGNORE) ∧
    runAlternatives 0 0 false true [cstr "text/html"]
        [(cstr "text/plain", .ENCODE_NORMAL), (cstr "text/html", .ENCODE_QP)] =
      { st := { alternative_weight := 0, last_alternative_type := cstr "text/plain" },
        last := some 0, classes := [.CONTENT_UNKNOWN, .CONTENT_IGNORE] } :=
  ⟨⟨(cstr "text/plain", .ENCODE_NORMAL), by simp, by decide⟩,
    alternatives_plain_wins true [cstr "text/html"]
      [(cstr "text/plain", .ENCODE_NORMAL), (cstr "text/html", .ENCODE_QP)]
      ⟨(cstr "text/plain", .ENCODE_NORMAL), by simp, by decide⟩,
    by decide⟩

/-! ## Message-part tree -/

theorem strncaseeq_eq_hasPrefixCI (pre : CStr) :
    ∀ s : CStr, strncaseeq s pre pre.length = hasPrefixCI pre s := by
  induction pre with
  | nil => intro s; simp [strncaseeq, hasPrefixCI]
  | cons p ps ih =>
    intro s
    cases s with
    | nil => simp [strncaseeq, hasPrefixCI]
    | cons c cs =>
      have := ih cs
      simp only [strncaseeq, List.length_cons, List.take_succ_cons, List.map_cons,
        List.take_length] at this ⊢
      rw [hasPrefixCI, ← this]
      simp only [BEq.beq, List.beq, Bool.and_eq_true, decide_eq_true_eq]

/-- C3: `message_node_skip_status` returns SkipAll for ignored content; otherwise
SkipButKeepChildren for a type starting with "multipart/" (any letter case)
whose content is BINARY with NO_FILE; otherwise SkipStoredAttachment for BINARY
or UNKNOWN content; otherwise Keep.  The result is Keep exactly for TEXT and
HTML content. -/
theorem message_node_skip_status_spec (file_created : FileStatus) (content : ContentType)
    (content_type : CStr) :
    message_node_skip_status file_created content content_type =
      (if content = .CONTENT_IGNORE then .MN_SKIP_ALL
       else if hasPrefixCI (cstr "multipart/") content_type = true ∧
          content = .CONTENT_BINARY ∧ file_created = .NO_FILE then .MN_SKIP_BUT_KEEP_CHILDREN
       else if content = .CONTENT_BINARY ∨ content = .CONTENT_UNKNOWN then
          .MN_SKIP_STORED_ATTACHMENT
       else .MN_KEEP) ∧
    (message_node_skip_status file_created content content_type = .MN_KEEP ↔
      content = .CONTENT_TEXT ∨ content = .CONTENT_HTML) := by
  have hlen : (cstr "multipart/").length = 10 := by decide
  have hpre := strncaseeq_eq_hasPrefixCI (cstr "multipart/") content_type
  rw [hlen] at hpre
  constructor
  · unfold message_node_skip_status
    rw [hpre]
    cases content <;> cases file_created <;>
      cases hasPrefixCI (cstr "multipart/") content_type <;> simp
  · unfold message_node_skip_status
    cases content <;> cases file_created <;>
      cases strncaseeq content_type (cstr "multipart/") 10 <;> simp

/-! ## Subject extraction -/

theorem dropWhile_colon (name rest : CStr) (h : 58 ∉ name) :
    (name ++ 58 :: rest).dropWhile (fun ch => ch != 58) = 58 :: rest := by
  induction name with
  | nil => simp [List.dropWhile_cons]
  | cons c cs ih =>
    have hc : c ≠ 58 := fun e => h (by simp [e])
    have hcs : 58 ∉ cs := fun e => h (by simp [e])
    simp [List.dropWhile_cons, hc, ih hcs]

theorem rtrim_cons (c : Nat) (rest : CStr) :
    rtrim (c :: rest) =
      if rtrim rest = [] then (if isspace c = true then [] else [c]) else c :: rtrim rest := by
  simp only [rtrim, List.rdropWhile, List.reverse_cons, List.dropWhile_append]
  by_cases h : List.dropWhile isspace rest.reverse = []
  · simp only [h, List.isEmpty_nil, if_true, List.reverse_nil]
    by_cases hc : isspace c = true
    · simp [List.dropWhile_cons, hc]
    · simp [List.dropWhile_cons, hc]
  · have h' : (List.dropWhile isspace rest.reverse).isEmpty = false := by
      cases hq : List.dropWhile isspace rest.reverse with
      | nil => exact absurd hq h
      | cons a b => rfl
    simp [h, h']

theorem firstLine_cons (c : Nat) (rest : CStr) :
    firstLine (c :: rest) = if c = 10 ∨ c = 13 then [] else c :: firstLine rest := by
  simp only [firstLine, List.takeWhile_cons]
  by_cases h : c = 10 ∨ c = 13
  · rcases h with h | h <;> simp [h]
  · have h1 : c ≠ 10 := fun e => h (Or.inl e)
    have h2 : c ≠ 13 := fun e => h (Or.inr e)
    simp [h1, h2]

theorem subjectLen_eq (l : CStr) :
    ∀ i len : Nat, subjectLen l i len =
      if rtrim (firstLine l) = [] then len else i + (rtrim (firstLine l)).length := by
  induction l with
  | nil => intro i len; simp [subjectLen, firstLine, rtrim, List.rdropWhile]
  | cons c rest ih =>
    intro i len
    rw [subjectLen, firstLine_cons]
    by_cases h : c = 10 ∨ c = 13
    · simp [h, rtrim, List.rdropWhile]
    · simp only [h, if_false, ih, rtrim_cons]
      by_cases hr : rtrim (firstLine rest) = []
      · by_cases hc : isspace c = true <;> simp [hr, hc]
      · simp only [hr, if_false, List.length_cons, reduceCtorEq]
        omega

theorem take_rtrim_firstLine (l : CStr) :
    l.take (rtrim (firstLine l)).length = rtrim (firstLine l) := by
  have h1 : rtrim (firstLine l) <+: firstLine l := List.rdropWhile_prefix _ _
  have h2 : firstLine l <+: l := List.takeWhile_prefix _
  exact (List.prefix_iff_eq_take.mp (h1.trans h2)).symm

theorem getsubject_eq (replace : CStr → CStr → CStr → CStr) (NOSUBJECT name : CStr)
    (sep : Nat) (value : CStr) (hname : 58 ∉ name) :
    getsubject replace none NOSUBJECT (name ++ 58 :: sep :: value) =
      some (subjectOfValue NOSUBJECT value) := by
  unfold getsubject subjectOfValue
  rw [dropWhile_colon name _ hname]
  simp only [ltrim]
  set v := List.dropWhile isspace value with hv
  rw [subjectLen_eq]
  by_cases hr : rtrim (firstLine v) = []
  · simp only [hr, if_true, true_or]
    cases isre v with
    | none => simp
    | some post => cases post with
      | nil => simp
      | cons ch _ => by_cases hch : ch = 10 ∨ ch = 13 <;> simp [hch]
  · have hlen : (rtrim (firstLine v)).length ≠ 0 := by
      simpa [List.length_eq_zero] using hr
    simp only [hr, if_false, false_or, Nat.zero_add, markerOnly]
    cases isre v with
    | none => simp [hlen, take_rtrim_firstLine]
    | some post => cases post with
      | nil => simp [atLineEnd]
      | cons ch _ =>
        by_cases hch : ch = 10 ∨ ch = 13
        · rcases hch with hch | hch <;> simp [atLineEnd, hch]
        · have h1 : ch ≠ 10 := fun e => hch (Or.inl e)
          have h2 : ch ≠ 13 := fun e => hch (Or.inr e)
          simp [atLineEnd, h1, h2, hlen, take_rtrim_firstLine]

theorem tolower_inv (c k : Nat) (h : tolower c = k) : c = k ∨ (c + 32 = k ∧ 65 ≤ c ∧ c ≤ 90) := by
  unfold tolower at h
  split at h
  · right; omega
  · left; exact h

theorem map_tolower_three (m : CStr) (x y z : Nat) (h : m.map tolower = [x, y, z]) :
    ∃ a b c, m = [a, b, c] ∧ tolower a = x ∧ tolower b = y ∧ tolower c = z := by
  match m, h with
  | [a, b, c], h =>
    simp only [List.map_cons, List.map_nil, List.cons.injEq, and_true] at h
    exact ⟨a, b, c, rfl, h.1, h.2.1, h.2.2⟩

theorem rtrim_append (a b : CStr) (hb : rtrim b ≠ []) : rtrim (a ++ b) = a ++ rtrim b := by
  induction a with
  | nil => rfl
  | cons c cs ih =>
    rw [List.cons_append, rtrim_cons, ih]
    simp [hb]

theorem strtol_end_digits (digits rest : CStr) (hd : ∀ d ∈ digits, isdigit d = true) :
    strtol_end (digits ++ 93 :: rest) = 93 :: rest := by
  cases digits with
  | nil => simp [strtol_end, List.dropWhile_cons, isspace, isdigit]
  | cons d ds =>
    have hd0 : isdigit d = true := hd d (by simp)
    have hds : ∀ x ∈ ds, isdigit x = true := fun x hx => hd x (by simp [hx])
    have hr : 48 ≤ d ∧ d ≤ 57 := by simpa [isdigit] using hd0
    have hsp : isspace d = false := by
      simp only [isspace, Bool.or_eq_false_iff, beq_eq_false_iff_ne, ne_eq,
        Bool.and_eq_false_iff, decide_eq_false_iff_not]
      omega
    have h43 : d ≠ 43 := by omega
    have h45 : d ≠ 45 := by omega
    have hdw : List.dropWhile isdigit (ds ++ 93 :: rest) = 93 :: rest := by
      rw [List.dropWhile_append_of_pos hds]
      simp [List.dropWhile_cons, isdigit]
    simp [strtol_end, List.dropWhile_cons, hsp, h43, h45, hd0, hdw]

theorem tolower_ge (c k : Nat) (h : tolower c = k) (hk : 58 ≤ k) : 26 ≤ c := by
  rcases tolower_inv c k h with h | h <;> omega

theorem notEOL_of_ge (c : Nat) (h : 26 ≤ c) : (c != 10 && c != 13) = true := by
  have h1 : c ≠ 10 := by omega
  have h2 : c ≠ 13 := by omega
  simp [h1, h2]

theorem isspace_false_of_letter (c k : Nat) (h : tolower c = k) (hk : 97 ≤ k) :
    isspace c = false := by
  have : c ≠ 32 ∧ ¬ (9 ≤ c ∧ c ≤ 13) := by
    rcases tolower_inv c k h with h | h <;> omega
  simp only [isspace, Bool.or_eq_false_iff, beq_eq_false_iff_ne, ne_eq,
    Bool.and_eq_false_iff, decide_eq_false_iff_not]
  omega

theorem isre_three (a b c : Nat) (post : CStr)
    (h : (tolower a = 114 ∧ tolower b = 101 ∨ tolower a = 102 ∧ tolower b = 119) ∧
      tolower c = 58) : isre (a :: b :: c :: post) = some post := by
  have e1 : List.map tolower (List.take 3 (cstr "Re:")) = [114, 101, 58] := by decide
  have e2 : List.map tolower (List.take 3 (cstr "Fw:")) = [102, 119, 58] := by decide
  obtain ⟨h12, h3⟩ := h
  unfold isre strncaseeq
  rw [e1, e2]
  rcases h12 with ⟨h1, h2⟩ | ⟨h1, h2⟩
  · simp [h1, h2, h3]
  · simp [h1, h2, h3]

theorem isre_bracket (a b c : Nat) (digits post : CStr)
    (h : tolower a = 114 ∧ tolower b = 101 ∧ tolower c = 91)
    (hd : ∀ d ∈ digits, isdigit d = true) :
    isre (a :: b :: c :: (digits ++ 93 :: 58 :: post)) = some post := by
  have e1 : List.map tolower (List.take 3 (cstr "Re:")) = [114, 101, 58] := by decide
  have e2 : List.map tolower (List.take 3 (cstr "Fw:")) = [102, 119, 58] := by decide
  have e3 : List.map tolower (List.take 3 (cstr "Re[")) = [114, 101, 91] := by decide
  have e4 : List.take 2 (cstr "]:") = [93, 58] := by decide
  obtain ⟨h1, h2, h3⟩ := h
  unfold isre strncaseeq strneq
  rw [e1, e2, e3, e4]
  simp [h1, h2, h3, strtol_end_digits digits _ hd]

/-- The shape of a reply marker that the rest of the argument needs. -/
theorem isReplyMarker_props (m : CStr) (hm : isReplyMarker m = true) :
    (∀ post, isre (m ++ post) = some post) ∧ (∀ post, ltrim (m ++ post) = m ++ post) ∧
    (∀ x ∈ m, (x != 10 && x != 13) = true) := by
  have e1 : (cstr "Re:").map tolower = [114, 101, 58] := by decide
  have e2 : (cstr "Fw:").map tolower = [102, 119, 58] := by decide
  have e3 : (cstr "Re[").map tolower = [114, 101, 91] := by decide
  have e4 : cstr "]:" = [93, 58] := by decide
  simp only [isReplyMarker, strcaseeq, e1, e2, e3, e4, Bool.or_eq_true, Bool.and_eq_true,
    beq_iff_eq] at hm
  rcases hm with (hm | hm) | ⟨hm, hdw⟩
  · obtain ⟨a, b, c, rfl, ha, hb, hc⟩ := map_tolower_three m _ _ _ hm
    refine ⟨fun post => isre_three a b c post ⟨Or.inl ⟨ha, hb⟩, hc⟩, fun post => ?_, ?_⟩
    · simp [ltrim, List.dropWhile_cons, isspace_false_of_letter a _ ha (by decide)]
    · intro x hx
      simp only [List.mem_cons, List.mem_singleton, List.not_mem_nil, or_false] at hx
      rcases hx with rfl | rfl | rfl
      · exact notEOL_of_ge _ (tolower_ge _ _ ha (by decide))
      · exact notEOL_of_ge _ (tolower_ge _ _ hb (by decide))
      · exact notEOL_of_ge _ (tolower_ge _ _ hc (by decide))
  · obtain ⟨a, b, c, rfl, ha, hb, hc⟩ := map_tolower_three m _ _ _ hm
    refine ⟨fun post => isre_three a b c post ⟨Or.inr ⟨ha, hb⟩, hc⟩, fun post => ?_, ?_⟩
    · simp [ltrim, List.dropWhile_cons, isspace_false_of_letter a _ ha (by decide)]
    · intro x hx
      simp only [List.mem_cons, List.mem_singleton, List.not_mem_nil, or_false] at hx
      rcases hx with rfl | rfl | rfl
      · exact notEOL_of_ge _ (tolower_ge _ _ ha (by decide))
      · exact notEOL_of_ge _ (tolower_ge _ _ hb (by decide))
      · exact notEOL_of_ge _ (tolower_ge _ _ hc (by decide))
  · obtain ⟨a, b, c, h3, ha, hb, hc⟩ := map_tolower_three (m.take 3) _ _ _ hm
    have hsplit : m = [a, b, c] ++ ((m.drop 3).takeWhile isdigit ++ [93, 58]) := by
      rw [← hdw, List.takeWhile_append_dropWhile, ← h3, List.take_append_drop]
    have hd : ∀ d ∈ (m.drop 3).takeWhile isdigit, isdigit d = true :=
      fun d hd => List.mem_takeWhile_imp hd
    generalize (m.drop 3).takeWhile isdigit = digits at hsplit hd
    subst hsplit
    refine ⟨fun post => ?_, fun post => ?_, ?_⟩
    · have := isre_bracket a b c digits post ⟨ha, hb, hc⟩ hd
      simpa using this
    · simp [ltrim, List.dropWhile_cons, isspace_false_of_letter a _ ha (by decide)]
    · intro x hx
      simp only [List.cons_append, List.nil_append, List.mem_cons, List.mem_append,
        List.not_mem_nil, or_false] at hx
      rcases hx with rfl | rfl | rfl | hx | rfl | rfl
      · exact notEOL_of_ge _ (tolower_ge _ _ ha (by decide))
      · exact notEOL_of_ge _ (tolower_ge _ _ hb (by decide))
      · exact notEOL_of_ge _ (tolower_ge _ _ hc (by decide))
      · have := hd x hx
        have hr : 48 ≤ x ∧ x ≤ 57 := by simpa [isdigit] using this
        exact notEOL_of_ge _ (by omega)
      · decide
      · decide


theorem rtrim_firstLine_ne_nil (post : CStr) (hc : ∃ c ∈ firstLine post, isspace c = false) :
    rtrim (firstLine post) ≠ [] := by
  intro h
  rw [rtrim, List.rdropWhile_eq_nil_iff] at h
  obtain ⟨c, hc1, hc2⟩ := hc
  have := h c hc1
  simp [hc2] at this

theorem atLineEnd_false (post : CStr) (hc : ∃ c ∈ firstLine post, isspace c = false) :
    atLineEnd post = false := by
  obtain ⟨c, hc1, _⟩ := hc
  cases post with
  | nil => simp [firstLine] at hc1
  | cons ch rest =>
    rw [firstLine_cons] at hc1
    by_cases h : ch = 10 ∨ ch = 13
    · simp [h] at hc1
    · have h1 : ch ≠ 10 := fun e => h (Or.inl e)
      have h2 : ch ≠ 13 := fun e => h (Or.inr e)
      simp [atLineEnd, h1, h2]

theorem rtrim_last_not_space (l : CStr) : (rtrim l).getLast?.any isspace = false := by
  by_cases hne : rtrim l = []
  · simp [hne]
  · have hl := List.rdropWhile_last_not isspace l hne
    rw [List.getLast?_eq_getLast _ hne]
    simpa [rtrim] using hl

theorem getsubject_strip_eq (replace : CStr → CStr → CStr → CStr)
    (set_stripsubject : Option CStr) (NOSUBJECT name : CStr) (sep : Nat) (value : CStr)
    (hname : 58 ∉ name) :
    getsubject replace set_stripsubject NOSUBJECT (name ++ 58 :: sep :: value) =
      some (subjectOfValue NOSUBJECT (strippedSubject replace set_stripsubject value)) := by
  cases set_stripsubject with
  | none => exact getsubject_eq replace NOSUBJECT name sep value hname
  | some strip =>
    have h := getsubject_eq replace NOSUBJECT name sep (replace value strip []) hname
    show _ = some (subjectOfValue NOSUBJECT (replace value strip []))
    rw [← h]
    unfold getsubject
    rw [dropWhile_colon name _ hname, dropWhile_colon name _ hname]

/-- C4 (amended): `getsubject` keeps the reply markers.  Let the header value, after
`replace` has removed the configured strip text from it (the value itself when
none is configured), be a reply marker ("Re:", "Fw:", "Re[n]:") followed by text
with a visible character on its first line.  Then the result is the marker
followed by that text up to the end of the line, without trailing white space:
nothing is stripped from the front. -/
theorem getsubject_keeps_reply_marker (replace : CStr → CStr → CStr → CStr)
    (set_stripsubject : Option CStr) (NOSUBJECT name : CStr) (sep : Nat) (value m post : CStr)
    (hname : 58 ∉ name)
    (hv : strippedSubject replace set_stripsubject value = m ++ post)
    (hm : isReplyMarker m = true) (hc : ∃ c ∈ firstLine post, isspace c = false) :
    getsubject replace set_stripsubject NOSUBJECT (name ++ 58 :: sep :: value) =
      some (m ++ rtrim (firstLine post)) := by
  obtain ⟨hre, hlt, heol⟩ := isReplyMarker_props m hm
  have hne := rtrim_firstLine_ne_nil post hc
  have hfl : firstLine (m ++ post) = m ++ firstLine post := by
    simp only [firstLine]
    exact List.takeWhile_append_of_pos heol
  rw [getsubject_strip_eq replace set_stripsubject NOSUBJECT name sep _ hname, hv,
    subjectOfValue, hlt, hfl, rtrim_append _ _ hne, markerOnly, hre]
  simp [atLineEnd_false post hc, hne]

/-- The claim C4 (amended) at "Subject: Re: Re[2]: lunch" with no strip text: the
marker "Re:" and the text after it are both kept. -/
theorem getsubject_keeps_reply_marker_witness :
    58 ∉ cstr "Subject" ∧
    strippedSubject (fun c _ _ => c) none (cstr "Re: Re[2]: lunch") =
      cstr "Re:" ++ cstr " Re[2]: lunch" ∧
    isReplyMarker (cstr "Re:") = true ∧
    (∃ c ∈ firstLine (cstr " Re[2]: lunch"), isspace c = false) ∧
    getsubject (fun c _ _ => c) none (cstr "(no subject)")
        (cstr "Subject" ++ 58 :: 32 :: cstr "Re: Re[2]: lunch") =
      some (cstr "Re:" ++ rtrim (firstLine (cstr " Re[2]: lunch"))) :=
  ⟨by decide, by decide, by decide, ⟨82, by decide, by decide⟩,
    getsubject_keeps_reply_marker (fun c _ _ => c) none (cstr "(no subject)") (cstr "Subject")
      32 (cstr "Re: Re[2]: lunch") (cstr "Re:") (cstr " Re[2]: lunch") (by decide) (by decide)
      (by decide) ⟨82, by decide, by decide⟩⟩

/-- C4 as stated fails: for "Subject: Re: Re[2]: lunch" the code returns
"Re: Re[2]: lunch", not "lunch". -/
theorem getsubject_does_not_strip_markers :
    getsubject (fun c _ _ => c) none (cstr "(no subject)") (cstr "Subject: Re: Re[2]: lunch") =
      some (cstr "Re: Re[2]: lunch") ∧
    getsubject (fun c _ _ => c) none (cstr "(no subject)") (cstr "Subject: Re: Re[2]: lunch") ≠
      some (cstr "lunch") := by
  decide

/-- C5 (amended): with no strip prefix, for a header line name ":" byte value,
`getsubject` first passes the leading white space of the value, line
terminators included.  It returns the placeholder when what remains has no
visible character on its first line or starts with a reply marker accepted by
`isre` that is immediately followed by the end of the line, and otherwise the
first line of what remains without trailing white space.  With a non-empty
placeholder that does not end in white space the result is never empty and
never ends in white space. -/
theorem getsubject_placeholder_or_trimmed (replace : CStr → CStr → CStr → CStr)
    (NOSUBJECT name : CStr) (sep : Nat) (value : CStr) (hname : 58 ∉ name)
    (hns : NOSUBJECT ≠ [] ∧ NOSUBJECT.getLast?.any isspace = false) :
    ∃ r, getsubject replace none NOSUBJECT (name ++ 58 :: sep :: value) = some r ∧
      r = subjectOfValue NOSUBJECT value ∧ r ≠ [] ∧ r.getLast?.any isspace = false := by
  refine ⟨_, getsubject_eq replace NOSUBJECT name sep value hname, rfl, ?_, ?_⟩
  · unfold subjectOfValue
    split
    · exact hns.1
    · rename_i h
      exact fun e => h (Or.inl e)
  · unfold subjectOfValue
    split
    · exact hns.2
    · exact rtrim_last_not_space _

/-- The claim C5 (amended) at "Subject:  hello world \r\n". -/
theorem getsubject_placeholder_or_trimmed_witness :
    58 ∉ cstr "Subject" ∧
    (cstr "(no subject)" ≠ [] ∧ (cstr "(no subject)").getLast?.any isspace = false) ∧
    ∃ r, getsubject (fun c _ _ => c) none (cstr "(no subject)")
        (cstr "Subject" ++ 58 :: 32 :: cstr " hello world \r\n") = some r ∧
      r = subjectOfValue (cstr "(no subject)") (cstr " hello world \r\n") ∧ r ≠ [] ∧
      r.getLast?.any isspace = false :=
  ⟨by decide, ⟨by decide, by decide⟩,
    getsubject_placeholder_or_trimmed (fun c _ _ => c) (cstr "(no subject)") (cstr "Subject") 32
      (cstr " hello world \r\n") (by decide) ⟨by decide, by decide⟩⟩

/-- C5 as stated fails in two places.  For "Subject: \nlunch" the value has no
visible character before the end of its first line, yet the code returns
"lunch" and not the placeholder.  For "Subject:  Re:\n" the value " Re:" is
not a reply marker at its start, yet the code returns the placeholder and not
the trimmed first line "Re:". -/
theorem getsubject_not_as_claimed :
    getsubject (fun c _ _ => c) none (cstr "(no subject)") (cstr "Subject: \nlunch") =
      some (cstr "lunch") ∧
    subjectAsClaimed (cstr "(no subject)") (cstr "\nlunch") = cstr "(no subject)" ∧
    getsubject (fun c _ _ => c) none (cstr "(no subject)") (cstr "Subject:  Re:\n") =
      some (cstr "(no subject)") ∧
    subjectAsClaimed (cstr "(no subject)") (cstr " Re:\n") = cstr "Re:" := by
  decide

/-! ## Quoted-printable body lines -/

theorem hexval_le (c : Nat) : hexval c ≤ 15 := by
  unfold hexval
  split
  · omega
  · split
    · omega
    · split <;> omega

theorem isxdigit_ne (c : Nat) (h : isxdigit c = true) : c ≠ 10 ∧ c ≠ 61 := by
  simp only [isxdigit, Bool.or_eq_true, Bool.and_eq_true, decide_eq_true_eq] at h
  omega

theorem qpDecoded_cons_ne (c : Nat) (rest : CStr) (h : c ≠ 61) :
    qpDecoded (c :: rest) = c :: qpDecoded rest := by
  match rest with
  | [] => simp [qpDecoded]
  | [_] => simp [qpDecoded]
  | _ :: _ :: _ => simp [qpDecoded, h]

theorem wellFormedQP_cons_ne (c : Nat) (rest : CStr) (h : c ≠ 61) :
    wellFormedQP (c :: rest) = wellFormedQP rest := by
  match rest with
  | [] => simp [wellFormedQP, h]
  | [_] => simp [wellFormedQP, h]
  | _ :: _ :: _ => simp [wellFormedQP, h]

theorem mdecodeQP_loop_wellFormed (m : Nat) :
    ∀ (n : Nat) (input : CStr), input.length ≤ n →
      ∀ (fuel : Nat) (file : List CStr) (out : List Nat) (cnt : Nat) (pbuf : CStr),
        wellFormedQP input = true → input.length < fuel →
        mdecodeQP_loop m fuel
            { file := file, input := input, output := out, outcount := cnt, pbuf := pbuf } =
          .done { file := file, input := [], output := out ++ qpDecoded input,
                  outcount := cnt + (qpDecoded input).length, pbuf := pbuf } := by
  intro n
  induction n with
  | zero =>
    intro input hlen fuel file out cnt pbuf _ hfuel
    have : input = [] := List.length_eq_zero.mp (by omega)
    subst this
    obtain ⟨f, rfl⟩ : ∃ f, fuel = f + 1 := ⟨fuel - 1, by simp at hfuel; omega⟩
    simp [mdecodeQP_loop, runLoop, mdecodeQP_body, qpDecoded]
  | succ n ih =>
    intro input hlen fuel file out cnt pbuf hwf hfuel
    obtain ⟨f, rfl⟩ : ∃ f, fuel = f + 1 := ⟨fuel - 1, by omega⟩
    match input, hlen, hwf, hfuel with
    | [], _, _, _ => simp [mdecodeQP_loop, runLoop, mdecodeQP_body, qpDecoded]
    | c :: rest, hlen, hwf, hfuel =>
      by_cases hc : c = 61
      · subst hc
        match rest, hlen, hwf, hfuel with
        | [], _, hwf, _ => simp [wellFormedQP] at hwf
        | [_], _, hwf, _ => simp [wellFormedQP] at hwf
        | x :: y :: rest2, hlen, hwf, hfuel =>
          simp only [wellFormedQP, if_true, Bool.and_eq_true] at hwf
          obtain ⟨⟨hx, hy⟩, hwf2⟩ := hwf
          have hxne := isxdigit_ne x hx
          simp only [List.length_cons] at hlen hfuel
          have := ih rest2 (by omega) f file (out ++ [sscanf_02X x y % 256]) (cnt + 1) pbuf hwf2
            (by omega)
          have hv : sscanf_02X x y % 256 = 16 * hexval x + hexval y := by
            have h1 := hexval_le x
            have h2 := hexval_le y
            simp only [sscanf_02X, hy, if_true]
            omega
          rw [mdecodeQP_loop] at this ⊢
          rw [runLoop_next (mdecodeQP_body m) f _ _
            (by simp only [mdecodeQP_body, if_true, hxne.1, hxne.2, if_false, hx]; rfl), this]
          simp only [qpDecoded, if_true, hv, List.length_cons, List.append_assoc,
            List.singleton_append]
          congr 2
          omega
      · rw [wellFormedQP_cons_ne c rest hc] at hwf
        simp only [List.length_cons] at hlen hfuel
        have := ih rest (by omega) f file (out ++ [c]) (cnt + 1) pbuf hwf (by omega)
        rw [mdecodeQP_loop] at this ⊢
        rw [runLoop_next (mdecodeQP_body m) f _ _
          (by simp only [mdecodeQP_body, hc, if_false]; rfl), this]
        simp only [qpDecoded_cons_ne c rest hc, List.length_cons,
          List.append_assoc, List.singleton_append]
        congr 2
        omega

/-- C9: for a line in which each '=' is followed by two hexadecimal digits (so
without soft line break), `mdecodeQP` leaves its loop with every "=XY"
replaced by the byte 0xXY and every other byte copied in order, reports the
number of bytes produced as length, reads nothing from the file and pushes
nothing. -/
theorem mdecodeQP_wellFormed (set_ietf_mbox : Nat) (file : List CStr) (line : CStr)
    (h : wellFormedQP line = true) :
    mdecodeQP set_ietf_mbox file line =
      .done { file := file, input := [], output := qpDecoded line,
              outcount := (qpDecoded line).length, pbuf := [] } := by
  have := mdecodeQP_loop_wellFormed set_ietf_mbox line.length line (le_refl _)
    (qpMeasure file line + 1) file [] 0 [] h (by simp [qpMeasure]; omega)
  simpa [mdecodeQP] using this

/-- The claim C9 at the line "Caf=E9": the four bytes 'C', 'a', 'f', 0xE9. -/
theorem mdecodeQP_wellFormed_witness :
    wellFormedQP (cstr "Caf=E9") = true ∧
    mdecodeQP 0 [] (cstr "Caf=E9") =
      .done { file := [], input := [], output := qpDecoded (cstr "Caf=E9"),
              outcount := (qpDecoded (cstr "Caf=E9")).length, pbuf := [] } ∧
    qpDecoded (cstr "Caf=E9") = [67, 97, 102, 0xE9] :=
  ⟨by decide, mdecodeQP_wellFormed 0 [] (cstr "Caf=E9") (by decide), by decide⟩

/-- C10 at a CRLF line: for the line "a=" CR LF followed by the line "b" LF the
code stores '=', CR and LF in the output and reads no further line, whereas
for "a=" LF it stores neither and continues with the next line. -/
theorem mdecodeQP_crlf_soft_break_kept :
    mdecodeQP 0 [cstr "b\n"] (cstr "a=\r\n") =
      .done { file := [cstr "b\n"], input := [], output := cstr "a=\r\n", outcount := 4,
              pbuf := [] } ∧
    mdecodeQP 0 [cstr "b\n"] (cstr "a=\n") =
      .done { file := [], input := [], output := cstr "ab\n", outcount := 3,
              pbuf := cstr "b\n" } := by
  decide

/-! ## Encoded words -/

theorem scanSet_run (limit : Nat) (p : Nat → Bool) (tok : CStr) (c : Nat) (rest : CStr)
    (hne : tok ≠ []) (hp : ∀ x ∈ tok, p x = true) (hc : p c = false)
    (hlen : tok.length ≤ limit) :
    scanSet limit p (tok ++ c :: rest) = some (tok, c :: rest) := by
  have h1 : (tok ++ c :: rest).takeWhile p = tok := by
    rw [List.takeWhile_append_of_pos hp, List.takeWhile_cons]
    simp [hc]
  simp [scanSet, h1, List.take_of_length_le hlen, hne]

theorem scanSet_head (limit : Nat) (p : Nat → Bool) (c : Nat) (rest : CStr)
    (hc : p c = true) (hlimit : 0 < limit) : (scanSet limit p (c :: rest)).isSome = true := by
  obtain ⟨k, rfl⟩ : ∃ k, limit = k + 1 := ⟨limit - 1, by omega⟩
  simp [scanSet, List.takeWhile_cons, hc]

theorem sscanf_word_valid (cs : CStr) (e t0 : Nat) (trest : CStr)
    (hne : cs ≠ []) (hcs : ∀ x ∈ cs, (x != 63) = true) (hlen : cs.length ≤ 128)
    (he : e ≠ 63) (ht : t0 ≠ 32) :
    sscanf_word (cs ++ 63 :: e :: 63 :: t0 :: trest) = some (cs, [e]) := by
  have h1 := scanSet_run 128 (fun c => c != 63) cs 63 (e :: 63 :: t0 :: trest) hne hcs
    (by simp) hlen
  have h2 := scanSet_run 32 (fun c => c != 63) [e] 63 (t0 :: trest) (by simp)
    (by simpa using he) (by simp) (by simp)
  have h3 := scanSet_head 128 (fun c => c != 32) t0 trest (by simpa using ht) (by decide)
  obtain ⟨r, hr⟩ := Option.isSome_iff_exists.mp h3
  simp only [List.singleton_append] at h2
  simp [sscanf_word, h1, scanQuestion, h2, hr]

theorem sscanf_next_word_valid (cs : CStr) (e t0 : Nat) (trest : CStr)
    (hne : cs ≠ []) (hcs : ∀ x ∈ cs, (x != 63) = true) (hlen : cs.length ≤ 128)
    (he : e ≠ 63) (ht : t0 ≠ 63) :
    sscanf_next_word (cs ++ 63 :: e :: 63 :: t0 :: trest) = some (cs, [e]) := by
  have h1 := scanSet_run 128 (fun c => c != 63) cs 63 (e :: 63 :: t0 :: trest) hne hcs
    (by simp) hlen
  have h2 := scanSet_run 32 (fun c => c != 63) [e] 63 (t0 :: trest) (by simp)
    (by simpa using he) (by simp) (by simp)
  have h3 := scanSet_head 128 (fun c => c != 63) t0 trest (by simpa using ht) (by decide)
  obtain ⟨r, hr⟩ := Option.isSome_iff_exists.mp h3
  simp only [List.singleton_append] at h2
  simp [sscanf_next_word, h1, scanQuestion, h2, hr]

theorem beforeQuestionEquals_text (text after : CStr) (h : ∀ x ∈ text, (x != 63) = true) :
    beforeQuestionEquals (text ++ 63 :: 61 :: after) = some text := by
  induction text with
  | nil => simp [beforeQuestionEquals]
  | cons c rest ih =>
    have hc : c ≠ 63 := by simpa using h c (by simp)
    have hrest : ∀ x ∈ rest, (x != 63) = true := fun x hx => h x (by simp [hx])
    have ih2 := ih hrest
    cases hq : rest ++ 63 :: 61 :: after with
    | nil => simp at hq
    | cons d tl =>
      rw [List.cons_append, hq, beforeQuestionEquals]
      simp only [hc, false_and, if_false]
      rw [← hq, ih2]
      rfl

theorem extract_valid (pe : Option CStr) (cs : CStr) (e : Nat) (text after : CStr)
    (hcs : ∀ x ∈ cs, (x != 63) = true)
    (he : e = 81 ∨ e = 113 ∨ e = 66 ∨ e = 98) (hne : text ≠ [])
    (ht : ∀ x ∈ text, (x != 63) = true) :
    extract_rfc2047_content pe (61 :: 63 :: (cs ++ 63 :: e :: 63 :: (text ++ 63 :: 61 :: after))) =
      some text := by
  have h1 : List.dropWhile (fun c => c != 63) (cs ++ 63 :: e :: 63 :: (text ++ 63 :: 61 :: after))
      = 63 :: e :: 63 :: (text ++ 63 :: 61 :: after) := by
    rw [List.dropWhile_append_of_pos hcs, List.dropWhile_cons]
    simp
  simp [extract_rfc2047_content, h1, he, beforeQuestionEquals_text text after ht, hne]


theorem isxdigit_not_space_sign (c : Nat) (h : isxdigit c = true) :
    isspace c = false ∧ c ≠ 43 ∧ c ≠ 45 := by
  simp only [isxdigit, Bool.or_eq_true, Bool.and_eq_true, decide_eq_true_eq] at h
  refine ⟨?_, by omega, by omega⟩
  simp only [isspace, Bool.or_eq_false_iff, beq_eq_false_iff_ne, ne_eq,
    Bool.and_eq_false_iff, decide_eq_false_iff_not]
  omega

theorem sscanf_02X_any_hex (x y : Nat) (rest : CStr) (hx : isxdigit x = true)
    (hy : isxdigit y = true) :
    sscanf_02X_any (x :: y :: rest) = some (16 * hexval x + hexval y) := by
  obtain ⟨h1, h2, h3⟩ := isxdigit_not_space_sign x hx
  simp [sscanf_02X_any, List.dropWhile_cons, h1, h2, h3, hx, sscanf_02X, hy]

theorem qDecoded_cons_ne (c : Nat) (rest : CStr) (h : c ≠ 61) :
    qDecoded (c :: rest) = (if c = 95 then 32 else c) :: qDecoded rest := by
  match rest with
  | [] => simp [qDecoded]
  | [_] => simp [qDecoded]
  | _ :: _ :: _ => simp [qDecoded, h]

theorem qdecode_wellFormed :
    ∀ (n : Nat) (text : CStr), text.length ≤ n → ∀ v : Option Nat,
      wellFormedQP text = true → ∃ v2, qdecode v text = some (qDecoded text, v2) := by
  intro n
  induction n with
  | zero =>
    intro text hlen v _
    have : text = [] := List.length_eq_zero.mp (by omega)
    subst this
    exact ⟨v, by simp [qdecode, qDecoded]⟩
  | succ n ih =>
    intro text hlen v hwf
    match text, hlen, hwf with
    | [], _, _ => exact ⟨v, by simp [qdecode, qDecoded]⟩
    | c :: rest, hlen, hwf =>
      by_cases hc : c = 61
      · subst hc
        match rest, hlen, hwf with
        | [], _, hwf => simp [wellFormedQP] at hwf
        | [_], _, hwf => simp [wellFormedQP] at hwf
        | x :: y :: rest2, hlen, hwf =>
          simp only [wellFormedQP, if_true, Bool.and_eq_true] at hwf
          obtain ⟨⟨hx, hy⟩, hwf2⟩ := hwf
          simp only [List.length_cons] at hlen
          obtain ⟨v2, hv2⟩ := ih rest2 (by omega) (some (16 * hexval x + hexval y)) hwf2
          refine ⟨v2, ?_⟩
          have hv : (16 * hexval x + hexval y) % 256 = 16 * hexval x + hexval y := by
            have h1 := hexval_le x
            have h2 := hexval_le y
            omega
          rw [qdecode]
          simp [sscanf_02X_any_hex x y rest2 hx hy, hv2, hv, qDecoded]
      · rw [wellFormedQP_cons_ne c rest hc] at hwf
        simp only [List.length_cons] at hlen
        obtain ⟨v2, hv2⟩ := ih rest (by omega) v hwf
        refine ⟨v2, ?_⟩
        rw [qdecode, qDecoded_cons_ne c rest hc]
        by_cases h95 : c = 95
        · simp [hc, h95, hv2]
        · simp [hc, h95, hv2]


theorem validWord_cases (cs enc text : CStr) (h : validWord cs enc text = true) :
    cs ≠ [] ∧ (∀ x ∈ cs, (x != 63) = true) ∧ cs.length ≤ 128 ∧
    ∃ e, enc = [e] ∧ (e = 81 ∨ e = 113 ∨ e = 66 ∨ e = 98) ∧
      (∀ x ∈ text, (x != 63) = true) ∧
      (∃ t0 trest, text = t0 :: trest ∧ t0 ≠ 32 ∧ t0 ≠ 63) ∧
      ((e = 81 ∨ e = 113) → wellFormedQP text = true) := by
  simp only [validWord, wellFormedQ, Bool.and_eq_true, Bool.or_eq_true, bne_iff_ne, ne_eq,
    List.all_eq_true, decide_eq_true_eq, beq_iff_eq] at h
  obtain ⟨⟨⟨h1, h2⟩, h3⟩, h4⟩ := h
  refine ⟨h1, fun x hx => by simpa using h2 x hx, h3, ?_⟩
  rcases h4 with ⟨he, ⟨hne, hall⟩, hwf⟩ | ⟨⟨⟨he, hne⟩, hall⟩, hhead⟩
  · obtain ⟨e, rfl, hee⟩ : ∃ e, enc = [e] ∧ (e = 81 ∨ e = 113) := by
      rcases he with rfl | rfl
      · exact ⟨81, rfl, Or.inl rfl⟩
      · exact ⟨113, rfl, Or.inr rfl⟩
    refine ⟨e, rfl, by omega, fun x hx => by simpa using (hall x hx).1, ?_, fun _ => hwf⟩
    cases text with
    | nil => exact absurd rfl hne
    | cons t0 trest =>
      have := hall t0 (by simp)
      exact ⟨t0, trest, rfl, this.2, this.1⟩
  · obtain ⟨e, rfl, hee⟩ : ∃ e, enc = [e] ∧ (e = 66 ∨ e = 98) := by
      rcases he with rfl | rfl
      · exact ⟨66, rfl, Or.inl rfl⟩
      · exact ⟨98, rfl, Or.inr rfl⟩
    refine ⟨e, rfl, by omega, fun x hx => by simpa using hall x hx, ?_, fun h => by omega⟩
    cases text with
    | nil => exact absurd rfl hne
    | cons t0 trest =>
      have := hall t0 (by simp)
      refine ⟨t0, trest, rfl, ?_, this⟩
      simpa using hhead

theorem encodedWord_append (cs : CStr) (e : Nat) (text after : CStr) :
    encodedWord cs [e] text ++ after =
      61 :: 63 :: (cs ++ 63 :: e :: 63 :: (text ++ 63 :: 61 :: after)) := by
  have e1 : cstr "=?" = [61, 63] := by decide
  have e2 : cstr "?=" = [63, 61] := by decide
  simp [encodedWord, e1, e2]

theorem encodedWord_length (cs : CStr) (e : Nat) (text : CStr) :
    (encodedWord cs [e] text).length = 2 + cs.length + 1 + 1 + 1 + text.length + 2 := by
  have e1 : cstr "=?" = [61, 63] := by decide
  have e2 : cstr "?=" = [63, 61] := by decide
  simp [encodedWord, e1, e2]
  omega

theorem decodePayload_valid (conv : Option (CStr → CStr → CStr)) (b64 : CStr → List Nat)
    (cs : CStr) (e : Nat) (text : CStr) (v : Option Nat) (csave : CStr)
    (he : e = 81 ∨ e = 113 ∨ e = 66 ∨ e = 98)
    (hq : (e = 81 ∨ e = 113) → wellFormedQP text = true) :
    ∃ v2, decodePayload conv b64 cs [e] text v csave =
      some (decodedText conv b64 cs [e] text, v2, savedCharset conv cs csave) := by
  have q1 : strcaseeq (cstr "q") [81] = true := by decide
  have q2 : strcaseeq (cstr "q") [113] = true := by decide
  have q3 : strcaseeq (cstr "q") [66] = false := by decide
  have q4 : strcaseeq (cstr "q") [98] = false := by decide
  have b3 : strcaseeq (cstr "b") [66] = true := by decide
  have b4 : strcaseeq (cstr "b") [98] = true := by decide
  rcases he with rfl | rfl | rfl | rfl
  · obtain ⟨v2, hv2⟩ := qdecode_wellFormed text.length text (le_refl _) v (hq (Or.inl rfl))
    refine ⟨v2, ?_⟩
    cases conv <;> simp [decodePayload, q1, hv2, decodedText, applyConv, savedCharset]
  · obtain ⟨v2, hv2⟩ := qdecode_wellFormed text.length text (le_refl _) v (hq (Or.inr rfl))
    refine ⟨v2, ?_⟩
    cases conv <;> simp [decodePayload, q2, hv2, decodedText, applyConv, savedCharset]
  · refine ⟨v, ?_⟩
    cases conv <;> simp [decodePayload, q3, b3, decodedText, applyConv, savedCharset]
  · refine ⟨v, ?_⟩
    cases conv <;> simp [decodePayload, q4, b4, decodedText, applyConv, savedCharset]

theorem strneq_eqq (rest : CStr) : strneq (61 :: 63 :: rest) (cstr "=?") 2 = true := by
  have e1 : List.take 2 (cstr "=?") = [61, 63] := by decide
  simp [strneq, e1]

theorem atEncodedWord_valid (pe : Option CStr) (cs enc text after : CStr)
    (h : validWord cs enc text = true) :
    atEncodedWord pe (encodedWord cs enc text ++ after) = true := by
  obtain ⟨h1, h2, h3, e, rfl, he, ht, ⟨t0, trest, rfl, ht32, ht63⟩, _⟩ := validWord_cases cs enc text h
  have he63 : e ≠ 63 := by omega
  rw [encodedWord_append, atEncodedWord, strneq_eqq, extract_valid pe cs e _ after h2 he
    (by simp) ht]
  simp only [List.drop_succ_cons, List.drop_zero, List.cons_append]
  rw [sscanf_next_word_valid cs e t0 _ h1 h2 h3 he63 ht63]
  rfl

theorem word_step (conv : Option (CStr → CStr → CStr)) (b64 : CStr → List Nat)
    (pe : Option CStr) (cs enc text after : CStr) (h : validWord cs enc text = true)
    (fuel : Nat) (out : List Nat) (did : Bool) (v : Option Nat) (csave : CStr) :
    ∃ v2, mdecodeRFC2047_loop conv b64 pe (fuel + 1)
        { iptr := encodedWord cs enc text ++ after, output := out, didanything := did,
          value := v, charsetsave := csave } =
      mdecodeRFC2047_loop conv b64 pe fuel
        { iptr := if atEncodedWord pe (after.dropWhile isspace) = true
            then after.dropWhile isspace else after,
          output := out ++ decodedText conv b64 cs enc text, didanything := true,
          value := v2, charsetsave := savedCharset conv cs csave } := by
  obtain ⟨h1, h2, h3, e, rfl, he, ht, ⟨t0, trest, rfl, ht32, ht63⟩, hq⟩ := validWord_cases cs enc text h
  have he63 : e ≠ 63 := by omega
  obtain ⟨v2, hv2⟩ := decodePayload_valid conv b64 cs e (t0 :: trest) v csave he hq
  refine ⟨v2, ?_⟩
  have hlen := encodedWord_length cs e (t0 :: trest)
  have happ := encodedWord_append cs e (t0 :: trest) after
  have hdrop : List.drop (2 + cs.length + 1 + [e].length + 1 + (t0 :: trest).length + 2)
      (61 :: 63 :: (cs ++ 63 :: e :: 63 :: (t0 :: trest ++ 63 :: 61 :: after))) = after := by
    rw [← happ, show 2 + cs.length + 1 + [e].length + 1 + (t0 :: trest).length + 2 =
      (encodedWord cs [e] (t0 :: trest)).length by rw [hlen]; simp]
    exact List.drop_left _ _
  have hs := strneq_eqq (cs ++ 63 :: e :: 63 :: (t0 :: trest ++ 63 :: 61 :: after))
  have hsc : sscanf_word (List.drop 2
      (61 :: 63 :: (cs ++ 63 :: e :: 63 :: (t0 :: trest ++ 63 :: 61 :: after)))) =
      some (cs, [e]) := by
    simp only [List.drop_succ_cons, List.drop_zero, List.cons_append]
    exact sscanf_word_valid cs e t0 _ h1 h2 h3 he63 ht32
  have hx := extract_valid pe cs e (t0 :: trest) after h2 he (by simp) ht
  rw [happ, mdecodeRFC2047_loop, mdecodeRFC2047_loop]
  exact runLoop_next _ fuel _ _
    (by simp only [mdecodeRFC2047_body, hs, hsc, hx, hv2, hdrop, if_true])


theorem strneq_no_question (c : Nat) (l : CStr) (h : l.head? ≠ some 63) :
    strneq (c :: l) (cstr "=?") 2 = false := by
  have e1 : List.take 2 (cstr "=?") = [61, 63] := by decide
  cases l with
  | nil => simp [strneq, e1]
  | cons d rest =>
    have hd : d ≠ 63 := by simpa using h
    simp [strneq, e1, hd]

theorem head_append_no_question (a b : CStr) (ha : ∀ x ∈ a, x ≠ 63) (hb : b.head? ≠ some 63) :
    (a ++ b).head? ≠ some 63 := by
  cases a with
  | nil => simpa using hb
  | cons c rest =>
    have := ha c (by simp)
    simpa using this

theorem copy_run (conv : Option (CStr → CStr → CStr)) (b64 : CStr → List Nat)
    (pe : Option CStr) (b : CStr) (hb : b.head? ≠ some 63) :
    ∀ (a : CStr), (∀ x ∈ a, x ≠ 63) →
      ∀ (fuel : Nat) (out : List Nat) (did : Bool) (v : Option Nat) (csave : CStr),
        mdecodeRFC2047_loop conv b64 pe (fuel + a.length)
            { iptr := a ++ b, output := out, didanything := did, value := v,
              charsetsave := csave } =
          mdecodeRFC2047_loop conv b64 pe fuel
            { iptr := b, output := out ++ a, didanything := did, value := v,
              charsetsave := csave } := by
  intro a
  induction a with
  | nil => intro _ fuel out did v csave; simp
  | cons c rest ih =>
    intro ha fuel out did v csave
    have hrest : ∀ x ∈ rest, x ≠ 63 := fun x hx => ha x (by simp [hx])
    have hs := strneq_no_question c (rest ++ b) (head_append_no_question rest b hrest hb)
    have := ih hrest fuel (out ++ [c]) did v csave
    rw [mdecodeRFC2047_loop] at this ⊢
    rw [List.length_cons, ← Nat.add_assoc, List.cons_append,
      runLoop_next (mdecodeRFC2047_body conv b64 pe) _ _ _
        (by simp only [mdecodeRFC2047_body, hs, Bool.false_eq_true, if_false]; rfl), this]
    simp only [mdecodeRFC2047_loop, List.append_assoc, List.singleton_append]

theorem loop_end (conv : Option (CStr → CStr → CStr)) (b64 : CStr → List Nat)
    (pe : Option CStr) (fuel : Nat) (st : RFC2047State) (h : st.iptr = []) :
    mdecodeRFC2047_loop conv b64 pe (fuel + 1) st = .done st := by
  rw [mdecodeRFC2047_loop]
  exact runLoop_exit _ fuel st st (by simp only [mdecodeRFC2047_body, h])

theorem atEncodedWord_no_question (pe : Option CStr) (l : CStr) (h : ∀ x ∈ l, x ≠ 63) :
    atEncodedWord pe l = false := by
  cases l with
  | nil =>
    have : strneq [] (cstr "=?") 2 = false := by decide
    simp [atEncodedWord, this]
  | cons c rest =>
    have hr : rest.head? ≠ some 63 := by
      cases rest with
      | nil => simp
      | cons d _ => simpa using h d (by simp)
    simp [atEncodedWord, strneq_no_question c rest hr]

theorem isspace_ne_question (x : Nat) (h : isspace x = true) : x ≠ 63 := by
  simp only [isspace, Bool.or_eq_true, beq_iff_eq, Bool.and_eq_true, decide_eq_true_eq] at h
  omega

theorem dropWhile_space_word (ws cs enc text after : CStr) (hws : ∀ x ∈ ws, isspace x = true) :
    (ws ++ (encodedWord cs enc text ++ after)).dropWhile isspace =
      encodedWord cs enc text ++ after := by
  have e1 : cstr "=?" = [61, 63] := by decide
  rw [List.dropWhile_append_of_pos hws]
  simp [encodedWord, e1, List.dropWhile_cons, isspace]


theorem encodedWord_length_ge (cs enc text : CStr) : 4 ≤ (encodedWord cs enc text).length := by
  have e1 : cstr "=?" = [61, 63] := by decide
  have e2 : cstr "?=" = [63, 61] := by decide
  simp [encodedWord, e1, e2]
  omega

theorem two_words (conv : Option (CStr → CStr → CStr)) (b64 : CStr → List Nat)
    (pe : Option CStr) (cs1 enc1 text1 cs2 enc2 text2 ws csave : CStr)
    (h1 : validWord cs1 enc1 text1 = true) (h2 : validWord cs2 enc2 text2 = true)
    (hws : ∀ x ∈ ws, isspace x = true) :
    mdecodeRFC2047 conv b64 pe
        (encodedWord cs1 enc1 text1 ++ ws ++ encodedWord cs2 enc2 text2) csave =
      .done (asCString (decodedText conv b64 cs1 enc1 text1 ++
          decodedText conv b64 cs2 enc2 text2),
        savedCharset conv cs2 (savedCharset conv cs1 csave)) := by
  have hl1 := encodedWord_length_ge cs1 enc1 text1
  obtain ⟨f, hf⟩ : ∃ f, (encodedWord cs1 enc1 text1 ++ ws ++ encodedWord cs2 enc2 text2).length
      + 1 = f + 1 + 1 + 1 := ⟨(encodedWord cs1 enc1 text1 ++ ws ++
        encodedWord cs2 enc2 text2).length - 2, by simp only [List.length_append]; omega⟩
  have hassoc : encodedWord cs1 enc1 text1 ++ ws ++ encodedWord cs2 enc2 text2 =
      encodedWord cs1 enc1 text1 ++ (ws ++ (encodedWord cs2 enc2 text2 ++ [])) := by simp
  obtain ⟨v1, hv1⟩ := word_step conv b64 pe cs1 enc1 text1
    (ws ++ (encodedWord cs2 enc2 text2 ++ [])) h1 (f + 1 + 1) [] false none csave
  rw [dropWhile_space_word ws cs2 enc2 text2 [] hws, atEncodedWord_valid pe cs2 enc2 text2 [] h2,
    if_pos rfl] at hv1
  obtain ⟨v2, hv2⟩ := word_step conv b64 pe cs2 enc2 text2 [] h2 (f + 1)
    ([] ++ decodedText conv b64 cs1 enc1 text1) true v1 (savedCharset conv cs1 csave)
  have hnil : atEncodedWord pe (List.dropWhile isspace []) = false :=
    atEncodedWord_no_question pe _ (by simp)
  rw [hnil] at hv2
  simp only [Bool.false_eq_true, if_false] at hv2
  rw [mdecodeRFC2047, hf, hassoc, hv1, hv2, loop_end _ _ _ _ _ rfl]
  simp

theorem word_then_text (conv : Option (CStr → CStr → CStr)) (b64 : CStr → List Nat)
    (pe : Option CStr) (cs enc text ws plain csave : CStr)
    (h : validWord cs enc text = true) (hws : ∀ x ∈ ws, isspace x = true)
    (hplain : ∀ x ∈ plain, x ≠ 63) :
    mdecodeRFC2047 conv b64 pe (encodedWord cs enc text ++ ws ++ plain) csave =
      .done (asCString (decodedText conv b64 cs enc text ++ ws ++ plain),
        savedCharset conv cs csave) := by
  have hl1 := encodedWord_length_ge cs enc text
  have hno : ∀ x ∈ ws ++ plain, x ≠ 63 := by
    intro x hx
    rcases List.mem_append.mp hx with hx | hx
    · exact isspace_ne_question x (hws x hx)
    · exact hplain x hx
  obtain ⟨f, hf⟩ : ∃ f, (encodedWord cs enc text ++ ws ++ plain).length + 1 =
      (f + 1 + (ws ++ plain).length) + 1 :=
    ⟨(encodedWord cs enc text).length - 1, by simp only [List.length_append]; omega⟩
  obtain ⟨v1, hv1⟩ := word_step conv b64 pe cs enc text (ws ++ plain) h
    (f + 1 + (ws ++ plain).length) [] false none csave
  have hat : atEncodedWord pe (List.dropWhile isspace (ws ++ plain)) = false :=
    atEncodedWord_no_question pe _
      (fun x hx => hno x ((List.dropWhile_suffix isspace).subset hx))
  rw [hat] at hv1
  simp only [Bool.false_eq_true, if_false] at hv1
  have hcopy := copy_run conv b64 pe [] (by simp) (ws ++ plain) hno (f + 1)
    ([] ++ decodedText conv b64 cs enc text) true v1 (savedCharset conv cs csave)
  simp only [List.append_nil] at hcopy
  rw [mdecodeRFC2047, hf, List.append_assoc, hv1, hcopy, loop_end _ _ _ _ _ rfl]
  simp

theorem strneq_no_equals (c : Nat) (l : CStr) (h : c ≠ 61) :
    strneq (c :: l) (cstr "=?") 2 = false := by
  have e1 : List.take 2 (cstr "=?") = [61, 63] := by decide
  cases l with
  | nil => simp [strneq, e1]
  | cons d rest => simp [strneq, e1, h]

theorem copy_run_no_equals (conv : Option (CStr → CStr → CStr)) (b64 : CStr → List Nat)
    (pe : Option CStr) (b : CStr) :
    ∀ (a : CStr), (∀ x ∈ a, x ≠ 61) →
      ∀ (fuel : Nat) (out : List Nat) (did : Bool) (v : Option Nat) (csave : CStr),
        mdecodeRFC2047_loop conv b64 pe (fuel + a.length)
            { iptr := a ++ b, output := out, didanything := did, value := v,
              charsetsave := csave } =
          mdecodeRFC2047_loop conv b64 pe fuel
            { iptr := b, output := out ++ a, didanything := did, value := v,
              charsetsave := csave } := by
  intro a
  induction a with
  | nil => intro _ fuel out did v csave; simp
  | cons c rest ih =>
    intro ha fuel out did v csave
    have hrest : ∀ x ∈ rest, x ≠ 61 := fun x hx => ha x (by simp [hx])
    have hs := strneq_no_equals c (rest ++ b) (ha c (by simp))
    have := ih hrest fuel (out ++ [c]) did v csave
    rw [mdecodeRFC2047_loop] at this ⊢
    rw [List.length_cons, ← Nat.add_assoc, List.cons_append,
      runLoop_next (mdecodeRFC2047_body conv b64 pe) _ _ _
        (by simp only [mdecodeRFC2047_body, hs, Bool.false_eq_true, if_false]; rfl), this]
    simp only [mdecodeRFC2047_loop, List.append_assoc, List.singleton_append]

theorem copy_step_of_extract_none (conv : Option (CStr → CStr → CStr)) (b64 : CStr → List Nat)
    (pe : Option CStr) (c : Nat) (rest : CStr)
    (h : extract_rfc2047_content pe (c :: rest) = none)
    (fuel : Nat) (out : List Nat) (did : Bool) (v : Option Nat) (csave : CStr) :
    mdecodeRFC2047_loop conv b64 pe (fuel + 1)
        { iptr := c :: rest, output := out, didanything := did, value := v,
          charsetsave := csave } =
      mdecodeRFC2047_loop conv b64 pe fuel
        { iptr := rest, output := out ++ [c], didanything := did, value := v,
          charsetsave := csave } := by
  rw [mdecodeRFC2047_loop, mdecodeRFC2047_loop]
  apply runLoop_next
  simp only [mdecodeRFC2047_body, h]
  cases (if strneq (c :: rest) (cstr "=?") 2 = true then sscanf_word (List.drop 2 (c :: rest))
    else none) with
  | none => rfl
  | some p => rfl

theorem extract_unsupported (pe : Option CStr) (cs enc rest : CStr)
    (hcs : ∀ x ∈ cs, (x != 63) = true) (henc : ∀ x ∈ enc, x ≠ 63)
    (hun : supportedEncoding enc = false) :
    extract_rfc2047_content pe (61 :: 63 :: (cs ++ 63 :: (enc ++ 63 :: rest))) = none := by
  have hdw : ∀ tail : CStr, List.dropWhile (fun c => c != 63) (cs ++ 63 :: tail) = 63 :: tail := by
    intro tail
    rw [List.dropWhile_append_of_pos hcs, List.dropWhile_cons]
    simp
  simp only [supportedEncoding, Bool.or_eq_false_iff, beq_eq_false_iff_ne, ne_eq] at hun
  match enc, henc, hun with
  | [], _, _ =>
    cases rest with
    | nil =>
      simp only [extract_rfc2047_content, List.drop_succ_cons, List.drop_zero, List.nil_append]
      rw [hdw]
    | cons r rs =>
      simp only [extract_rfc2047_content, List.drop_succ_cons, List.drop_zero, List.nil_append]
      rw [hdw]
      simp
  | [e], _, hun =>
    have : ¬ (e = 81 ∨ e = 113 ∨ e = 66 ∨ e = 98) := by
      simp only [List.cons.injEq, and_true] at hun
      omega
    simp only [extract_rfc2047_content, List.drop_succ_cons, List.drop_zero,
      List.singleton_append]
    rw [hdw]
    simp [this]
  | e :: e2 :: enc2, henc, _ =>
    have : e2 ≠ 63 := henc e2 (by simp)
    simp only [extract_rfc2047_content, List.drop_succ_cons, List.drop_zero, List.cons_append]
    rw [hdw]
    simp [this]

/-- C8 (amended): a run "=?charset?enc?text?=" whose encoding field is not "Q" or
"B" (in either letter case) is not an encoded word for `mdecodeRFC2047`: the
function returns, and the run stands in the result as it was written.  Here
the text around the run has no '?' and the three fields have neither '?' nor
'='.  The token "<unknown>" is not produced. -/
theorem unsupported_copied (conv : Option (CStr → CStr → CStr))
    (b64 : CStr → List Nat) (pe : Option CStr) (pre cs enc text post csave : CStr)
    (hpre : ∀ x ∈ pre, x ≠ 63) (hpost : ∀ x ∈ post, x ≠ 63)
    (hcs : ∀ x ∈ cs, x ≠ 63 ∧ x ≠ 61) (henc : ∀ x ∈ enc, x ≠ 63 ∧ x ≠ 61)
    (htext : ∀ x ∈ text, x ≠ 63 ∧ x ≠ 61) (hun : supportedEncoding enc = false) :
    mdecodeRFC2047 conv b64 pe (pre ++ encodedWord cs enc text ++ post) csave =
      .done (pre ++ encodedWord cs enc text ++ post, csave) := by
  have e1 : cstr "=?" = [61, 63] := by decide
  have e2 : cstr "?=" = [63, 61] := by decide
  have hshape : pre ++ encodedWord cs enc text ++ post =
      pre ++ (61 :: ((63 :: (cs ++ 63 :: (enc ++ 63 :: (text ++ [63])))) ++ ((61 :: post) ++ []))) := by
    simp [encodedWord, e1, e2]
  have hx : extract_rfc2047_content pe
      (61 :: ((63 :: (cs ++ 63 :: (enc ++ 63 :: (text ++ [63])))) ++ ((61 :: post) ++ []))) = none := by
    have := extract_unsupported pe cs enc (text ++ [63] ++ ((61 :: post) ++ []))
      (fun x hx => by simpa using (hcs x hx).1) (fun x hx => (henc x hx).1) hun
    simpa using this
  have hseg : ∀ x ∈ 63 :: (cs ++ 63 :: (enc ++ 63 :: (text ++ [63]))), x ≠ 61 := by
    intro x hx
    simp only [List.mem_cons, List.mem_append, List.mem_singleton, List.not_mem_nil,
      or_false] at hx
    rcases hx with rfl | hx | rfl | hx | rfl | hx | rfl
    · decide
    · exact (hcs x hx).2
    · decide
    · exact (henc x hx).2
    · decide
    · exact (htext x hx).2
    · decide
  have htail : ∀ x ∈ 61 :: post, x ≠ 63 := by
    intro x hx
    rcases List.mem_cons.mp hx with rfl | hx
    · decide
    · exact hpost x hx
  set seg := 63 :: (cs ++ 63 :: (enc ++ 63 :: (text ++ [63]))) with hsegdef
  have hfuel : (pre ++ (61 :: (seg ++ ((61 :: post) ++ [])))).length + 1 =
      ((((0 + 1) + (61 :: post).length) + seg.length) + 1) + pre.length := by
    simp only [List.length_append, List.length_cons, List.length_nil]
    omega
  rw [mdecodeRFC2047, hshape, hfuel,
    copy_run conv b64 pe _ (by simp) pre hpre,
    copy_step_of_extract_none conv b64 pe 61 _ hx,
    copy_run_no_equals conv b64 pe _ seg hseg,
    copy_run conv b64 pe [] (by simp) (61 :: post) htail,
    loop_end _ _ _ _ _ rfl]
  simp

/-- The claim C8 (amended) at the header value "Re: =?utf-8?X?abc?= end". -/
theorem unsupported_copied_witness :
    (∀ x ∈ cstr "Re: ", x ≠ 63) ∧ (∀ x ∈ cstr " end", x ≠ 63) ∧
    (∀ x ∈ cstr "utf-8", x ≠ 63 ∧ x ≠ 61) ∧ (∀ x ∈ cstr "X", x ≠ 63 ∧ x ≠ 61) ∧
    (∀ x ∈ cstr "abc", x ≠ 63 ∧ x ≠ 61) ∧ supportedEncoding (cstr "X") = false ∧
    mdecodeRFC2047 (some (fun _ s => s)) (fun s => s) none
        (cstr "Re: " ++ encodedWord (cstr "utf-8") (cstr "X") (cstr "abc") ++ cstr " end") [] =
      .done (cstr "Re: " ++ encodedWord (cstr "utf-8") (cstr "X") (cstr "abc") ++ cstr " end",
        []) :=
  ⟨by decide, by decide, by decide, by decide, by decide, by decide,
    unsupported_copied (some (fun _ s => s)) (fun s => s) none (cstr "Re: ") (cstr "utf-8")
      (cstr "X") (cstr "abc") (cstr " end") [] (by decide) (by decide) (by decide) (by decide)
      (by decide) (by decide)⟩

/-- C8 as stated fails: for "=?utf-8?X?abc?=" the code returns the run unchanged
and not the token "<unknown>", with or without HAVE_ICONV. -/
theorem unsupported_not_replaced :
    mdecodeRFC2047 (some (fun _ s => s)) (fun s => s) none (cstr "=?utf-8?X?abc?=") [] =
      .done (cstr "=?utf-8?X?abc?=", []) ∧
    mdecodeRFC2047 none (fun s => s) none (cstr "=?utf-8?X?abc?=") [] =
      .done (cstr "=?utf-8?X?abc?=", []) ∧
    cstr "=?utf-8?X?abc?=" ≠ cstr "<unknown>" := by
  decide

theorem text_then_word (conv : Option (CStr → CStr → CStr)) (b64 : CStr → List Nat)
    (pe : Option CStr) (cs enc text ws plain csave : CStr)
    (h : validWord cs enc text = true) (hws : ∀ x ∈ ws, isspace x = true)
    (hplain : ∀ x ∈ plain, x ≠ 63) :
    mdecodeRFC2047 conv b64 pe (plain ++ ws ++ encodedWord cs enc text) csave =
      .done (asCString (plain ++ ws ++ decodedText conv b64 cs enc text),
        savedCharset conv cs csave) := by
  have hl1 := encodedWord_length_ge cs enc text
  have e1 : cstr "=?" = [61, 63] := by decide
  have hno : ∀ x ∈ plain ++ ws, x ≠ 63 := by
    intro x hx
    rcases List.mem_append.mp hx with hx | hx
    · exact hplain x hx
    · exact isspace_ne_question x (hws x hx)
  have hhead : (encodedWord cs enc text ++ []).head? ≠ some 63 := by
    simp [encodedWord, e1]
  obtain ⟨f, hf⟩ : ∃ f, (plain ++ ws ++ encodedWord cs enc text).length + 1 =
      ((f + 1) + 1) + (plain ++ ws).length :=
    ⟨(encodedWord cs enc text).length - 1, by simp only [List.length_append]; omega⟩
  have hcopy := copy_run conv b64 pe (encodedWord cs enc text ++ []) hhead (plain ++ ws) hno
    ((f + 1) + 1) [] false none csave
  obtain ⟨v1, hv1⟩ := word_step conv b64 pe cs enc text [] h (f + 1)
    ([] ++ (plain ++ ws)) false none csave
  have hnil : atEncodedWord pe (List.dropWhile isspace []) = false :=
    atEncodedWord_no_question pe _ (by simp)
  rw [hnil] at hv1
  simp only [Bool.false_eq_true, if_false] at hv1
  have hassoc : plain ++ ws ++ encodedWord cs enc text =
      (plain ++ ws) ++ (encodedWord cs enc text ++ []) := by simp
  rw [mdecodeRFC2047, hf, hassoc, hcopy, hv1, loop_end _ _ _ _ _ rfl]
  simp

/-- C6: two valid encoded words ("Q" or "B") separated only by white space are
decoded to their two decoded texts one after the other, without any byte of the
separating white space; white space between an encoded word and ordinary text
(text without '?'), on either side of the word, is copied as it is.  The result
is the storage read as a C string. -/
theorem mdecodeRFC2047_joins_words (conv : Option (CStr → CStr → CStr))
    (b64 : CStr → List Nat) (pushEmpty : Option CStr)
    (cs1 enc1 text1 cs2 enc2 text2 ws plain csave : CStr)
    (h1 : validWord cs1 enc1 text1 = true) (h2 : validWord cs2 enc2 text2 = true)
    (hws : ∀ x ∈ ws, isspace x = true) (hplain : ∀ x ∈ plain, x ≠ 63) :
    mdecodeRFC2047 conv b64 pushEmpty
        (encodedWord cs1 enc1 text1 ++ ws ++ encodedWord cs2 enc2 text2) csave =
      .done (asCString (decodedText conv b64 cs1 enc1 text1 ++
          decodedText conv b64 cs2 enc2 text2),
        savedCharset conv cs2 (savedCharset conv cs1 csave)) ∧
    mdecodeRFC2047 conv b64 pushEmpty (encodedWord cs1 enc1 text1 ++ ws ++ plain) csave =
      .done (asCString (decodedText conv b64 cs1 enc1 text1 ++ ws ++ plain),
        savedCharset conv cs1 csave) ∧
    mdecodeRFC2047 conv b64 pushEmpty (plain ++ ws ++ encodedWord cs1 enc1 text1) csave =
      .done (asCString (plain ++ ws ++ decodedText conv b64 cs1 enc1 text1),
        savedCharset conv cs1 csave) :=
  ⟨two_words conv b64 pushEmpty cs1 enc1 text1 cs2 enc2 text2 ws csave h1 h2 hws,
    word_then_text conv b64 pushEmpty cs1 enc1 text1 ws plain csave h1 hws hplain,
    text_then_word conv b64 pushEmpty cs1 enc1 text1 ws plain csave h1 hws hplain⟩

/-- The claim C6 at the two examples of the source comment, with the identity
as charset conversion: both decode to "I'm called Daniel". -/
theorem mdecodeRFC2047_joins_words_witness :
    validWord (cstr "iso-8859-1") (cstr "q") (cstr "I'm_called") = true ∧
    validWord (cstr "iso-8859-1") (cstr "q") (cstr "Daniel") = true ∧
    (∀ x ∈ cstr " ", isspace x = true) ∧ (∀ x ∈ cstr "Daniel", x ≠ 63) ∧
    (mdecodeRFC2047 (some (fun _ s => s)) (fun s => s) none
        (encodedWord (cstr "iso-8859-1") (cstr "q") (cstr "I'm_called") ++ cstr " " ++
          encodedWord (cstr "iso-8859-1") (cstr "q") (cstr "Daniel")) [] =
      .done (asCString (decodedText (some (fun _ s => s)) (fun s => s) (cstr "iso-8859-1")
            (cstr "q") (cstr "I'm_called") ++
          decodedText (some (fun _ s => s)) (fun s => s) (cstr "iso-8859-1") (cstr "q")
            (cstr "Daniel")),
        savedCharset (some (fun _ s => s)) (cstr "iso-8859-1")
          (savedCharset (some (fun _ s => s)) (cstr "iso-8859-1") [])) ∧
     mdecodeRFC2047 (some (fun _ s => s)) (fun s => s) none
        (encodedWord (cstr "iso-8859-1") (cstr "q") (cstr "I'm_called") ++ cstr " " ++
          cstr "Daniel") [] =
      .done (asCString (decodedText (some (fun _ s => s)) (fun s => s) (cstr "iso-8859-1")
            (cstr "q") (cstr "I'm_called") ++ cstr " " ++ cstr "Daniel"),
        savedCharset (some (fun _ s => s)) (cstr "iso-8859-1") []) ∧
     mdecodeRFC2047 (some (fun _ s => s)) (fun s => s) none
        (cstr "Daniel" ++ cstr " " ++
          encodedWord (cstr "iso-8859-1") (cstr "q") (cstr "I'm_called")) [] =
      .done (asCString (cstr "Daniel" ++ cstr " " ++
          decodedText (some (fun _ s => s)) (fun s => s) (cstr "iso-8859-1")
            (cstr "q") (cstr "I'm_called")),
        savedCharset (some (fun _ s => s)) (cstr "iso-8859-1") [])) ∧
    mdecodeRFC2047 (some (fun _ s => s)) (fun s => s) none
        (cstr "=?iso-8859-1?q?I'm_called_?= =?iso-8859-1?q?Daniel?=") [] =
      .done (cstr "I'm called Daniel", cstr "iso-8859-1") ∧
    mdecodeRFC2047 (some (fun _ s => s)) (fun s => s) none
        (cstr "=?iso-8859-1?q?I'm_called?= Daniel") [] =
      .done (cstr "I'm called Daniel", cstr "iso-8859-1") :=
  ⟨by decide, by decide, by decide, by decide,
    mdecodeRFC2047_joins_words (some (fun _ s => s)) (fun s => s) none (cstr "iso-8859-1")
      (cstr "q") (cstr "I'm_called") (cstr "iso-8859-1") (cstr "q") (cstr "Daniel") (cstr " ")
      (cstr "Daniel") [] (by decide) (by decide) (by decide) (by decide),
    by decide, by decide⟩

/-- C7 (amended): two valid encoded words separated by exactly two spaces are
decoded with no space between the two decoded texts, exactly as when they are
separated by one space: the whole separating run is passed. -/
theorem mdecodeRFC2047_two_spaces (conv : Option (CStr → CStr → CStr))
    (b64 : CStr → List Nat) (pushEmpty : Option CStr)
    (cs1 enc1 text1 cs2 enc2 text2 csave : CStr)
    (h1 : validWord cs1 enc1 text1 = true) (h2 : validWord cs2 enc2 text2 = true) :
    mdecodeRFC2047 conv b64 pushEmpty
        (encodedWord cs1 enc1 text1 ++ [32, 32] ++ encodedWord cs2 enc2 text2) csave =
      .done (asCString (decodedText conv b64 cs1 enc1 text1 ++
          decodedText conv b64 cs2 enc2 text2),
        savedCharset conv cs2 (savedCharset conv cs1 csave)) ∧
    mdecodeRFC2047 conv b64 pushEmpty
        (encodedWord cs1 enc1 text1 ++ [32] ++ encodedWord cs2 enc2 text2) csave =
      .done (asCString (decodedText conv b64 cs1 enc1 text1 ++
          decodedText conv b64 cs2 enc2 text2),
        savedCharset conv cs2 (savedCharset conv cs1 csave)) :=
  ⟨two_words conv b64 pushEmpty cs1 enc1 text1 cs2 enc2 text2 [32, 32] csave h1 h2
      (by decide),
    two_words conv b64 pushEmpty cs1 enc1 text1 cs2 enc2 text2 [32] csave h1 h2 (by decide)⟩

/-- The claim C7 (amended) at the words "=?a?q?X?=" and "=?a?b?Y?=". -/
theorem mdecodeRFC2047_two_spaces_witness :
    validWord (cstr "a") (cstr "q") (cstr "X") = true ∧
    validWord (cstr "a") (cstr "b") (cstr "Y") = true ∧
    mdecodeRFC2047 none (fun s => s) none
        (encodedWord (cstr "a") (cstr "q") (cstr "X") ++ [32, 32] ++
          encodedWord (cstr "a") (cstr "b") (cstr "Y")) [] =
      .done (asCString (decodedText none (fun s => s) (cstr "a") (cstr "q") (cstr "X") ++
          decodedText none (fun s => s) (cstr "a") (cstr "b") (cstr "Y")),
        savedCharset none (cstr "a") (savedCharset none (cstr "a") [])) ∧
    mdecodeRFC2047 none (fun s => s) none
        (encodedWord (cstr "a") (cstr "q") (cstr "X") ++ [32] ++
          encodedWord (cstr "a") (cstr "b") (cstr "Y")) [] =
      .done (asCString (decodedText none (fun s => s) (cstr "a") (cstr "q") (cstr "X") ++
          decodedText none (fun s => s) (cstr "a") (cstr "b") (cstr "Y")),
        savedCharset none (cstr "a") (savedCharset none (cstr "a") [])) :=
  ⟨by decide, by decide,
    mdecodeRFC2047_two_spaces none (fun s => s) none (cstr "a") (cstr "q") (cstr "X")
      (cstr "a") (cstr "b") (cstr "Y") [] (by decide) (by decide)⟩

/-- C7 as stated fails: for "=?a?q?X?=  =?a?q?Y?=", two words with two spaces
between them, the code returns "XY" and not "X Y". -/
theorem mdecodeRFC2047_two_spaces_removed :
    mdecodeRFC2047 (some (fun _ s => s)) (fun s => s) none (cstr "=?a?q?X?=  =?a?q?Y?=") [] =
      .done (cstr "XY", cstr "a") ∧
    mdecodeRFC2047 (some (fun _ s => s)) (fun s => s) none (cstr "=?a?q?X?=  =?a?q?Y?=") [] ≠
      .done (cstr "X Y", cstr "a") := by
  decide

theorem mdecodeQP_body_measure (m : Nat) (st st2 : QPState)
    (h : mdecodeQP_body m st = .next st2) :
    qpMeasure st2.file st2.input < qpMeasure st.file st.input := by
  obtain ⟨file, input, output, outcount, pbuf⟩ := st
  simp only [mdecodeQP_body] at h
  match input, h with
  | inchar :: input, h =>
    simp only [] at h
    split at h
    · match input, h with
      | [], h =>
        simp only [LoopStep.next.injEq] at h
        subst h
        simp [qpMeasure]
      | c :: rest, h =>
        simp only [] at h
        split at h
        · match file, h with
          | i_buffer :: file, h =>
            simp only [LoopStep.next.injEq] at h
            subst h
            simp only [qpMeasure, List.length_drop, List.length_cons, List.map_cons,
              List.sum_cons]
            omega
        · split at h
          · simp only [LoopStep.next.injEq] at h
            subst h
            simp only [qpMeasure, List.length_cons]
            omega
          · split at h
            · match rest, h with
              | d :: rest2, h =>
                simp only [LoopStep.next.injEq] at h
                subst h
                simp only [qpMeasure, List.length_cons]
                omega
            · simp only [LoopStep.next.injEq] at h
              subst h
              simp only [qpMeasure, List.length_cons]
              omega
    · simp only [LoopStep.next.injEq] at h
      subst h
      simp only [qpMeasure, List.length_cons]
      omega

/-- The budget of `mdecodeQP` is never exhausted: every pass through the body
lowers `qpMeasure`. -/
theorem mdecodeQP_loop_total (m : Nat) (fuel : Nat) (st : QPState)
    (h : qpMeasure st.file st.input < fuel) : mdecodeQP_loop m fuel st ≠ .outOfFuel :=
  runLoop_total (mdecodeQP_body m) (fun st => qpMeasure st.file st.input)
    (mdecodeQP_body_measure m) fuel st h

theorem mdecodeQP_total (m : Nat) (file : List CStr) (input : CStr) :
    mdecodeQP m file input ≠ .outOfFuel :=
  mdecodeQP_loop_total m _ _ (by simp only [qpMeasure]; omega)

/-! ## Termination of the decoders and the soft line break at a LF -/

/-- A change of state that the body of a loop commutes with can be made before
or after the run. -/
theorem runLoop_map {σ : Type} (body : σ → LoopStep σ) (g : σ → σ)
    (hg : ∀ st, body (g st) = (body st).map g) :
    ∀ (fuel : Nat) (st : σ), runLoop body fuel (g st) = (runLoop body fuel st).map g := by
  intro fuel
  induction fuel with
  | zero => intro st; rfl
  | succ f ih =>
    intro st
    rw [runLoop, runLoop, hg]
    cases body st with
    | next st2 => exact ih st2
    | exit st2 => rfl
    | undefined => rfl

theorem drop_shorter (n : Nat) (l : CStr) (hn : 0 < n) (hl : l ≠ []) :
    (List.dropWhile isspace (List.drop n l)).length < l.length ∧
      (List.drop n l).length < l.length := by
  have h1 := (List.dropWhile_suffix isspace (l := List.drop n l)).length_le
  have h2 : 0 < l.length := List.length_pos.mpr hl
  simp only [List.length_drop] at h1 ⊢
  omega

theorem mdecodeRFC2047_body_measure (conv : Option (CStr → CStr → CStr))
    (b64 : CStr → List Nat) (pe : Option CStr) (st st2 : RFC2047State)
    (h : mdecodeRFC2047_body conv b64 pe st = .next st2) :
    st2.iptr.length < st.iptr.length := by
  obtain ⟨iptr, output, did, value, csave⟩ := st
  simp only [mdecodeRFC2047_body] at h
  match iptr, h with
  | c :: rest, h =>
    simp only [] at h
    split at h
    · simp only [LoopStep.next.injEq] at h
      subst h
      simp
    · split at h
      · simp only [LoopStep.next.injEq] at h
        subst h
        simp
      · split at h
        · exact absurd h (by simp)
        · simp only [LoopStep.next.injEq] at h
          subst h
          simp only []
          split
          · exact (drop_shorter _ (c :: rest) (by omega) (by simp)).1
          · exact (drop_shorter _ (c :: rest) (by omega) (by simp)).2

/-- The budget of `mdecodeRFC2047` is never exhausted: every pass through the
body of its loop shortens what is left to read. -/
theorem mdecodeRFC2047_total (conv : Option (CStr → CStr → CStr)) (b64 : CStr → List Nat)
    (pe : Option CStr) (string csave : CStr) :
    mdecodeRFC2047 conv b64 pe string csave ≠ .outOfFuel := by
  have := runLoop_total (mdecodeRFC2047_body conv b64 pe) (fun st => st.iptr.length)
    (mdecodeRFC2047_body_measure conv b64 pe) (string.length + 1)
    { iptr := string, output := [], didanything := false, value := none, charsetsave := csave }
    (by simp)
  rw [mdecodeRFC2047, mdecodeRFC2047_loop]
  cases hr : runLoop (mdecodeRFC2047_body conv b64 pe) (string.length + 1)
    { iptr := string, output := [], didanything := false, value := none,
      charsetsave := csave } with
  | done st => simp
  | undefined => simp
  | outOfFuel => exact absurd hr this


theorem mdecodeQP_body_pushed (m : Nat) (p : CStr) (st : QPState) :
    mdecodeQP_body m (st.pushedAfter p) = (mdecodeQP_body m st).map (QPState.pushedAfter p) := by
  obtain ⟨file, input, output, outcount, pbuf⟩ := st
  simp only [mdecodeQP_body, QPState.pushedAfter]
  match input with
  | [] => rfl
  | inchar :: input =>
    simp only []
    split
    · match input with
      | [] => rfl
      | c :: rest =>
        simp only []
        split
        · match file with
          | [] => rfl
          | i_buffer :: file => simp [LoopStep.map, QPState.pushedAfter]
        · split
          · rfl
          · split
            · match rest with
              | [] => rfl
              | d :: rest2 => rfl
            · rfl
    · rfl

theorem qpDecoded_length_le :
    ∀ (n : Nat) (l : CStr), l.length ≤ n → (qpDecoded l).length ≤ l.length := by
  intro n
  induction n with
  | zero =>
    intro l h
    have : l = [] := List.length_eq_zero.mp (by omega)
    subst this
    simp [qpDecoded]
  | succ n ih =>
    intro l h
    match l, h with
    | [], _ => simp [qpDecoded]
    | [c], _ => simp [qpDecoded]
    | [c, d], _ => simp [qpDecoded]
    | c :: x :: y :: rest, h =>
      simp only [List.length_cons] at h
      by_cases hc : c = 61
      · have := ih rest (by omega)
        simp only [qpDecoded, hc, if_true, List.length_cons]
        omega
      · have := ih (x :: y :: rest) (by simp only [List.length_cons]; omega)
        simp only [qpDecoded, hc, if_false, List.length_cons] at this ⊢
        omega

theorem mdecodeQP_loop_prefix (m : Nat) (rest : CStr) :
    ∀ (n : Nat) (pre : CStr), pre.length ≤ n → wellFormedQP pre = true →
      ∀ (fuel : Nat) (file : List CStr) (out : List Nat) (cnt : Nat) (pbuf : CStr),
        mdecodeQP_loop m (fuel + (qpDecoded pre).length)
            { file := file, input := pre ++ rest, output := out, outcount := cnt,
              pbuf := pbuf } =
          mdecodeQP_loop m fuel
            { file := file, input := rest, output := out ++ qpDecoded pre,
              outcount := cnt + (qpDecoded pre).length, pbuf := pbuf } := by
  intro n
  induction n with
  | zero =>
    intro pre hlen _ fuel file out cnt pbuf
    have : pre = [] := List.length_eq_zero.mp (by omega)
    subst this
    simp [qpDecoded]
  | succ n ih =>
    intro pre hlen hwf fuel file out cnt pbuf
    match pre, hlen, hwf with
    | [], _, _ => simp [qpDecoded]
    | c :: tl, hlen, hwf =>
      by_cases hc : c = 61
      · subst hc
        match tl, hlen, hwf with
        | [], _, hwf => simp [wellFormedQP] at hwf
        | [_], _, hwf => simp [wellFormedQP] at hwf
        | x :: y :: tl2, hlen, hwf =>
          simp only [wellFormedQP, if_true, Bool.and_eq_true] at hwf
          obtain ⟨⟨hx, hy⟩, hwf2⟩ := hwf
          have hxne := isxdigit_ne x hx
          simp only [List.length_cons] at hlen
          have := ih tl2 (by omega) hwf2 fuel file (out ++ [sscanf_02X x y % 256]) (cnt + 1) pbuf
          have hv : sscanf_02X x y % 256 = 16 * hexval x + hexval y := by
            have h1 := hexval_le x
            have h2 := hexval_le y
            simp only [sscanf_02X, hy, if_true]
            omega
          rw [mdecodeQP_loop] at this ⊢
          simp only [qpDecoded, if_true, List.length_cons, List.cons_append]
          rw [← Nat.add_assoc, runLoop_next (mdecodeQP_body m) _ _ _
            (by simp only [mdecodeQP_body, if_true, hxne.1, hxne.2, if_false, hx]; rfl), this]
          simp only [mdecodeQP_loop, hv, List.append_assoc, List.singleton_append]
          congr 2
          omega
      · rw [wellFormedQP_cons_ne c tl hc] at hwf
        simp only [List.length_cons] at hlen
        have := ih tl (by omega) hwf fuel file (out ++ [c]) (cnt + 1) pbuf
        rw [mdecodeQP_loop] at this ⊢
        simp only [qpDecoded_cons_ne c tl hc, List.length_cons, List.cons_append]
        rw [← Nat.add_assoc, runLoop_next (mdecodeQP_body m) _ _ _
          (by simp only [mdecodeQP_body, hc, if_false]; rfl), this]
        simp only [mdecodeQP_loop, List.append_assoc, List.singleton_append]
        congr 2
        omega


/-- The soft line break at a LF: for a line whose content `pre` is well formed
and ends in '=' LF, `mdecodeQP` stores neither the '=' nor the LF and goes on
with the next line of the file; the outcome is that of decoding `pre` joined
with that line, except that the line read is also pushed on the returned
string. -/
theorem mdecodeQP_soft_break_lf (m : Nat) (file : List CStr) (next pre junk : CStr)
    (hpre : wellFormedQP pre = true) :
    mdecodeQP m (next :: file) (pre ++ 61 :: 10 :: junk) =
      (mdecodeQP m file (pre ++ next.drop m)).map (QPState.pushedAfter (next.drop m)) := by
  have hk := qpDecoded_length_le pre.length pre (le_refl _)
  have hdrop : (next.drop m).length ≤ next.length := by simp
  set k := (qpDecoded pre).length with hkdef
  set μ := qpMeasure file (next.drop m) with hμ
  -- the state from which both runs go on
  obtain ⟨S, hS⟩ : ∃ S : QPState, S = QPState.mk file (next.drop m) ([] ++ qpDecoded pre)
    (0 + k) [] := ⟨_, rfl⟩
  have htot : mdecodeQP_loop m (μ + 1) S ≠ .outOfFuel :=
    mdecodeQP_loop_total m (μ + 1) S (by simp [hS, hμ])
  have hmono := runLoop_fuel (mdecodeQP_body m) (μ + 1) S htot
  -- left-hand side
  obtain ⟨F, hF⟩ : ∃ F, qpMeasure (next :: file) (pre ++ 61 :: 10 :: junk) + 1 =
      ((μ + 1 + F) + 1) + k := by
    refine ⟨qpMeasure (next :: file) (pre ++ 61 :: 10 :: junk) + 1 - k - 1 - (μ + 1), ?_⟩
    simp only [qpMeasure, List.length_append, List.length_cons, List.map_cons, List.sum_cons,
      hμ] at hdrop ⊢
    omega
  have hL1 := mdecodeQP_loop_prefix m (61 :: 10 :: junk) pre.length pre (le_refl _) hpre
    ((μ + 1 + F) + 1) (next :: file) [] 0 []
  have hL2 : mdecodeQP_loop m ((μ + 1 + F) + 1)
      { file := next :: file, input := 61 :: 10 :: junk, output := [] ++ qpDecoded pre,
        outcount := 0 + k, pbuf := [] } =
      mdecodeQP_loop m (μ + 1 + F) (S.pushedAfter (next.drop m)) := by
    rw [mdecodeQP_loop, mdecodeQP_loop]
    exact runLoop_next _ _ _ _ (by simp [mdecodeQP_body, hS, QPState.pushedAfter])
  -- right-hand side
  obtain ⟨G, hG⟩ : ∃ G, qpMeasure file (pre ++ next.drop m) + 1 = (μ + 1 + G) + k := by
    refine ⟨qpMeasure file (pre ++ next.drop m) + 1 - k - (μ + 1), ?_⟩
    simp only [qpMeasure, List.length_append, hμ]
    omega
  have hR1 := mdecodeQP_loop_prefix m (next.drop m) pre.length pre (le_refl _) hpre
    (μ + 1 + G) file [] 0 []
  rw [mdecodeQP, mdecodeQP, hF, hG, hL1, hL2, hR1]
  rw [mdecodeQP_loop, runLoop_map (mdecodeQP_body m) (QPState.pushedAfter (next.drop m))
    (mdecodeQP_body_pushed m (next.drop m)), mdecodeQP_loop]
  rw [hmono F, ← hS, hmono G]

/-! ## Header validation -/

theorem split_at_colon (line : CStr) (h : 58 ∈ line) :
    ∃ name rest, line = name ++ 58 :: rest ∧ 58 ∉ name := by
  induction line with
  | nil => simp at h
  | cons c cs ih =>
    by_cases hc : c = 58
    · exact ⟨[], cs, by simp [hc], by simp⟩
    · have hcs : 58 ∈ cs := by
        rcases List.mem_cons.mp h with h | h
        · exact absurd h.symm hc
        · exact h
      obtain ⟨name, rest, he, hn⟩ := ih hcs
      refine ⟨c :: name, rest, by simp [he], ?_⟩
      intro hm
      rcases List.mem_cons.mp hm with hm | hm
      · exact hc hm.symm
      · exact hn hm

theorem dropWhile_no_colon (line : CStr) (h : 58 ∉ line) :
    line.dropWhile (fun c => c != 58) = [] := by
  rw [List.dropWhile_eq_nil_iff]
  intro c hc
  have : c ≠ 58 := fun e => h (e ▸ hc)
  simpa using this

theorem scanSet_long (limit : Nat) (p : Nat → Bool) (tok : CStr) (c : Nat) (rest : CStr)
    (hp : ∀ x ∈ tok, p x = true) (hc : p c = false) (hlimit : 0 < limit)
    (hlen : limit < tok.length) :
    ∃ t r, scanSet limit p (tok ++ c :: rest) = some (t, r) ∧ t.length = limit ∧
      ∃ x ∈ tok, ((tok ++ c :: rest).drop t.length).head? = some x := by
  have h1 : (tok ++ c :: rest).takeWhile p = tok := by
    rw [List.takeWhile_append_of_pos hp, List.takeWhile_cons]
    simp [hc]
  have hl0 : (tok.take limit).length = limit := by
    rw [List.length_take]; exact Nat.min_eq_left (by omega)
  have hne : tok.take limit ≠ [] := by
    intro e
    rw [e] at hl0
    simp at hl0
    omega
  refine ⟨tok.take limit, (tok ++ c :: rest).drop (tok.take limit).length, ?_, ?_, ?_⟩
  · simp [scanSet, h1, hne]
  · rw [List.length_take]; exact Nat.min_eq_left (by omega)
  · have hl : (tok.take limit).length = limit := by
      rw [List.length_take]; exact Nat.min_eq_left (by omega)
    rw [hl, List.drop_append_of_le_length (by omega)]
    have hd : tok.drop limit ≠ [] := by
      intro e
      have h0 : (tok.drop limit).length = 0 := by rw [e]; rfl
      rw [List.length_drop] at h0
      omega
    cases hq : tok.drop limit with
    | nil => exact absurd hq hd
    | cons x xs =>
      refine ⟨x, ?_, by simp⟩
      have : x ∈ tok.drop limit := by rw [hq]; simp
      exact List.mem_of_mem_drop this

/-- The value of `_validate_header` on a line cut at its first colon. -/
theorem _validate_header_split (isAscii : CStr → Bool) (name rest : CStr) (hn : 58 ∉ name) :
    _validate_header isAscii (some (name ++ 58 :: rest)) =
      (decide (name ≠ []) && (rest.head? == some 32 || rest.head? == some 9) &&
        decide (name.length ≤ 127) && isAscii name &&
        rest.any (fun c => c != 32 && c != 9 && c != 13 && c != 10)) := by
  have hp : ∀ x ∈ name, (x != 58) = true := by
    intro x hx
    have : x ≠ 58 := fun e => hn (e ▸ hx)
    simpa using this
  cases name with
  | nil => simp [_validate_header, List.dropWhile_cons]
  | cons n ns =>
    have hn0 : n ≠ 58 := fun e => hn (by simp [e])
    have hdw := dropWhile_colon (n :: ns) rest hn
    simp only [List.cons_append] at hdw
    unfold _validate_header
    simp only [List.cons_append, hdw, hn0, if_false]
    cases rest with
    | nil => simp
    | cons sep rs =>
      simp only []
      by_cases hsep : sep ≠ 32 ∧ sep ≠ 9
      · simp [hsep]
      · have hsep2 : sep = 32 ∨ sep = 9 := by omega
        rw [if_neg hsep]
        by_cases hlen : (n :: ns).length ≤ 127
        · have hs := scanSet_run 127 (fun c => c != 58) (n :: ns) 58 (sep :: rs) (by simp) hp
            (by simp) hlen
          simp only [List.cons_append] at hs
          rw [hs]
          have hd1 : List.drop (n :: ns).length (n :: (ns ++ 58 :: sep :: rs)) = 58 :: sep :: rs := by
            have := List.drop_left (n :: ns) (58 :: sep :: rs)
            simp at this ⊢
          have hd2 : List.drop ((n :: ns).length + 1) (n :: (ns ++ 58 :: sep :: rs)) = sep :: rs := by
            have := List.drop_left (n :: ns ++ [58]) (sep :: rs)
            simp at this ⊢
          simp only [hd1, hd2]
          have hlen2 : ns.length ≤ 126 := by simpa using hlen
          rcases hsep2 with h | h <;> simp [h, hlen2]
        · obtain ⟨t, r, hs, htl, x, hx, hhead⟩ := scanSet_long 127 (fun c => c != 58) (n :: ns) 58
            (sep :: rs) hp (by simp) (by decide) (by omega)
          simp only [List.cons_append] at hs hhead
          rw [hs]
          have hx58 : x ≠ 58 := fun e => hn (e ▸ hx)
          have hlen2 : ¬ ns.length ≤ 126 := by simpa using hlen
          simp only [hhead]
          simp [hx58, hlen2]

theorem _validate_header_no_colon (isAscii : CStr → Bool) (line : CStr) (h : 58 ∉ line) :
    _validate_header isAscii (some line) = false := by
  unfold _validate_header
  cases line with
  | nil => rfl
  | cons c cs => simp only [dropWhile_no_colon (c :: cs) h]

/-- C13: `_validate_header` returns TRUE exactly when the line has a first colon
at an index k with 0 < k ≤ 127, the name before it passes the US-ASCII check,
the byte right after the colon is a space or a tab, and some byte after the
colon is not a space, tab, CR or LF; it returns FALSE for a NULL line and for
every other line. -/
theorem _validate_header_iff (isAscii : CStr → Bool) :
    _validate_header isAscii none = false ∧
    ∀ line : CStr, (_validate_header isAscii (some line) = true ↔
      ∃ name rest, line = name ++ 58 :: rest ∧ 58 ∉ name ∧
        0 < name.length ∧ name.length ≤ 127 ∧ isAscii name = true ∧
        (rest.head? = some 32 ∨ rest.head? = some 9) ∧
        ∃ c ∈ rest, c ≠ 32 ∧ c ≠ 9 ∧ c ≠ 13 ∧ c ≠ 10) := by
  refine ⟨rfl, fun line => ?_⟩
  constructor
  · intro h
    by_cases hc : 58 ∈ line
    · obtain ⟨name, rest, he, hn⟩ := split_at_colon line hc
      subst he
      rw [_validate_header_split isAscii name rest hn] at h
      simp only [Bool.and_eq_true, decide_eq_true_eq, Bool.or_eq_true, beq_iff_eq,
        List.any_eq_true, bne_iff_ne, ne_eq] at h
      obtain ⟨⟨⟨⟨h1, h2⟩, h3⟩, h4⟩, c, hc1, hc2⟩ := h
      exact ⟨name, rest, rfl, hn, List.length_pos.mpr h1, h3, h4, h2, c, hc1,
        hc2.1.1.1, hc2.1.1.2, hc2.1.2, hc2.2⟩
    · rw [_validate_header_no_colon isAscii line hc] at h
      exact absurd h (by simp)
  · rintro ⟨name, rest, rfl, hn, h1, h3, h4, h2, c, hc1, hc2⟩
    rw [_validate_header_split isAscii name rest hn]
    simp only [Bool.and_eq_true, decide_eq_true_eq, Bool.or_eq_true, beq_iff_eq,
      List.any_eq_true, bne_iff_ne, ne_eq]
    exact ⟨⟨⟨⟨List.length_pos.mp h1, h2⟩, h3⟩, h4⟩, c, hc1, ⟨⟨⟨hc2.1, hc2.2.1⟩, hc2.2.2.1⟩,
      hc2.2.2.2⟩⟩

/-! ## Charset conversion of header lines -/

/-- The shape of a line that `_validate_header` accepts. -/
theorem _validate_header_shape (isAscii : CStr → Bool) (line : CStr)
    (h : _validate_header isAscii (some line) = true) :
    ∃ name sep value, line = name ++ 58 :: sep :: value ∧ 58 ∉ name ∧ name ≠ [] ∧
      name.length ≤ 127 := by
  by_cases hc : 58 ∈ line
  · obtain ⟨name, rest, he, hn⟩ := split_at_colon line hc
    subst he
    rw [_validate_header_split isAscii name rest hn] at h
    simp only [Bool.and_eq_true, decide_eq_true_eq, Bool.or_eq_true, beq_iff_eq] at h
    obtain ⟨⟨⟨⟨h1, h2⟩, h3⟩, _⟩, _⟩ := h
    cases rest with
    | nil => simp at h2
    | cons sep value => exact ⟨name, sep, value, rfl, hn, h1, h3⟩
  · rw [_validate_header_no_colon isAscii line hc] at h
    exact absurd h (by simp)

theorem convAttempt_ok (i : I18n) (value pbuf : CStr) (from_charset : Option CStr) :
    AttemptOk i value pbuf (convAttempt i value from_charset pbuf) := by
  unfold convAttempt AttemptOk
  cases hc : i.convstring value from_charset with
  | none => exact Or.inl rfl
  | some c =>
    by_cases hu : i.is_valid_utf8 c = true
    · exact Or.inr ⟨c, from_charset, hc, hu, by simp [hu]⟩
    · exact Or.inl (by simp [hu])

theorem convAttempt_fail (i : I18n) (value pbuf : CStr) (from_charset : Option CStr)
    (hall : ∀ f c, i.convstring value f = some c → i.is_valid_utf8 c = false) :
    convAttempt i value from_charset pbuf = (pbuf, false) := by
  unfold convAttempt
  cases hc : i.convstring value from_charset with
  | none => rfl
  | some c => simp [hall from_charset c hc]

theorem attemptOk_done (i : I18n) (value pbuf : CStr) (r : CStr × Bool) (cs : CStr)
    (h : AttemptOk i value pbuf r)
    (hfail : (∀ f c, i.convstring value f = some c → i.is_valid_utf8 c = false) →
      r = (pbuf, false)) :
    ∃ v, (if r.2 = false then Outcome.done (r.1 ++ cstr "(invalid string)", cs)
        else Outcome.done (r.1, cs)) = Outcome.done (pbuf ++ v, cs) ∧
      (v = cstr "(invalid string)" ∨
        (i.is_valid_utf8 v = true ∧ ∃ f, i.convstring value f = some v)) ∧
      ((∀ f c, i.convstring value f = some c → i.is_valid_utf8 c = false) →
        v = cstr "(invalid string)") := by
  rcases h with h | ⟨c, f, hc, hu, h⟩
  · subst h
    exact ⟨cstr "(invalid string)", by simp, Or.inl rfl, fun _ => rfl⟩
  · refine ⟨c, by simp [h], Or.inr ⟨hu, f, hc⟩, fun hall => ?_⟩
    have := hfail hall
    rw [h] at this
    simp at this

theorem header_detect_split (i : I18n) (have_chardet_iconv : Bool)
    (name : CStr) (sep : Nat) (value : CStr) (ct_charset : Option CStr) (charsetsave : CStr)
    (hn : 58 ∉ name) (hne : name ≠ []) (hlen : name.length ≤ 127)
    (ha : i.is_valid_us_ascii (name ++ 58 :: sep :: value) = false)
    (hu : i.is_valid_utf8 (name ++ 58 :: sep :: value) = false) :
    ∃ v cs, header_detect_charset_and_convert_to_utf8 i have_chardet_iconv
        (name ++ 58 :: sep :: value) ct_charset charsetsave =
        .done (name ++ [58, sep] ++ v, cs) ∧
      (v = cstr "(invalid string)" ∨
        (i.is_valid_utf8 v = true ∧ ∃ f, i.convstring value f = some v)) ∧
      ((∀ f c, i.convstring value f = some c → i.is_valid_utf8 c = false) →
        v = cstr "(invalid string)") := by
  have hp : ∀ x ∈ name, (x != 58) = true := by
    intro x hx
    have : x ≠ 58 := fun e => hn (e ▸ hx)
    simpa using this
  have hs := scanSet_run 127 (fun c => c != 58) name 58 (sep :: value) hne hp (by simp) hlen
  have hd : List.drop name.length (name ++ 58 :: sep :: value) = 58 :: sep :: value :=
    List.drop_left _ _
  unfold header_detect_charset_and_convert_to_utf8
  simp only [ha, hu, Bool.false_eq_true, if_false, hs, hd]
  have hpb : name ++ [58] ++ [sep] = name ++ [58, sep] := by simp
  rw [hpb]
  cases have_chardet_iconv with
  | false =>
    exact ⟨cstr "(invalid string)", charsetsave, by simp, Or.inl rfl, fun _ => rfl⟩
  | true =>
    simp only [if_true]
    -- first attempt
    obtain ⟨r1, hr1, h1ok, h1f⟩ : ∃ r1, (if ct_charset.isSome = true ∧ ct_charset ≠ some [] then
        convAttempt i value ct_charset (name ++ [58, sep]) else (name ++ [58, sep], false)) = r1 ∧
        AttemptOk i value (name ++ [58, sep]) r1 ∧
        ((∀ f c, i.convstring value f = some c → i.is_valid_utf8 c = false) →
          r1 = (name ++ [58, sep], false)) := by
      refine ⟨_, rfl, ?_, ?_⟩
      · split
        · exact convAttempt_ok _ _ _ _
        · exact Or.inl rfl
      · intro hall
        split
        · exact convAttempt_fail _ _ _ _ hall
        · rfl
    rw [hr1]
    -- second attempt
    obtain ⟨r2, hr2, h2ok, h2f⟩ : ∃ r2, (if r1.2 = false ∧ charsetsave ≠ [] then
        convAttempt i value ct_charset r1.1 else r1) = r2 ∧
        AttemptOk i value (name ++ [58, sep]) r2 ∧
        ((∀ f c, i.convstring value f = some c → i.is_valid_utf8 c = false) →
          r2 = (name ++ [58, sep], false)) := by
      refine ⟨_, rfl, ?_, ?_⟩
      · split
        · rename_i hc
          rcases h1ok with h | ⟨c, f, _, _, h⟩
          · rw [h]; exact convAttempt_ok _ _ _ _
          · rw [h] at hc; simp at hc
        · exact h1ok
      · intro hall
        rw [h1f hall]
        split
        · exact convAttempt_fail _ _ _ _ hall
        · rfl
    rw [hr2]
    -- third attempt
    have key : ∀ r3 : (CStr × Bool) × CStr, AttemptOk i value (name ++ [58, sep]) r3.1 →
        ((∀ f c, i.convstring value f = some c → i.is_valid_utf8 c = false) →
          r3.1 = (name ++ [58, sep], false)) →
        ∃ v cs, (if r3.1.2 = false then Outcome.done (r3.1.1 ++ cstr "(invalid string)", r3.2)
            else Outcome.done (r3.1.1, r3.2)) = Outcome.done (name ++ [58, sep] ++ v, cs) ∧
          (v = cstr "(invalid string)" ∨
            (i.is_valid_utf8 v = true ∧ ∃ f, i.convstring value f = some v)) ∧
          ((∀ f c, i.convstring value f = some c → i.is_valid_utf8 c = false) →
            v = cstr "(invalid string)") := by
      intro r3 h3ok h3f
      obtain ⟨v, hv, hv1, hv2⟩ := attemptOk_done i value (name ++ [58, sep]) r3.1 r3.2 h3ok h3f
      exact ⟨v, r3.2, hv, hv1, hv2⟩
    refine key _ ?_ ?_
    · split
      · rename_i hc
        have h2 : r2 = (name ++ [58, sep], false) := by
          rcases h2ok with h | ⟨c, f, _, _, h⟩
          · exact h
          · rw [h] at hc; simp at hc
        rw [h2]
        cases i.charset_detect value with
        | none => exact Or.inl rfl
        | some d =>
          simp only []
          split
          · split
            · exact convAttempt_ok _ _ _ _
            · exact convAttempt_ok _ _ _ _
          · exact Or.inl rfl
      · exact h2ok
    · intro hall
      rw [h2f hall]
      simp only [if_true]
      cases i.charset_detect value with
      | none => rfl
      | some d =>
        simp only []
        split
        · rw [convAttempt_fail _ _ _ _ hall]
          simp
        · rfl

/-- C12: for every validated header line `header_detect_charset_and_convert_to_utf8`
returns the line unchanged when it is valid US-ASCII or valid UTF-8; otherwise it
returns the header name, the two bytes after it and then either a conversion
result that passed the UTF-8 check or "(invalid string)", and the value is
"(invalid string)" whenever every conversion fails the check. -/
theorem header_detect_result (i : I18n) (have_chardet_iconv : Bool) (line : CStr)
    (ct_charset : Option CStr) (charsetsave : CStr)
    (h : _validate_header i.is_valid_us_ascii (some line) = true) :
    ConvertedHeader i line
      (header_detect_charset_and_convert_to_utf8 i have_chardet_iconv line ct_charset
        charsetsave) := by
  constructor
  · intro hv
    unfold header_detect_charset_and_convert_to_utf8
    by_cases ha : i.is_valid_us_ascii line = true
    · exact ⟨charsetsave, by simp [ha]⟩
    · rcases hv with hv | hv
      · exact absurd hv ha
      · exact ⟨cstr "UTF-8", by simp [ha, hv]⟩
  · intro ha hu
    obtain ⟨name, sep, value, rfl, hn, hne, hlen⟩ := _validate_header_shape _ _ h
    obtain ⟨v, cs, hr, h1, h2⟩ := header_detect_split i have_chardet_iconv name sep value
      ct_charset charsetsave hn hne hlen ha hu
    exact ⟨name, sep, value, v, cs, rfl, hn, hr, h1, h2⟩

/-- The claim C12 at the line "Subject: Caf" followed by the byte 0xE9, with the
charset iso-8859-1 declared in Content-Type: the value becomes the UTF-8 text
of "Café". -/
theorem header_detect_result_witness :
    _validate_header sampleI18n.is_valid_us_ascii (some (cstr "Subject: Caf" ++ [233])) = true ∧
    ConvertedHeader sampleI18n (cstr "Subject: Caf" ++ [233])
      (header_detect_charset_and_convert_to_utf8 sampleI18n true (cstr "Subject: Caf" ++ [233])
        (some (cstr "iso-8859-1")) []) ∧
    header_detect_charset_and_convert_to_utf8 sampleI18n true (cstr "Subject: Caf" ++ [233])
        (some (cstr "iso-8859-1")) [] =
      .done (cstr "Subject: Caf" ++ [195, 169], []) :=
  ⟨by decide,
   header_detect_result sampleI18n true (cstr "Subject: Caf" ++ [233])
     (some (cstr "iso-8859-1")) [] (by decide),
   by decide⟩

/-- C11 at the line "Subject: Caf" followed by the byte 0xE9, with no charset in
Content-Type, the saved charset iso-8859-1 and no detected charset: converting the
value from the saved charset gives valid UTF-8, yet the code never makes that
conversion (its second attempt converts from the Content-Type charset again)
and returns "Subject: (invalid string)". -/
theorem header_detect_ignores_saved_charset :
    sampleI18n.is_valid_us_ascii (cstr "Subject: Caf" ++ [233]) = false ∧
    sampleI18n.is_valid_utf8 (cstr "Subject: Caf" ++ [233]) = false ∧
    sampleI18n.convstring (cstr "Caf" ++ [233]) (some (cstr "iso-8859-1")) =
      some (cstr "Caf" ++ [195, 169]) ∧
    sampleI18n.is_valid_utf8 (cstr "Caf" ++ [195, 169]) = true ∧
    header_detect_charset_and_convert_to_utf8 sampleI18n true (cstr "Subject: Caf" ++ [233])
        none (cstr "iso-8859-1") =
      .done (cstr "Subject: (invalid string)", cstr "iso-8859-1") := by
  decide

/-! ## The limit on the number of parts -/

/-- C18: when `set_max_attach_per_msg` is not 0 and `att_counter` exceeds it, the
statements at the end of a header block set the content to `CONTENT_IGNORE` and
the node made from it is `MN_SKIP_ALL` for every file status and type; when the
counter does not exceed the maximum the result is what it is without a limit,
and with the maximum 0 the limit never changes the content. -/
theorem max_attach_limit (set_max_attach_per_msg att_counter : Int)
    (ignorecontent : CStr → Bool) (content : ContentType) (type : CStr) :
    (set_max_attach_per_msg ≠ 0 → att_counter > set_max_attach_per_msg →
      headerBlockEnd set_max_attach_per_msg att_counter ignorecontent content type =
        (.CONTENT_IGNORE, true) ∧
      ∀ file_created content_type, message_node_skip_status file_created
        (headerBlockEnd set_max_attach_per_msg att_counter ignorecontent content type).1
        content_type = .MN_SKIP_ALL) ∧
    (att_counter ≤ set_max_attach_per_msg →
      maxAttachLimit set_max_attach_per_msg att_counter content = content ∧
      headerBlockEnd set_max_attach_per_msg att_counter ignorecontent content type =
        headerBlockEnd 0 att_counter ignorecontent content type) ∧
    maxAttachLimit 0 att_counter content = content ∧
    headerBlockEnd 0 att_counter ignorecontent content type =
      if content = .CONTENT_IGNORE then (content, true)
      else if ignorecontent type then (.CONTENT_IGNORE, true)
      else (content, false) := by
  refine ⟨fun h0 hgt => ?_, fun hle => ?_, ?_, ?_⟩
  · have h : headerBlockEnd set_max_attach_per_msg att_counter ignorecontent content type =
        (.CONTENT_IGNORE, true) := by
      simp [headerBlockEnd, maxAttachLimit, h0, hgt]
    refine ⟨h, fun fc ct => ?_⟩
    rw [h]
    simp [message_node_skip_status]
  · have h : ¬ (att_counter > set_max_attach_per_msg) := by omega
    simp [headerBlockEnd, maxAttachLimit, h]
  · simp [maxAttachLimit]
  · simp [headerBlockEnd, maxAttachLimit]

/-- The claim C18 with a maximum of 2 parts: the third part (counter 3) of type
text/plain is ignored and its node is `MN_SKIP_ALL`, the second one is kept. -/
theorem max_attach_limit_witness :
    headerBlockEnd 2 3 (fun _ => false) .CONTENT_TEXT (cstr "text/plain") =
      (.CONTENT_IGNORE, true) ∧
    message_node_skip_status .NO_FILE
      (headerBlockEnd 2 3 (fun _ => false) .CONTENT_TEXT (cstr "text/plain")).1
      (cstr "text/plain") = .MN_SKIP_ALL ∧
    headerBlockEnd 2 2 (fun _ => false) .CONTENT_TEXT (cstr "text/plain") =
      (.CONTENT_TEXT, false) :=
  ⟨((max_attach_limit 2 3 (fun _ => false) .CONTENT_TEXT (cstr "text/plain")).1
      (by decide) (by decide)).1,
   ((max_attach_limit 2 3 (fun _ => false) .CONTENT_TEXT (cstr "text/plain")).1
      (by decide) (by decide)).2 .NO_FILE (cstr "text/plain"),
   by decide⟩

/-! ## Saving all alternatives -/

/-- With all alternatives saved and without the Apple-mail exception the
selection step never gives a sibling the content `CONTENT_IGNORE`. -/
theorem save_alts_never_ignored (set_save_alts : Int) (topIsAlt : Bool) (prefs : List CStr)
    (st : AltState) (type : CStr) (decode : EncodeType)
    (h : set_save_alts = 1 ∨ set_save_alts = 2) :
    (alternativeStep set_save_alts set_save_alts false topIsAlt prefs st type decode).2.1 ≠
      .CONTENT_IGNORE := by
  rcases h with h | h <;> subst h
  · simp [alternativeStep, preferedcontent]
  · simp only [alternativeStep, Bool.false_and, Bool.false_eq_true, if_false]
    split <;> simp

/-- C19 with `set_save_alts` 1 and the siblings text/plain, text/html: the second
sibling is accepted with content `CONTENT_UNKNOWN`, and the node of the first
one, flagged `alternative` and kept so far, becomes `MN_SKIP_ALL`.  With
`set_save_alts` 2 and the siblings text/html, text/plain the same happens. -/
theorem save_alts_skips_previous_node :
    (alternativeStep 1 1 false true []
      (alternativeStep 1 1 false true [] ⟨-1, []⟩ (cstr "text/plain") .ENCODE_NORMAL).1
      (cstr "text/html") .ENCODE_NORMAL).2 = (.CONTENT_UNKNOWN, true) ∧
    alternativeNodeSkip 1 1 false true []
      (alternativeStep 1 1 false true [] ⟨-1, []⟩ (cstr "text/plain") .ENCODE_NORMAL).1
      (cstr "text/html") .ENCODE_NORMAL true .MN_KEEP = .MN_SKIP_ALL ∧
    (alternativeStep 2 2 false true []
      (alternativeStep 2 2 false true [] ⟨-1, []⟩ (cstr "text/html") .ENCODE_NORMAL).1
      (cstr "text/plain") .ENCODE_NORMAL).2 = (.CONTENT_UNKNOWN, true) ∧
    alternativeNodeSkip 2 2 false true []
      (alternativeStep 2 2 false true [] ⟨-1, []⟩ (cstr "text/html") .ENCODE_NORMAL).1
      (cstr "text/plain") .ENCODE_NORMAL true .MN_KEEP = .MN_SKIP_ALL := by
  decide

/-! ## The transfer decoder at part boundaries -/

/-- C20 for a multipart whose own header block declares base64: after its first
start boundary `decode` is still `ENCODE_BASE64` and the decoder state is still
held, whereas a later boundary line or the end of the message resets both. -/
theorem decoder_kept_at_start_boundary :
    [PartEvent.transferEncoding (cstr " base64"), .startBoundary].foldl decoderStep
      initialDecoder = { decode := .ENCODE_BASE64, b64_decoder_state := some () } ∧
    [PartEvent.transferEncoding (cstr " base64"), .boundary].foldl decoderStep
      initialDecoder = { decode := .ENCODE_NORMAL, b64_decoder_state := none } ∧
    [PartEvent.transferEncoding (cstr " base64"), .messageEnd].foldl decoderStep
      initialDecoder = { decode := .ENCODE_NORMAL, b64_decoder_state := none } := by
  decide

/-! ## Reply ids -/

theorem dropWhile_until (c : Nat) (pre rest : CStr) (h : c ∉ pre) :
    (pre ++ c :: rest).dropWhile (fun ch => ch != c) = c :: rest := by
  induction pre with
  | nil => simp [List.dropWhile_cons]
  | cons x xs ih =>
    have hx : x ≠ c := fun e => h (by simp [e])
    have hxs : c ∉ xs := fun e => h (by simp [e])
    simp [List.dropWhile_cons, hx, ih hxs]

theorem untilClose_id (id post : CStr) (h : ∀ ch ∈ id, ch ≠ 62 ∧ ch ≠ 10 ∧ ch ≠ 13 ∧ ch ≠ 92) :
    untilClose (id ++ 62 :: post) = id := by
  induction id with
  | nil => simp [untilClose, List.takeWhile_cons]
  | cons x xs ih =>
    have hx := h x (by simp)
    have := ih (fun ch hch => h ch (by simp [hch]))
    simp only [untilClose] at this ⊢
    simp [List.takeWhile_cons, hx.1, hx.2.1, hx.2.2.1, this]

theorem filter_no_backslash (id : CStr) (h : ∀ ch ∈ id, ch ≠ 62 ∧ ch ≠ 10 ∧ ch ≠ 13 ∧ ch ≠ 92) :
    id.filter (fun ch => ch != 92) = id := by
  rw [List.filter_eq_self]
  intro ch hch
  simpa using (h ch hch).2.2.2

theorem strrchr_none (s : CStr) (c : Nat) (h : c ∉ s) : strrchr s c = none := by
  induction s with
  | nil => rfl
  | cons x xs ih =>
    have hx : x ≠ c := fun e => h (by simp [e])
    have hxs : c ∉ xs := fun e => h (by simp [e])
    simp [strrchr, ih hxs, hx]

theorem strrchr_last (pre rest : CStr) (c : Nat) (h : c ∉ rest) :
    strrchr (pre ++ c :: rest) c = some (c :: rest) := by
  induction pre with
  | nil => simp [strrchr, strrchr_none rest c h]
  | cons x xs ih => simp [strrchr, ih]

theorem RETURN_PUSH_cons (pushEmpty : Option CStr) (buff : CStr) (h : buff ≠ []) :
    RETURN_PUSH pushEmpty buff = some buff := by
  simp [RETURN_PUSH, h]

/-- C17 at the line "References: <a@x> <b@y>": the id taken by `getid`, which
`parsemail` uses for References, is the last one, "b@y", not the first one. -/
theorem getid_takes_last_id :
    getid none (cstr "References: <a@x> <b@y>") = .done (some (cstr "b@y")) ∧
    getid none (cstr "References: <a@x> <b@y>") ≠ .done (some (cstr "a@x")) := by
  decide

/-- C17 (amended): on a line whose first '<' opens a non-empty id closed by '>' (an id without
'>', line end or backslash) and which contains neither "dated: " nor "dated ", `getreply`
returns that first id; on a line whose last '<' opens such an id, `getid` returns that
last id. -/
theorem reply_id_extraction (pushEmpty : Option CStr) (pre id post : CStr) (hid : id ≠ [])
    (hidc : ∀ ch ∈ id, ch ≠ 62 ∧ ch ≠ 10 ∧ ch ≠ 13 ∧ ch ≠ 92) :
    (60 ∉ pre → strstr (pre ++ 60 :: id ++ 62 :: post) (cstr "dated: ") = none →
      strstr (pre ++ 60 :: id ++ 62 :: post) (cstr "dated ") = none →
      getreply pushEmpty (pre ++ 60 :: id ++ 62 :: post) = some id) ∧
    (60 ∉ id → 60 ∉ post →
      getid pushEmpty (pre ++ 60 :: id ++ 62 :: post) = .done (some id)) := by
  constructor
  · intro hpre hd1 hd2
    have hangle : (pre ++ 60 :: id ++ 62 :: post).dropWhile (fun ch => ch != 60) =
        60 :: (id ++ 62 :: post) := by
      have := dropWhile_until 60 pre (id ++ 62 :: post) hpre
      simpa using this
    have hu : untilClose (id ++ 62 :: post) = id := untilClose_id id post hidc
    have hr : RETURN_PUSH pushEmpty id = some id := RETURN_PUSH_cons _ _ hid
    unfold getreply
    simp only [hangle, hd1, hd2, List.drop_succ_cons, List.drop_zero, hu,
      filter_no_backslash id hidc, hr, ne_eq, reduceCtorEq, not_false_eq_true, and_true, if_true]
    split
    · rfl
    · split <;> rfl
  · intro h1 h2
    have hlast : strrchr (pre ++ 60 :: id ++ 62 :: post) 60 = some (60 :: (id ++ 62 :: post)) := by
      have := strrchr_last pre (id ++ 62 :: post) 60 (by simp [h1, h2])
      simpa using this
    have hu : untilClose (id ++ 62 :: post) = id := untilClose_id id post hidc
    have hr : RETURN_PUSH pushEmpty id = some id := RETURN_PUSH_cons _ _ hid
    have hl : id.length ≠ 0 := by
      intro e; exact hid (List.length_eq_zero.mp e)
    unfold getid
    simp only [hlast, List.drop_succ_cons, List.drop_zero, hu, filter_no_backslash id hidc, hr, hl,
      if_false]

/-- The amended claim C17 at "In-Reply-To: <a@x> <b@y>", where `getreply` gives the
first id, and at "References: <a@x> <b@y>", where `getid` gives the last one. -/
theorem reply_id_extraction_witness :
    getreply none (cstr "In-Reply-To: <a@x> <b@y>") = some (cstr "a@x") ∧
    getid none (cstr "References: <a@x> <b@y>") = .done (some (cstr "b@y")) :=
  ⟨(reply_id_extraction none (cstr "In-Reply-To: ") (cstr "a@x") (cstr " <b@y>")
      (by decide) (by decide)).1 (by decide) (by decide) (by decide),
   (reply_id_extraction none (cstr "References: <a@x> ") (cstr "b@y") []
      (by decide) (by decide)).2 (by decide) (by decide)⟩

/-! ## Headers that occur more than once -/

theorem Outcome.bind_eq_done {α β : Type} (o : Outcome α) (f : α → Outcome β) (b : β) :
    o.bind f = .done b ↔ ∃ a, o = .done a ∧ f a = .done b := by
  cases o <;> simp [Outcome.bind]

theorem headerDispatch_frame (env : HeaderEnv) (st st1 : HeaderVars) (l : CStr)
    (h : headerDispatch env st l = .done st1) :
    ((headerKind l ≠ .date ∨ st.hasdate = true ∨ env.message_headers_parsed = true) →
      st1.hasdate = st.hasdate ∧ st1.date = st.date) ∧
    ((headerKind l ≠ .subject ∨ st.hassubject = true ∨ env.message_headers_parsed = true) →
      st1.hassubject = st.hassubject ∧ st1.subject = st.subject) ∧
    ((headerKind l ≠ .messageId ∨ st.msgid.isSome = true ∨ env.message_headers_parsed = true) →
      st1.msgid = st.msgid) ∧
    ((env.message_headers_parsed = true ∨ (headerKind l ≠ .inReplyTo ∧
        (headerKind l ≠ .references ∨ st.inreply.isSome = true))) →
      st1.inreply = st.inreply) := by
  obtain ⟨cs, hd, d, np, ep, mi, hs, su, ir⟩ := st
  unfold headerDispatch at h
  cases hk : headerKind l <;> simp only [hk] at h
  all_goals (try simp only [Outcome.bind_eq_done] at h)
  all_goals (repeat' split at h)
  all_goals (try simp only [Outcome.bind_eq_done] at h)
  all_goals (try obtain ⟨a, ha, h⟩ := h)
  all_goals (try obtain ⟨a2, ha2, h⟩ := h)
  all_goals (try simp only [Outcome.done.injEq] at h)
  all_goals (try subst h)
  all_goals simp_all

theorem getid_core_isSome (pushEmpty : Option CStr) (start : Option CStr) (m : Option CStr)
    (h : (match start with
      | none => Outcome.undefined
      | some c =>
        let buff := (untilClose c).filter (fun ch => ch != 92)
        if buff.length = 0 then Outcome.done (RETURN_PUSH pushEmpty (cstr "BOZO"))
        else Outcome.done (RETURN_PUSH pushEmpty buff)) = .done m) : m.isSome = true := by
  cases start with
  | none => simp at h
  | some c =>
    simp only at h
    split at h
    · simp only [Outcome.done.injEq] at h
      subst h
      simp [RETURN_PUSH, cstr]
    · rename_i hne
      simp only [Outcome.done.injEq] at h
      subst h
      have : (List.filter (fun ch => ch != 92) (untilClose c)) ≠ [] := by
        intro e; exact hne (by rw [e]; rfl)
      simp [RETURN_PUSH, this]

theorem getid_isSome (pushEmpty : Option CStr) (l : CStr) (m : Option CStr)
    (h : getid pushEmpty l = .done m) : m.isSome = true :=
  getid_core_isSome pushEmpty _ m h

theorem headerDispatch_record (env : HeaderEnv) (st st1 : HeaderVars) (l : CStr)
    (h : headerDispatch env st l = .done st1) (hm : env.message_headers_parsed = false) :
    (headerKind l = .date → st.hasdate = false →
      st1.hasdate = true ∧
      getmaildate env.NODATE env.DATESTRLEN env.pushEmpty (env.strlftonl l) = .done st1.date) ∧
    (headerKind l = .subject → st.hassubject = false →
      st1.hassubject = true ∧
      ∃ r, header_detect_charset_and_convert_to_utf8 env.i18n env.have_chardet_iconv l
          env.charset st.charsetsave = .done r ∧
        st1.subject = getsubject env.replace env.set_stripsubject env.NOSUBJECT
          (env.strlftonl r.1)) ∧
    (headerKind l = .messageId → st.msgid = none →
      getid env.pushEmpty (env.strlftonl l) = .done st1.msgid) ∧
    (headerKind l = .inReplyTo →
      ∃ u, unescaped env.pushEmpty (env.strlftonl l) = .done u ∧
        st1.inreply = getreply env.pushEmpty u) ∧
    (headerKind l = .references → st.inreply = none →
      ∃ u, unescaped env.pushEmpty l = .done u ∧ getid env.pushEmpty u = .done st1.inreply) := by
  obtain ⟨cs, hd, d, np, ep, mi, hs, su, ir⟩ := st
  unfold headerDispatch at h
  cases hk : headerKind l <;> simp only [hk] at h
  all_goals (try simp only [Outcome.bind_eq_done] at h)
  all_goals (repeat' split at h)
  all_goals (try simp only [Outcome.bind_eq_done] at h)
  all_goals (try obtain ⟨a, ha, h⟩ := h)
  all_goals (try obtain ⟨a2, ha2, h⟩ := h)
  all_goals (try simp only [Outcome.done.injEq] at h)
  all_goals (try subst h)
  all_goals (try simp_all)
  all_goals (intro e; subst e; simp_all)

theorem headerLine_cases (env : HeaderEnv) (st st1 : HeaderVars) (line : CStr)
    (h : headerLine env st line = .done st1) :
    (headerKindOf env st line = none ∧ ∃ cs, st1 = { st with charsetsave := cs }) ∨
    (∃ l cs, headerPrelude env st.charsetsave line = .done (some (l, cs)) ∧
      headerKindOf env st line = some (headerKind l) ∧
      headerDispatch env { st with charsetsave := cs } l = .done st1) := by
  unfold headerLine at h
  rw [Outcome.bind_eq_done] at h
  obtain ⟨r, hr, h⟩ := h
  unfold headerKindOf
  rw [hr]
  match r, h with
  | none, h =>
    simp only [Outcome.done.injEq] at h
    exact Or.inl ⟨rfl, st.charsetsave, by rw [← h]⟩
  | some (l, cs), h =>
    simp only at h ⊢
    by_cases hc : l.head? = some 58
    · simp only [hc, if_true, Outcome.done.injEq] at h ⊢
      exact Or.inl ⟨trivial, cs, h.symm⟩
    · simp only [hc, if_false] at h ⊢
      exact Or.inr ⟨l, cs, rfl, rfl, h⟩

theorem headerLine_frame (env : HeaderEnv) (st st1 : HeaderVars) (line : CStr)
    (h : headerLine env st line = .done st1) :
    ((headerKindOf env st line ≠ some .date ∨ st.hasdate = true ∨
        env.message_headers_parsed = true) →
      st1.hasdate = st.hasdate ∧ st1.date = st.date) ∧
    ((headerKindOf env st line ≠ some .subject ∨ st.hassubject = true ∨
        env.message_headers_parsed = true) →
      st1.hassubject = st.hassubject ∧ st1.subject = st.subject) ∧
    ((headerKindOf env st line ≠ some .messageId ∨ st.msgid.isSome = true ∨
        env.message_headers_parsed = true) →
      st1.msgid = st.msgid) ∧
    ((env.message_headers_parsed = true ∨ (headerKindOf env st line ≠ some .inReplyTo ∧
        (headerKindOf env st line ≠ some .references ∨ st.inreply.isSome = true))) →
      st1.inreply = st.inreply) := by
  rcases headerLine_cases env st st1 line h with ⟨_, cs, rfl⟩ | ⟨l, cs, _, hk, hd⟩
  · simp
  · have := headerDispatch_frame env _ st1 l hd
    rw [hk]
    simpa using this

theorem parseHeaders_cons (env : HeaderEnv) (line : CStr) (rest : List CStr)
    (st fin : HeaderVars) :
    parseHeaders env (line :: rest) st = .done fin ↔
      ∃ st1, headerLine env st line = .done st1 ∧ parseHeaders env rest st1 = .done fin := by
  simp [parseHeaders, Outcome.bind_eq_done]

theorem parseHeaders_append (env : HeaderEnv) (pre rest : List CStr) (st0 st : HeaderVars)
    (h : parseHeaders env pre st0 = .done st) :
    parseHeaders env (pre ++ rest) st0 = parseHeaders env rest st := by
  induction pre generalizing st0 with
  | nil =>
    simp only [parseHeaders, Outcome.done.injEq] at h
    subst h; rfl
  | cons l ls ih =>
    obtain ⟨s1, h1, h2⟩ := (parseHeaders_cons env l ls st0 st).mp h
    simp only [List.cons_append, parseHeaders, h1, Outcome.bind]
    exact ih s1 h2

theorem kindsSeen_cons (env : HeaderEnv) (line : CStr) (rest : List CStr)
    (st st1 : HeaderVars) (h : headerLine env st line = .done st1) :
    kindsSeen env (line :: rest) st = headerKindOf env st line :: kindsSeen env rest st1 := by
  simp [kindsSeen, h]

/-- A block without a line of some kind leaves what that kind records as it
was. -/
theorem parseHeaders_absent (env : HeaderEnv) (lines : List CStr) (st fin : HeaderVars)
    (h : parseHeaders env lines st = .done fin) :
    (some HeaderKind.date ∉ kindsSeen env lines st →
      fin.hasdate = st.hasdate ∧ fin.date = st.date) ∧
    (some HeaderKind.subject ∉ kindsSeen env lines st →
      fin.hassubject = st.hassubject ∧ fin.subject = st.subject) ∧
    (some HeaderKind.messageId ∉ kindsSeen env lines st → fin.msgid = st.msgid) ∧
    (some HeaderKind.inReplyTo ∉ kindsSeen env lines st →
      (st.inreply.isSome = true ∨ some HeaderKind.references ∉ kindsSeen env lines st) →
      fin.inreply = st.inreply) := by
  induction lines generalizing st with
  | nil =>
    simp only [parseHeaders, Outcome.done.injEq] at h
    subst h; simp
  | cons l ls ih =>
    obtain ⟨s1, h1, h2⟩ := (parseHeaders_cons env l ls st fin).mp h
    obtain ⟨f1, f2, f3, f4⟩ := headerLine_frame env st s1 l h1
    obtain ⟨i1, i2, i3, i4⟩ := ih s1 h2
    rw [kindsSeen_cons env l ls st s1 h1]
    simp only [List.mem_cons, not_or]
    refine ⟨fun hk => ?_, fun hk => ?_, fun hk => ?_, fun hk hr => ?_⟩
    · obtain ⟨a, b⟩ := f1 (Or.inl (Ne.symm hk.1))
      obtain ⟨c, d⟩ := i1 hk.2
      exact ⟨by rw [c, a], by rw [d, b]⟩
    · obtain ⟨a, b⟩ := f2 (Or.inl (Ne.symm hk.1))
      obtain ⟨c, d⟩ := i2 hk.2
      exact ⟨by rw [c, a], by rw [d, b]⟩
    · rw [i3 hk.2, f3 (Or.inl (Ne.symm hk.1))]
    · have a : s1.inreply = st.inreply := by
        apply f4
        refine Or.inr ⟨Ne.symm hk.1, ?_⟩
        rcases hr with hr | hr
        · exact Or.inr hr
        · exact Or.inl (Ne.symm hr.1)
      rw [← a]
      apply i4 hk.2
      rcases hr with hr | hr
      · exact Or.inl (by rw [a, hr])
      · exact Or.inr hr.2

theorem headerLine_dispatched (env : HeaderEnv) (st st1 : HeaderVars) (line : CStr)
    (k : HeaderKind) (h : headerLine env st line = .done st1)
    (hk : headerKindOf env st line = some k) :
    ∃ l cs, headerPrelude env st.charsetsave line = .done (some (l, cs)) ∧ headerKind l = k ∧
      headerDispatch env { st with charsetsave := cs } l = .done st1 := by
  rcases headerLine_cases env st st1 line h with ⟨hn, _⟩ | ⟨l, cs, hp, hk2, hd⟩
  · rw [hn] at hk; simp at hk
  · rw [hk2] at hk
    exact ⟨l, cs, hp, Option.some.inj hk, hd⟩

/-- The part of C16 that the code meets: a line that reaches the In-Reply-To branch
and gives a reply id that is not NULL decides the recorded reply id when no
In-Reply-To line follows it, whatever References lines come before or after it; and
in a block without In-Reply-To line the recorded reply id is the one `getid` takes
from the first References line. -/
theorem in_reply_to_preferred (env : HeaderEnv) (pre post : List CStr) (line : CStr)
    (st0 st st1 fin : HeaderVars) (hm : env.message_headers_parsed = false)
    (hpre : parseHeaders env pre st0 = .done st)
    (hline : headerLine env st line = .done st1)
    (hpost : parseHeaders env post st1 = .done fin) :
    parseHeaders env (pre ++ line :: post) st0 = .done fin ∧
    (headerKindOf env st line = some .inReplyTo →
      some HeaderKind.inReplyTo ∉ kindsSeen env post st1 → st1.inreply.isSome = true →
      ∃ l cs u, headerPrelude env st.charsetsave line = .done (some (l, cs)) ∧
        unescaped env.pushEmpty (env.strlftonl l) = .done u ∧
        fin.inreply = getreply env.pushEmpty u) ∧
    (st0.inreply = none → some HeaderKind.inReplyTo ∉ kindsSeen env pre st0 →
      some HeaderKind.references ∉ kindsSeen env pre st0 →
      headerKindOf env st line = some .references →
      some HeaderKind.inReplyTo ∉ kindsSeen env post st1 →
      ∃ l cs u, headerPrelude env st.charsetsave line = .done (some (l, cs)) ∧
        unescaped env.pushEmpty l = .done u ∧
        getid env.pushEmpty u = .done fin.inreply) := by
  obtain ⟨_, _, _, a4⟩ := parseHeaders_absent env pre st0 st hpre
  obtain ⟨_, _, _, p4⟩ := parseHeaders_absent env post st1 fin hpost
  refine ⟨?_, fun hl hk hsome => ?_, fun h0 hk1 hk2 hl hk3 => ?_⟩
  · rw [parseHeaders_append env pre (line :: post) st0 st hpre]
    exact (parseHeaders_cons env line post st fin).mpr ⟨st1, hline, hpost⟩
  · obtain ⟨l, cs, hp, hkind, hd⟩ := headerLine_dispatched env st st1 line _ hline hl
    obtain ⟨_, _, _, r4, _⟩ := headerDispatch_record env _ st1 l hd hm
    obtain ⟨u, hu, b⟩ := r4 hkind
    exact ⟨l, cs, u, hp, hu, by rw [p4 hk (Or.inl hsome)]; exact b⟩
  · obtain ⟨l, cs, hp, hkind, hd⟩ := headerLine_dispatched env st st1 line _ hline hl
    have hs : st.inreply = none := by rw [a4 hk1 (Or.inr hk2), h0]
    obtain ⟨_, _, _, _, r5⟩ := headerDispatch_record env _ st1 l hd hm
    obtain ⟨u, hu, b⟩ := r5 hkind hs
    have hsome := getid_isSome _ _ _ b
    exact ⟨l, cs, u, hp, hu, by rw [p4 hk3 (Or.inl hsome)]; exact b⟩

/-- C15 at the block "In-Reply-To: <a@x>", "In-Reply-To: <b@y>": after the first line the
recorded reply id is "a@x", and the second line replaces it by "b@y". -/
theorem second_in_reply_to_replaces :
    parseHeaders sampleEnv [cstr "In-Reply-To: <a@x>"] (initialHeaderVars (cstr "No Subject")) =
      .done { charsetsave := [], hasdate := false, date := none, namep := none, emailp := none,
              msgid := none, hassubject := false, subject := some (cstr "No Subject"), inreply := some (cstr "a@x") } ∧
    parseHeaders sampleEnv [cstr "In-Reply-To: <a@x>", cstr "In-Reply-To: <b@y>"]
        (initialHeaderVars (cstr "No Subject")) =
      .done { charsetsave := [], hasdate := false, date := none, namep := none, emailp := none,
              msgid := none, hassubject := false, subject := some (cstr "No Subject"), inreply := some (cstr "b@y") } := by
  decide

/-- The blocks "References: <b@y>", "In-Reply-To: <a@x>" and "In-Reply-To: <a@x>",
"References: <b@y>": in both the recorded reply id is "a@x". -/
theorem in_reply_to_preferred_witness :
    parseHeaders sampleEnv ([cstr "References: <b@y>"] ++ cstr "In-Reply-To: <a@x>" :: [])
        (initialHeaderVars (cstr "No Subject")) =
      .done { charsetsave := [], hasdate := false, date := none, namep := none, emailp := none,
              msgid := none, hassubject := false, subject := some (cstr "No Subject"), inreply := some (cstr "a@x") } ∧
    parseHeaders sampleEnv ([] ++ cstr "In-Reply-To: <a@x>" :: [cstr "References: <b@y>"])
        (initialHeaderVars (cstr "No Subject")) =
      .done { charsetsave := [], hasdate := false, date := none, namep := none, emailp := none,
              msgid := none, hassubject := false, subject := some (cstr "No Subject"), inreply := some (cstr "a@x") } ∧
    ∃ l cs u, headerPrelude sampleEnv [] (cstr "In-Reply-To: <a@x>") = .done (some (l, cs)) ∧
      unescaped none l = .done u ∧ some (cstr "a@x") = getreply none u :=
  ⟨(in_reply_to_preferred sampleEnv [cstr "References: <b@y>"] []
      (cstr "In-Reply-To: <a@x>") (initialHeaderVars (cstr "No Subject"))
      { charsetsave := [], hasdate := false, date := none, namep := none, emailp := none,
              msgid := none, hassubject := false, subject := some (cstr "No Subject"), inreply := some (cstr "b@y") }
      { charsetsave := [], hasdate := false, date := none, namep := none, emailp := none,
              msgid := none, hassubject := false, subject := some (cstr "No Subject"), inreply := some (cstr "a@x") }
      { charsetsave := [], hasdate := false, date := none, namep := none, emailp := none,
              msgid := none, hassubject := false, subject := some (cstr "No Subject"), inreply := some (cstr "a@x") }
      rfl (by decide) (by decide) (by decide)).1,
   (in_reply_to_preferred sampleEnv [] [cstr "References: <b@y>"]
      (cstr "In-Reply-To: <a@x>") (initialHeaderVars (cstr "No Subject"))
      (initialHeaderVars (cstr "No Subject"))
      { charsetsave := [], hasdate := false, date := none, namep := none, emailp := none,
              msgid := none, hassubject := false, subject := some (cstr "No Subject"), inreply := some (cstr "a@x") }
      { charsetsave := [], hasdate := false, date := none, namep := none, emailp := none,
              msgid := none, hassubject := false, subject := some (cstr "No Subject"), inreply := some (cstr "a@x") }
      rfl (by decide) (by decide) (by decide)).1,
   (in_reply_to_preferred sampleEnv [] [cstr "References: <b@y>"]
      (cstr "In-Reply-To: <a@x>") (initialHeaderVars (cstr "No Subject"))
      (initialHeaderVars (cstr "No Subject"))
      { charsetsave := [], hasdate := false, date := none, namep := none, emailp := none,
              msgid := none, hassubject := false, subject := some (cstr "No Subject"), inreply := some (cstr "a@x") }
      { charsetsave := [], hasdate := false, date := none, namep := none, emailp := none,
              msgid := none, hassubject := false, subject := some (cstr "No Subject"), inreply := some (cstr "a@x") }
      rfl (by decide) (by decide) (by decide)).2.1
      (by decide) (by decide) rfl⟩

/-- C16 at the blocks "In-Reply-To: <>", "References: <b@y>" and "References: <b@y>",
"In-Reply-To: <>", with `RETURN_PUSH` giving NULL for a buffer into which nothing was
pushed: both lines reach their branches; in the first order the recorded reply id
is "b@y", taken from References although the block has an In-Reply-To line, and in
the second order no reply id is recorded. -/
theorem empty_in_reply_to_uses_references :
    kindsSeen sampleEnv [cstr "In-Reply-To: <>", cstr "References: <b@y>"]
        (initialHeaderVars (cstr "No Subject")) =
      [some .inReplyTo, some .references] ∧
    getreply none (cstr "In-Reply-To: <>") = none ∧
    parseHeaders sampleEnv [cstr "In-Reply-To: <>", cstr "References: <b@y>"]
        (initialHeaderVars (cstr "No Subject")) =
      .done { charsetsave := [], hasdate := false, date := none, namep := none, emailp := none,
              msgid := none, hassubject := false, subject := some (cstr "No Subject"),
              inreply := some (cstr "b@y") } ∧
    parseHeaders sampleEnv [cstr "References: <b@y>", cstr "In-Reply-To: <>"]
        (initialHeaderVars (cstr "No Subject")) =
      .done { charsetsave := [], hasdate := false, date := none, namep := none, emailp := none,
              msgid := none, hassubject := false, subject := some (cstr "No Subject"),
              inreply := none } := by
  decide

/-! ## Reply markers -/

theorem strtol_end_number (ws sign digits rest : CStr) (hws : ∀ x ∈ ws, isspace x = true)
    (hsign : sign = [] ∨ sign = [43] ∨ sign = [45]) (hne : digits ≠ [])
    (hd : ∀ d ∈ digits, isdigit d = true) :
    strtol_end (ws ++ sign ++ digits ++ 93 :: rest) = 93 :: rest := by
  obtain ⟨d, ds, rfl⟩ := List.exists_cons_of_ne_nil hne
  have hd0 : isdigit d = true := hd d (by simp)
  have hr : 48 ≤ d ∧ d ≤ 57 := by simpa [isdigit] using hd0
  have hsp : isspace d = false := by
    simp only [isspace, Bool.or_eq_false_iff, beq_eq_false_iff_ne, ne_eq,
      Bool.and_eq_false_iff, decide_eq_false_iff_not]
    omega
  have hdw : List.dropWhile isdigit ((d :: ds) ++ 93 :: rest) = 93 :: rest := by
    rw [List.dropWhile_append_of_pos hd]
    simp [List.dropWhile_cons, isdigit]
  have hdrop : ∀ tail : CStr, tail.head?.map isspace = some false →
      List.dropWhile isspace (ws ++ tail) = tail := by
    intro tail ht
    rw [List.dropWhile_append_of_pos hws]
    cases tail with
    | nil => rfl
    | cons x xs =>
      have : isspace x = false := by simpa using ht
      simp [List.dropWhile_cons, this]
  unfold strtol_end
  rcases hsign with rfl | rfl | rfl
  · have := hdrop ((d :: ds) ++ 93 :: rest) (by simp [hsp])
    simp only [List.append_nil, List.append_assoc] at this ⊢
    rw [this]
    have h43 : d ≠ 43 := by omega
    have h45 : d ≠ 45 := by omega
    simp only [List.cons_append, h43, h45, or_self, if_false, hd0, if_true] at hdw ⊢
    exact hdw
  · have := hdrop ([43] ++ (d :: ds) ++ 93 :: rest) (by simp [isspace])
    simp only [List.append_assoc] at this ⊢
    rw [this]
    simp only [List.cons_append, List.nil_append, true_or, if_true, hd0] at hdw ⊢
    exact hdw
  · have := hdrop ([45] ++ (d :: ds) ++ 93 :: rest) (by simp [isspace])
    simp only [List.append_assoc] at this ⊢
    rw [this]
    simp only [List.cons_append, List.nil_append, or_true, if_true, hd0] at hdw ⊢
    exact hdw

theorem digits_split (u : CStr) (c : Nat) (r : CStr) (hu : u = c :: r) (hc : isdigit c = true) :
    u.takeWhile isdigit ≠ [] ∧ (∀ d ∈ u.takeWhile isdigit, isdigit d = true) ∧
      u = u.takeWhile isdigit ++ u.dropWhile isdigit := by
  subst hu
  refine ⟨by simp [List.takeWhile_cons, hc], ?_, (List.takeWhile_append_dropWhile _ _).symm⟩
  intro d hd
  exact List.mem_takeWhile_imp hd

theorem strtol_end_split (s : CStr) : ∃ n, StrtolText n ∧ s = n ++ strtol_end s := by
  have hs : s = s.takeWhile isspace ++ s.dropWhile isspace :=
    (List.takeWhile_append_dropWhile _ _).symm
  have hws : ∀ x ∈ s.takeWhile isspace, isspace x = true := fun x hx => List.mem_takeWhile_imp hx
  unfold strtol_end
  generalize s.dropWhile isspace = t at hs
  generalize s.takeWhile isspace = ws at hs hws
  match t, hs with
  | [], _ => exact ⟨[], Or.inl rfl, rfl⟩
  | c :: r, hs =>
    by_cases hsign : c = 43 ∨ c = 45
    · simp only [hsign, if_true]
      match r, hs with
      | [], _ => exact ⟨[], Or.inl rfl, rfl⟩
      | d :: r2, hs =>
        by_cases hd : isdigit d = true
        · simp only [hd, if_true]
          obtain ⟨h1, h2, h3⟩ := digits_split (d :: r2) d r2 rfl hd
          refine ⟨ws ++ [c] ++ (d :: r2).takeWhile isdigit,
            Or.inr ⟨ws, [c], _, rfl, hws, ?_, h1, h2⟩, ?_⟩
          · rcases hsign with h | h <;> simp [h]
          · rw [List.append_assoc, List.append_assoc, ← h3]
            simpa using hs
        · simp only [hd, Bool.false_eq_true, if_false]
          exact ⟨[], Or.inl rfl, rfl⟩
    · simp only [hsign, if_false]
      by_cases hd : isdigit c = true
      · simp only [hd, if_true]
        obtain ⟨h1, h2, h3⟩ := digits_split (c :: r) c r rfl hd
        refine ⟨ws ++ [] ++ (c :: r).takeWhile isdigit,
          Or.inr ⟨ws, [], _, rfl, hws, Or.inl rfl, h1, h2⟩, ?_⟩
        rw [List.append_assoc, List.append_assoc, List.nil_append, ← h3]
        exact hs
      · simp only [hd, Bool.false_eq_true, if_false]
        exact ⟨[], Or.inl rfl, rfl⟩

theorem strncaseeq_three_iff (lit : CStr) (x y z : Nat)
    (hl : (lit.take 3).map tolower = [x, y, z]) (re : CStr) :
    strncaseeq lit re 3 = true ↔
      ∃ a b c post, re = a :: b :: c :: post ∧ tolower a = x ∧ tolower b = y ∧ tolower c = z := by
  unfold strncaseeq
  rw [hl]
  constructor
  · intro h
    rcases re with _ | ⟨a, _ | ⟨b, _ | ⟨c, post⟩⟩⟩
    · simp at h
    · simp at h
    · simp at h
    · simp only [List.take_succ_cons, List.take_zero, List.map_cons, List.map_nil, beq_iff_eq,
        List.cons.injEq, and_true] at h
      exact ⟨a, b, c, post, rfl, h.1.symm, h.2.1.symm, h.2.2.symm⟩
  · rintro ⟨a, b, c, post, rfl, ha, hb, hc⟩
    simp [ha, hb, hc]

theorem strneq_close (X : CStr) : strneq (cstr "]:") X 2 = true ↔ ∃ e, X = 93 :: 58 :: e := by
  have e4 : List.take 2 (cstr "]:") = [93, 58] := by decide
  unfold strneq
  rw [e4]
  constructor
  · intro h
    rcases X with _ | ⟨a, _ | ⟨b, e⟩⟩
    · simp at h
    · simp at h
    · simp only [List.take_succ_cons, List.take_zero, beq_iff_eq, List.cons.injEq,
        and_true] at h
      exact ⟨e, by rw [← h.1, ← h.2]⟩
  · rintro ⟨e, rfl⟩
    simp

theorem strtol_end_text (n rest : CStr) (h : StrtolText n) :
    strtol_end (n ++ 93 :: rest) = 93 :: rest := by
  rcases h with rfl | ⟨ws, sign, digits, rfl, hws, hsign, hne, hd⟩
  · exact strtol_end_digits [] rest (by simp)
  · exact strtol_end_number ws sign digits rest hws hsign hne hd

theorem isre_marker (re e : CStr) :
    isre re = some e ↔ ∃ m, AcceptedMarker m ∧ re = m ++ e := by
  have e1 : List.map tolower (List.take 3 (cstr "Re:")) = [114, 101, 58] := by decide
  have e2 : List.map tolower (List.take 3 (cstr "Fw:")) = [102, 119, 58] := by decide
  have e3 : List.map tolower (List.take 3 (cstr "Re[")) = [114, 101, 91] := by decide
  have f1 : (cstr "Re:").map tolower = [114, 101, 58] := by decide
  have f2 : (cstr "Fw:").map tolower = [102, 119, 58] := by decide
  have f3 : (cstr "Re[").map tolower = [114, 101, 91] := by decide
  have i1 := strncaseeq_three_iff (cstr "Re:") _ _ _ e1 re
  have i2 := strncaseeq_three_iff (cstr "Fw:") _ _ _ e2 re
  have i3 := strncaseeq_three_iff (cstr "Re[") _ _ _ e3 re
  constructor
  · intro h
    unfold isre at h
    split at h
    · rename_i h1
      obtain ⟨a, b, c, post, rfl, ha, hb, hc⟩ := i1.mp h1
      simp only [List.drop_succ_cons, List.drop_zero, Option.some.injEq] at h
      subst h
      exact ⟨[a, b, c], Or.inl (by simp [strcaseeq, f1, ha, hb, hc]), rfl⟩
    · split at h
      · rename_i h2
        obtain ⟨a, b, c, post, rfl, ha, hb, hc⟩ := i2.mp h2
        simp only [List.drop_succ_cons, List.drop_zero, Option.some.injEq] at h
        subst h
        exact ⟨[a, b, c], Or.inr (Or.inl (by simp [strcaseeq, f2, ha, hb, hc])), rfl⟩
      · split at h
        · rename_i h3
          obtain ⟨a, b, c, post, rfl, ha, hb, hc⟩ := i3.mp h3
          simp only [List.drop_succ_cons, List.drop_zero] at h
          split at h
          · rename_i hclose
            obtain ⟨e2, he2⟩ := (strneq_close _).mp hclose
            obtain ⟨n, hn, hsplit⟩ := strtol_end_split post
            rw [he2] at h hsplit
            simp only [List.drop_succ_cons, List.drop_zero, Option.some.injEq] at h
            subst h
            refine ⟨[a, b, c] ++ n ++ cstr "]:", Or.inr (Or.inr ⟨[a, b, c], n, rfl,
              by simp [strcaseeq, f3, ha, hb, hc], hn⟩), ?_⟩
            have e4 : cstr "]:" = [93, 58] := by decide
            rw [e4]
            simp only [List.cons_append, List.nil_append, List.append_assoc, List.cons.injEq,
              true_and]
            exact hsplit
          · simp at h
        · simp at h
  · rintro ⟨m, hm, rfl⟩
    rcases hm with hm | hm | ⟨head, n, rfl, hhead, hn⟩
    · simp only [strcaseeq, f1, beq_iff_eq] at hm
      obtain ⟨a, b, c, rfl, ha, hb, hc⟩ := map_tolower_three m _ _ _ hm
      exact isre_three a b c e ⟨Or.inl ⟨ha, hb⟩, hc⟩
    · simp only [strcaseeq, f2, beq_iff_eq] at hm
      obtain ⟨a, b, c, rfl, ha, hb, hc⟩ := map_tolower_three m _ _ _ hm
      exact isre_three a b c e ⟨Or.inr ⟨ha, hb⟩, hc⟩
    · simp only [strcaseeq, f3, beq_iff_eq] at hhead
      obtain ⟨a, b, c, rfl, ha, hb, hc⟩ := map_tolower_three head _ _ _ hhead
      have e4 : cstr "]:" = [93, 58] := by decide
      have e4b : List.take 2 (cstr "]:") = [93, 58] := by decide
      have hst := strtol_end_text n (58 :: e) hn
      unfold isre strncaseeq strneq
      rw [e1, e2, e3, e4b, e4]
      simp [ha, hb, hc, hst]

/-- C27 (amended): `isre` returns TRUE with the end pointer `e` exactly when the input is
a marker followed by `e`, the marker being "Re:" or "Fw:" in any letter case, or "Re[" in
any letter case, then a text that `strtol` passes over (nothing, or white space, an
optional sign and decimal digits), then "]:"; in every other case it returns FALSE and
assigns no end pointer. -/
theorem isre_iff (re e : CStr) :
    isre re = some e ↔ ∃ m, AcceptedMarker m ∧ re = m ++ e :=
  isre_marker re e

/-- C27 at "Re[]: x" and "Re[ -5]: x": `isre` returns TRUE although no decimal number stands
between the brackets, respectively although a blank and a sign precede it. -/
theorem isre_accepts_no_number :
    isre (cstr "Re[]: x") = some (cstr " x") ∧ isre (cstr "Re[ -5]: x") = some (cstr " x") := by
  decide

/-- The amended claim C27 at "Re[12]: x": the marker is "Re[12]:" and the end pointer is at
" x". -/
theorem isre_iff_witness :
    isre (cstr "Re[12]: x") = some (cstr " x") ∧
    ∃ m, AcceptedMarker m ∧ cstr "Re[12]: x" = m ++ cstr " x" :=
  ⟨by decide, (isre_iff (cstr "Re[12]: x") (cstr " x")).mp (by decide)⟩

theorem isre_space (c : Nat) (rest : CStr) (h : isspace c = true) : isre (c :: rest) = none := by
  cases hr : isre (c :: rest) with
  | none => rfl
  | some e =>
    exfalso
    have f1 : (cstr "Re:").map tolower = [114, 101, 58] := by decide
    have f2 : (cstr "Fw:").map tolower = [102, 119, 58] := by decide
    have f3 : (cstr "Re[").map tolower = [114, 101, 91] := by decide
    obtain ⟨m, hm, hme⟩ := (isre_marker _ _).mp hr
    have key : ∀ (head tail : CStr) (k : Nat), 97 ≤ k → (∃ y z, head.map tolower = [k, y, z]) →
        c :: rest = head ++ tail → False := by
      intro head tail k hk ⟨y, z, hh⟩ heq
      obtain ⟨a, b, d, rfl, ha, _, _⟩ := map_tolower_three head _ _ _ hh
      simp only [List.cons_append, List.cons.injEq] at heq
      have := isspace_false_of_letter a k ha hk
      rw [← heq.1, h] at this
      exact absurd this (by simp)
    rcases hm with hm | hm | ⟨head, n, rfl, hhead, _⟩
    · simp only [strcaseeq, f1, beq_iff_eq] at hm
      exact key m e 114 (by decide) ⟨_, _, hm⟩ hme
    · simp only [strcaseeq, f2, beq_iff_eq] at hm
      exact key m e 102 (by decide) ⟨_, _, hm⟩ hme
    · simp only [strcaseeq, f3, beq_iff_eq] at hhead
      exact key head (n ++ cstr "]:" ++ e) 114 (by decide) ⟨_, _, hhead⟩
        (by rw [hme]; simp)

/-- C28 at "x Re: y": a reply marker stands at the third byte, and `findre` returns NULL because
the first byte is neither the start of a marker nor white space. -/
theorem findre_misses_later_marker :
    isre (cstr "Re: y") = some (cstr " y") ∧ findre (cstr "x Re: y") = none := by
  decide

/-- C28 (amended): `findre` looks for a reply marker at the first byte that is not white
space, and nowhere else: when `isre` accepts the text there, the result is that position
with the end pointer after the marker, and otherwise the result is NULL. -/
theorem findre_leading (s : CStr) :
    findre s = (isre (s.dropWhile isspace)).map (fun e => (s.dropWhile isspace, e)) := by
  induction s with
  | nil => simp [findre, isre, strncaseeq, cstr]
  | cons c rest ih =>
    by_cases hc : isspace c = true
    · rw [findre, isre_space c rest hc]
      simp only [hc, if_true, List.dropWhile_cons]
      exact ih
    · simp only [findre, List.dropWhile_cons, hc, Bool.false_eq_true, if_false]
      cases isre (c :: rest) <;> rfl

/-- The amended claim C28 at "  Re: y": the position is that of "Re: y" and the end
pointer is at " y". -/
theorem findre_leading_witness :
    findre (cstr "  Re: y") = some (cstr "Re: y", cstr " y") :=
  (findre_leading (cstr "  Re: y")).trans (by decide)

/-! ## Text without encoded word and the saved charset -/

theorem strstr_cons_none (c : Nat) (rest needle : CStr) (h : strstr (c :: rest) needle = none) :
    strneq (c :: rest) needle needle.length = false ∧ strstr rest needle = none := by
  unfold strstr at h
  split at h
  · simp at h
  · rename_i hne
    exact ⟨by simpa using hne, h⟩

theorem plain_run (conv : Option (CStr → CStr → CStr)) (b64 : CStr → List Nat)
    (pe : Option CStr) :
    ∀ (s : CStr), strstr s (cstr "=?") = none →
      ∀ (fuel : Nat) (out : List Nat) (did : Bool) (v : Option Nat) (csave : CStr),
        mdecodeRFC2047_loop conv b64 pe (fuel + s.length + 1)
            { iptr := s, output := out, didanything := did, value := v,
              charsetsave := csave } =
          .done { iptr := [], output := out ++ s, didanything := did, value := v,
                  charsetsave := csave } := by
  intro s
  induction s with
  | nil =>
    intro _ fuel out did v csave
    rw [loop_end _ _ _ _ _ rfl]
    simp
  | cons c rest ih =>
    intro h fuel out did v csave
    obtain ⟨hs, hrest⟩ := strstr_cons_none c rest _ h
    have hs2 : strneq (c :: rest) (cstr "=?") 2 = false := hs
    have := ih hrest fuel (out ++ [c]) did v csave
    rw [mdecodeRFC2047_loop] at this ⊢
    rw [List.length_cons, ← Nat.add_assoc,
      runLoop_next (mdecodeRFC2047_body conv b64 pe) _ _ _
        (by simp only [mdecodeRFC2047_body, hs2, Bool.false_eq_true, if_false]; rfl), this]
    simp only [List.append_assoc, List.singleton_append]

/-- C29: for a string without any "=?" `mdecodeRFC2047` returns, and what it returns is the
string it was given; `charsetsave` is left as it was. -/
theorem mdecodeRFC2047_plain (conv : Option (CStr → CStr → CStr)) (b64 : CStr → List Nat)
    (pushEmpty : Option CStr) (string charsetsave : CStr)
    (h : strstr string (cstr "=?") = none) :
    mdecodeRFC2047 conv b64 pushEmpty string charsetsave = .done (string, charsetsave) := by
  have := plain_run conv b64 pushEmpty string h 0 [] false none charsetsave
  rw [Nat.zero_add] at this
  rw [mdecodeRFC2047, this]
  simp

/-- The claim C29 at "Re: lunch = fun?": the text has '=' and '?', but no "=?". -/
theorem mdecodeRFC2047_plain_witness :
    strstr (cstr "Re: lunch = fun?") (cstr "=?") = none ∧
    mdecodeRFC2047 none (fun s => s) none (cstr "Re: lunch = fun?") (cstr "utf-8") =
      .done (cstr "Re: lunch = fun?", cstr "utf-8") :=
  ⟨by decide, mdecodeRFC2047_plain none (fun s => s) none (cstr "Re: lunch = fun?")
    (cstr "utf-8") (by decide)⟩

theorem decodePayload_charsetsave (conv : Option (CStr → CStr → CStr)) (b64 : CStr → List Nat)
    (charset encoding blurb : CStr) (v : Option Nat) (cs : CStr)
    (r : List Nat × Option Nat × CStr)
    (h : decodePayload conv b64 charset encoding blurb v cs = some r) :
    r.2.2 = if strcaseeq (cstr "q") encoding || strcaseeq (cstr "b") encoding
      then savedAfter conv (some charset) cs else cs := by
  unfold decodePayload at h
  by_cases hq : strcaseeq (cstr "q") encoding = true
  · simp only [hq, if_true] at h
    cases hd : qdecode v blurb with
    | none => simp [hd] at h
    | some p =>
      cases conv <;> simp only [hd, Option.some.injEq] at h <;> subst h <;>
        simp [hq, savedAfter]
  · by_cases hb : strcaseeq (cstr "b") encoding = true
    · simp only [hq, hb, if_true, Bool.false_eq_true, if_false] at h
      cases conv <;> simp only [Option.some.injEq] at h <;> subst h <;>
        simp [hb, savedAfter]
    · simp only [hq, hb, Bool.false_eq_true, if_false, Option.some.injEq] at h
      subst h
      simp [hq, hb]

theorem savedAfter_cons (conv : Option (CStr → CStr → CStr)) (charset : CStr)
    (tail : List CStr) (old : CStr) :
    savedAfter conv (charset :: tail).getLast? old =
      savedAfter conv tail.getLast? (savedAfter conv (some charset) old) := by
  cases conv with
  | none => simp [savedAfter]
  | some f =>
    cases ht : tail.getLast? with
    | none =>
      have : tail = [] := by simpa using ht
      subst this
      simp [savedAfter]
    | some c =>
      have : (charset :: tail).getLast? = some c := by
        rw [List.getLast?_cons, ht]; rfl
      rw [this]
      simp [savedAfter]

theorem charsetsave_trace (conv : Option (CStr → CStr → CStr)) (b64 : CStr → List Nat)
    (pe : Option CStr) :
    ∀ (fuel : Nat) (st fin : RFC2047State),
      mdecodeRFC2047_loop conv b64 pe fuel st = .done fin →
      fin.charsetsave =
        savedAfter conv (decodedCharsets pe fuel st.iptr).getLast? st.charsetsave := by
  intro fuel
  induction fuel with
  | zero => intro st fin h; simp [mdecodeRFC2047_loop, runLoop] at h
  | succ f ih =>
    intro st fin h
    obtain ⟨iptr, out, did, v, cs⟩ := st
    rw [mdecodeRFC2047_loop, runLoop] at h
    cases iptr with
    | nil =>
      simp only [mdecodeRFC2047_body, Outcome.done.injEq] at h
      subst h
      simp [decodedCharsets, savedAfter]
    | cons c rest =>
      simp only [mdecodeRFC2047_body] at h
      simp only [decodedCharsets]
      cases hw : (if strneq (c :: rest) (cstr "=?") 2 = true
          then sscanf_word (List.drop 2 (c :: rest)) else none) with
      | none =>
        rw [hw] at h
        exact ih _ fin h
      | some w =>
        obtain ⟨charset, encoding⟩ := w
        rw [hw] at h
        simp only at h ⊢
        cases hx : extract_rfc2047_content pe (c :: rest) with
        | none =>
          rw [hx] at h
          exact ih _ fin h
        | some blurb =>
          rw [hx] at h
          simp only at h ⊢
          cases hp : decodePayload conv b64 charset encoding blurb v cs with
          | none => rw [hp] at h; simp at h
          | some r =>
            obtain ⟨bytes, v2, cs2⟩ := r
            rw [hp] at h
            have hcs := decodePayload_charsetsave conv b64 charset encoding blurb v cs _ hp
            have := ih _ fin h
            simp only at this hcs
            rw [this]
            by_cases hqb : (strcaseeq (cstr "q") encoding || strcaseeq (cstr "b") encoding) = true
            · simp only [hqb, if_true] at hcs ⊢
              rw [hcs, savedAfter_cons]
            · simp only [hqb, Bool.false_eq_true, if_false] at hcs ⊢
              rw [hcs]

/-- C30 in a build without HAVE_ICONV: the encoded word "=?utf-8?q?a?=" is decoded to "a" and
`charsetsave` keeps its previous content "old"; the label "utf-8" is not saved. -/
theorem charsetsave_kept_without_iconv :
    mdecodeRFC2047 none (fun s => s) none (cstr "=?utf-8?q?a?=") (cstr "old") =
      .done (cstr "a", cstr "old") ∧
    cstr "old" ≠ cstr "utf-8" := by
  decide

/-- C30 (amended): when `mdecodeRFC2047` returns, `charsetsave` holds, in a build with
HAVE_ICONV, the first 255 bytes of the charset label of the last encoded word decoded, and
its previous content when no encoded word was decoded; in a build without HAVE_ICONV it
holds its previous content in every case. -/
theorem charsetsave_after_decoding (conv : Option (CStr → CStr → CStr))
    (b64 : CStr → List Nat) (pushEmpty : Option CStr) (string charsetsave out saved : CStr)
    (h : mdecodeRFC2047 conv b64 pushEmpty string charsetsave = .done (out, saved)) :
    (∀ charset, conv.isSome = true → lastDecodedCharset pushEmpty string = some charset →
      saved = charset.take 255) ∧
    (lastDecodedCharset pushEmpty string = none → saved = charsetsave) ∧
    (conv = none → saved = charsetsave) := by
  unfold mdecodeRFC2047 at h
  cases hl : mdecodeRFC2047_loop conv b64 pushEmpty (string.length + 1)
      { iptr := string, output := [], didanything := false, value := none,
        charsetsave := charsetsave } with
  | undefined => rw [hl] at h; simp at h
  | outOfFuel => rw [hl] at h; simp at h
  | done fin =>
    rw [hl] at h
    simp only [Outcome.done.injEq, Prod.mk.injEq] at h
    have ht := charsetsave_trace conv b64 pushEmpty _ _ fin hl
    simp only at ht
    rw [h.2] at ht
    refine ⟨fun charset hc hlast => ?_, fun hlast => ?_, fun hc => ?_⟩
    · rw [lastDecodedCharset] at hlast
      rw [ht, hlast]
      obtain ⟨f, rfl⟩ := Option.isSome_iff_exists.mp hc
      rfl
    · rw [lastDecodedCharset] at hlast
      rw [ht, hlast]
      cases conv <;> rfl
    · rw [ht, hc]
      rfl

/-- The amended claim C30 at "=?a?q?X?= =?b?q?Y?=" in a build with HAVE_ICONV (the conversion
being the identity): the saved charset is "b", the label of the second word. -/
theorem charsetsave_after_decoding_witness :
    mdecodeRFC2047 (some (fun _ s => s)) (fun s => s) none (cstr "=?a?q?X?= =?b?q?Y?=")
        (cstr "old") = .done (cstr "XY", cstr "b") ∧
    lastDecodedCharset none (cstr "=?a?q?X?= =?b?q?Y?=") = some (cstr "b") ∧
    cstr "b" = (cstr "b").take 255 :=
  ⟨by decide, by decide,
   (charsetsave_after_decoding (some (fun _ s => s)) (fun s => s) none
      (cstr "=?a?q?X?= =?b?q?Y?=") (cstr "old") (cstr "XY") (cstr "b") (by decide)).1
      (cstr "b") rfl (by decide)⟩

/-! ## Header continuations -/

theorem strncaseeq_space_false (w : Nat) (l lit : CStr) (n k : Nat) (hw : isspace w = true)
    (hlit : ((lit.take (n + 1)).map tolower).head? = some k) (hk : 97 ≤ k) :
    strncaseeq (w :: l) lit (n + 1) = false := by
  unfold strncaseeq
  cases h : (List.map tolower (List.take (n + 1) (w :: l)) ==
      List.map tolower (List.take (n + 1) lit)) with
  | false => rfl
  | true =>
    exfalso
    have h2 := beq_iff_eq.mp h
    rw [← h2] at hlit
    simp only [List.take_succ_cons, List.map_cons, List.head?_cons, Option.some.injEq] at hlit
    have := isspace_false_of_letter w k hlit hk
    rw [hw] at this
    exact absurd this (by simp)

theorem strncaseeq_second_space_false (b w : Nat) (l lit : CStr) (n k : Nat)
    (hw : isspace w = true)
    (hlit : (((lit.take (n + 2)).map tolower).drop 1).head? = some k) (hk : 97 ≤ k) :
    strncaseeq (b :: w :: l) lit (n + 2) = false := by
  unfold strncaseeq
  cases h : (List.map tolower (List.take (n + 2) (b :: w :: l)) ==
      List.map tolower (List.take (n + 2) lit)) with
  | false => rfl
  | true =>
    exfalso
    have h2 := beq_iff_eq.mp h
    rw [← h2] at hlit
    simp only [List.take_succ_cons, List.map_cons, List.drop_succ_cons, List.drop_zero,
      List.head?_cons, Option.some.injEq] at hlit
    have := isspace_false_of_letter w k hlit hk
    rw [hw] at this
    exact absurd this (by simp)

/-- C26: a line read in header mode that starts with white space (no LF in it) followed by a
byte that is not white space is stored as a continuation of the previous header, and the
text stored is one space followed by the line from that byte on. -/
theorem continuation_stored (days : List CStr) (DATESTRLEN : Int) (set_ietf_mbox : Nat)
    (line_buf ws rest : CStr) (x : Nat) (hflag : set_ietf_mbox ≤ 1)
    (hline : line_buf.drop set_ietf_mbox = ws ++ x :: rest) (hne : ws ≠ [])
    (hws : ∀ c ∈ ws, isspace c = true ∧ c ≠ 10) (hx : isspace x = false) :
    headerModeLine days DATESTRLEN set_ietf_mbox line_buf = .continuation (32 :: x :: rest) := by
  obtain ⟨w, ws2, rfl⟩ := List.exists_cons_of_ne_nil hne
  have hw := hws w (by simp)
  have hdw : List.dropWhile isspace (w :: ws2 ++ x :: rest) = x :: rest := by
    rw [List.dropWhile_append_of_pos (fun c hc => (hws c hc).1)]
    simp [List.dropWhile_cons, hx]
  have hfrom : strncaseeq line_buf (cstr "From ") 5 = false := by
    have hk : set_ietf_mbox = 0 ∨ set_ietf_mbox = 1 := by omega
    rcases hk with hk | hk
    · rw [hk, List.drop_zero] at hline
      rw [hline]
      exact strncaseeq_space_false w _ _ 4 102 hw.1 (by decide) (by decide)
    · rw [hk] at hline
      match line_buf, hline with
      | b :: tl, hline =>
        simp only [List.drop_succ_cons, List.drop_zero] at hline
        rw [hline]
        exact strncaseeq_second_space_false b w _ _ 3 114 hw.1 (by decide) (by decide)
  have hmime : strncaseeq (w :: ws2 ++ x :: rest) (cstr "MIME-Version:") 13 = false :=
    strncaseeq_space_false w _ _ 12 109 hw.1 (by decide) (by decide)
  have hct : strncaseeq (w :: ws2 ++ x :: rest) (cstr "Content-Type:") 13 = false :=
    strncaseeq_space_false w _ _ 12 99 hw.1 (by decide) (by decide)
  have hsecond : (List.drop 1 (w :: ws2 ++ x :: rest)).head? ≠ some 10 := by
    cases ws2 with
    | nil =>
      simp only [List.cons_append, List.nil_append, List.drop_succ_cons, List.drop_zero,
        List.head?_cons, ne_eq, Option.some.injEq]
      intro e
      rw [e] at hx
      exact absurd hx (by decide)
    | cons w2 ws3 =>
      simp only [List.cons_append, List.drop_succ_cons, List.drop_zero, List.head?_cons, ne_eq,
        Option.some.injEq]
      exact (hws w2 (by simp)).2
  unfold headerModeLine
  simp only [hline, hfrom, hmime, hct, Bool.false_eq_true, if_false, hdw]
  have hcond : (Option.map isspace (w :: ws2 ++ x :: rest).head? = some true) ∧
      (w :: ws2 ++ x :: rest).head? ≠ some 10 ∧
      ¬ ((w :: ws2 ++ x :: rest).head? = some 13 ∧
        (List.drop 1 (w :: ws2 ++ x :: rest)).head? = some 10) := by
    refine ⟨by simp [hw.1], by simpa using hw.2, fun h => hsecond h.2⟩
  rw [if_pos hcond]

/-- The claim C26 at the line of a blank, a tab and "continued": the text stored is
" continued" with its line end. -/
theorem continuation_stored_witness :
    headerModeLine sampleDays 80 0 (cstr " \tcontinued\n") =
      .continuation (cstr " continued\n") :=
  continuation_stored sampleDays 80 0 (cstr " \tcontinued\n") (cstr " \t") (cstr "ontinued\n") 99
    (by decide) (by decide) (by decide) (by decide) (by decide)

/-! ## Message separators and the MIME epilogue -/

theorem strstr_some_prefix (needle : CStr) :
    ∀ (hay c : CStr), strstr hay needle = some c → c.take needle.length = needle := by
  intro hay
  induction hay with
  | nil =>
    intro c h
    unfold strstr at h
    split at h
    · rename_i hn
      simp only [Option.some.injEq] at h
      subst h; subst hn; rfl
    · simp at h
  | cons x xs ih =>
    intro c h
    unfold strstr at h
    split at h
    · rename_i hp
      simp only [Option.some.injEq] at h
      subst h
      simpa [strneq] using hp
    · exact ih c h

theorem strneq_From (line_buf : CStr) :
    strneq line_buf (cstr "From ") 5 = true ↔ ∃ rest, line_buf = cstr "From " ++ rest := by
  have e : List.take 5 (cstr "From ") = cstr "From " := by decide
  have el : (cstr "From ").length = 5 := by decide
  unfold strneq
  rw [e]
  constructor
  · intro h
    have h2 := beq_iff_eq.mp h
    exact ⟨line_buf.drop 5, by rw [← h2, List.take_append_drop]⟩
  · rintro ⟨rest, rfl⟩
    rw [← el, List.take_left]
    simp

theorem getfromdate_ne_nil (days : List CStr) (DATESTRLEN : Int) (line : CStr)
    (hlen : 2 ≤ DATESTRLEN) (hdays : ∀ d ∈ days, d ≠ [] ∧ d.head? ≠ some 10 ∧ d.head? ≠ some 13) :
    getfromdate days DATESTRLEN line ≠ [] ↔ ∃ d ∈ days, (strstr line d).isSome = true := by
  unfold getfromdate
  cases hf : days.findSome? (fun day => strstr line day) with
  | none =>
    rw [List.findSome?_eq_none_iff] at hf
    simp only [ne_eq, not_true_eq_false, false_iff, not_exists, not_and]
    intro d hd
    rw [hf d hd]
    simp
  | some c =>
    obtain ⟨d, hd, hc⟩ := List.exists_of_findSome?_eq_some hf
    obtain ⟨hdne, h10, h13⟩ := hdays d hd
    obtain ⟨c0, r, rfl⟩ := List.exists_cons_of_ne_nil hdne
    simp only [List.head?_cons, ne_eq, Option.some.injEq] at h10 h13
    have hp := strstr_some_prefix (c0 :: r) line c hc
    have hcc : ∃ tl, c = c0 :: tl := by
      cases c with
      | nil => simp at hp
      | cons y ys =>
        simp only [List.length_cons, List.take_succ_cons, List.cons.injEq] at hp
        exact ⟨ys, by rw [hp.1]⟩
    obtain ⟨tl, rfl⟩ := hcc
    have hn : (DATESTRLEN - 1).toNat = ((DATESTRLEN - 1).toNat - 1) + 1 := by omega
    constructor
    · intro _
      exact ⟨c0 :: r, hd, by rw [hc]; rfl⟩
    · intro _
      have hb : (c0 != 10 && c0 != 13) = true := by simp [h10, h13]
      simp only []
      rw [List.takeWhile_cons, if_pos hb, hn, List.take_succ_cons]
      simp

/-- C22 at the line "From here on": in mailbox mode the line begins with "From " and is not a
message separator, because no day name occurs in it. -/
theorem from_line_without_date :
    strneq (cstr "From here on\n") (cstr "From ") 5 = true ∧
    isMessageSeparator false sampleDays 80 0 (cstr "From here on\n") = false := by
  decide

/-- C22 (amended): a line read in a message body is a message separator exactly when
`readone` is off (mailbox mode), the line begins with "From " in this letter case, and one
of the day names of the array `days` occurs in it, so that `getfromdate` finds a date; in
single-message mode no line is a separator. -/
theorem separator_iff (readone : Bool) (days : List CStr) (DATESTRLEN : Int)
    (set_ietf_mbox : Nat) (line_buf : CStr) (hlen : 2 ≤ DATESTRLEN)
    (hdays : ∀ d ∈ days, d ≠ [] ∧ d.head? ≠ some 10 ∧ d.head? ≠ some 13) :
    isMessageSeparator readone days DATESTRLEN set_ietf_mbox line_buf = true ↔
      readone = false ∧ (∃ rest, line_buf = cstr "From " ++ rest) ∧
        ∃ d ∈ days, (strstr (line_buf.drop set_ietf_mbox) d).isSome = true := by
  unfold isMessageSeparator
  rw [Bool.and_eq_true, Bool.and_eq_true, strneq_From, decide_eq_true_eq,
    getfromdate_ne_nil days DATESTRLEN _ hlen hdays]
  cases readone <;> simp

/-- The amended claim C22 at a separator line of a mailbox, in mailbox mode and in
single-message mode. -/
theorem separator_iff_witness :
    isMessageSeparator false sampleDays 80 0 (cstr "From a@b Mon Jan  1 00:00:00 2001\n") = true ∧
    isMessageSeparator true sampleDays 80 0 (cstr "From a@b Mon Jan  1 00:00:00 2001\n") = false ∧
    (isMessageSeparator false sampleDays 80 0 (cstr "From a@b Mon Jan  1 00:00:00 2001\n") = true ↔
      false = false ∧
      (∃ rest, cstr "From a@b Mon Jan  1 00:00:00 2001\n" = cstr "From " ++ rest) ∧
        ∃ d ∈ sampleDays,
          (strstr ((cstr "From a@b Mon Jan  1 00:00:00 2001\n").drop 0) d).isSome = true) :=
  ⟨by decide, by decide,
   separator_iff false sampleDays 80 0 (cstr "From a@b Mon Jan  1 00:00:00 2001\n")
     (by decide) (by decide)⟩

/-- C21 at the epilogue line "from the team": while `skip_mime_epilogue` is set the line is not
passed over and the flag is cleared, although the line carries no boundary and is not a
message separator in either mode; the line "the team" is passed over. -/
theorem epilogue_ended_by_from_text :
    epilogueStep (fun _ => false) 0 true (cstr "from the team\n") = (false, false) ∧
    isMessageSeparator false sampleDays 80 0 (cstr "from the team\n") = false ∧
    isMessageSeparator true sampleDays 80 0 (cstr "from the team\n") = false ∧
    epilogueStep (fun _ => false) 0 true (cstr "the team\n") = (true, true) := by
  decide

/-! ## An unknown Content-Transfer-Encoding -/

/-- The part of C25 that the code meets: when `decode` is `ENCODE_NORMAL` at that point, a
Content-Transfer-Encoding value that starts with none of the names the code compares and
has a byte that is not white space leaves `decode` and the decoder state as they are,
every body line is its own decoded data, and one line " ('code' message)" naming the
first 63 bytes of the value's first word is added to the body. -/
theorem unknown_transfer_encoding (msg : CStr) (MAXLINE set_ietf_mbox : Nat) (value : CStr)
    (st : DecoderState) (b64 uu : CStr → List Nat)
    (hnormal : st.decode = .ENCODE_NORMAL)
    (hunknown : recognisedEncoding (value.dropWhile isspace) = false)
    (hword : value.dropWhile isspace ≠ [])
    (hfit : 63 + msg.length + 7 < MAXLINE - set_ietf_mbox) :
    contentTransferEncoding value st = st ∧
    (∀ file line, decodeSwitch set_ietf_mbox b64 uu (contentTransferEncoding value st).decode
      file line = .done (some line, file)) ∧
    transferEncodingWarning msg MAXLINE set_ietf_mbox value =
      some ([32, 40, 39] ++
        ((value.dropWhile isspace).takeWhile (fun ch => !isspace ch)).take 63 ++
        [39, 32] ++ msg ++ [41, 10]) := by
  simp only [recognisedEncoding, Bool.or_eq_false_iff] at hunknown
  obtain ⟨⟨⟨⟨h1, h2⟩, h3⟩, h4⟩, h5⟩ := hunknown
  have hst : contentTransferEncoding value st = st := by
    simp [contentTransferEncoding, h1, h2, h3, h4, h5]
  refine ⟨hst, fun file line => ?_, ?_⟩
  · rw [hst, hnormal]
    rfl
  · obtain ⟨c, rest, hc⟩ := List.exists_cons_of_ne_nil hword
    have hsp : isspace c = false := by
      have := List.head_dropWhile_not isspace value hword
      simp only [hc, List.head_cons] at this
      simpa using this
    have hscan : sscanf_63s (c :: rest) =
        some (((c :: rest).takeWhile (fun ch => !isspace ch)).take 63) := by
      simp [sscanf_63s, List.dropWhile_cons, hsp]
    rw [hc] at h1 h2 h3 h4 h5
    simp only [transferEncodingWarning, hc, h1, h2, h3, h4, h5, Bool.false_eq_true, if_false,
      hscan]
    congr 1
    apply List.take_of_length_le
    simp only [List.length_append, List.length_cons, List.length_nil, List.length_take]
    omega

/-- The value " binary" met while `decode` is `ENCODE_NORMAL`: the warning names 'binary'
and a body line "abc" is its own decoded data. -/
theorem unknown_transfer_encoding_witness :
    contentTransferEncoding (cstr " binary\n") initialDecoder = initialDecoder ∧
    decodeSwitch 0 (fun s => s) (fun s => s)
      (contentTransferEncoding (cstr " binary\n") initialDecoder).decode [] (cstr "abc\n") =
        .done (some (cstr "abc\n"), []) ∧
    transferEncodingWarning (cstr "encoding is not supported") 8192 0 (cstr " binary\n") =
      some (cstr " (" ++ [39] ++ cstr "binary" ++ [39] ++
        cstr " encoding is not supported)\n") :=
  ⟨(unknown_transfer_encoding (cstr "encoding is not supported") 8192 0 (cstr " binary\n")
      initialDecoder (fun s => s) (fun s => s) rfl (by decide) (by decide) (by decide)).1,
   (unknown_transfer_encoding (cstr "encoding is not supported") 8192 0 (cstr " binary\n")
      initialDecoder (fun s => s) (fun s => s) rfl (by decide) (by decide) (by decide)).2.1
      [] (cstr "abc\n"),
   by decide⟩

/-- C25 for a part with the header value " x-foo" inside a multipart whose own header
block declares base64, and for a header block with the values " base64" and " x-foo" in
this order: the value " x-foo" is none of the names compared and the line
" ('x-foo' message)" is added, but `decode` is still `ENCODE_BASE64` when the body is
read, so a body line is given to the base64 decoder and is not its own decoded data.
When `decode` is `ENCODE_NORMAL` before, the body line is passed as it is. -/
theorem unknown_encoding_keeps_base64 :
    recognisedEncoding (cstr "x-foo\n") = false ∧
    transferEncodingWarning (cstr "encoding is not supported") 8192 0 (cstr " x-foo\n") =
      some (cstr " (" ++ [39] ++ cstr "x-foo" ++ [39] ++ cstr " encoding is not supported)\n") ∧
    ([PartEvent.transferEncoding (cstr " base64\n"), .startBoundary,
        .transferEncoding (cstr " x-foo\n")].foldl decoderStep initialDecoder).decode =
      .ENCODE_BASE64 ∧
    ([PartEvent.boundary, .transferEncoding (cstr " base64\n"),
        .transferEncoding (cstr " x-foo\n")].foldl decoderStep initialDecoder).decode =
      .ENCODE_BASE64 ∧
    decodeSwitch 0 (fun _ => cstr "decoded") (fun s => s) .ENCODE_BASE64 [] (cstr "abc\n") =
      .done (some (cstr "decoded"), []) ∧
    ([PartEvent.boundary, .transferEncoding (cstr " x-foo\n")].foldl decoderStep
        initialDecoder).decode = .ENCODE_NORMAL ∧
    decodeSwitch 0 (fun _ => cstr "decoded") (fun s => s) .ENCODE_NORMAL [] (cstr "abc\n") =
      .done (some (cstr "abc\n"), []) := by
  decide

/-! ## The alternative selection across a nested multipart -/

/-- C23: when a multipart is entered while alternatives are being parsed (so inside a frame
of the boundary stack) and its frame is later popped at its end boundary, with the frames
below it untouched and a multipart/alternative still on the multipart stack, the
alternative variables are those of the moment before the push, whatever the variables
and the popped frame hold at the pop. -/
theorem alternative_state_restored (fresh : AlternativeVars) (boundbuffer : CStr)
    (v later : MultipartVars) (top nested : BoundaryFrame) (rest : List BoundaryFrame)
    (h : v.alt.alternativeparser = true) :
    (popEndBoundary true later
      (nested :: (pushMultipart fresh boundbuffer v (top :: rest)).2.tail)).1.alt = v.alt ∧
    (pushMultipart fresh boundbuffer v (top :: rest)).1.alt.alternativeparser = false := by
  simp [pushMultipart, popEndBoundary, h]

/-- The claim C23 with the alternative variables of weight 0 and last type "text/plain",
inside the boundary "A": after the push for the boundary "N" the parser is no longer in
alternative mode, and the pop restores the variables, here from variables that were
changed in between. -/
theorem alternative_state_restored_witness :
    (popEndBoundary true
      { sampleMultipartVars with alt := { sampleMultipartVars.alt with
          alternative_weight := 1001, last_alternative_type := cstr "text/html",
          current_alt_message_node := some 7 } }
      (sampleFrame (cstr "N") ::
        (pushMultipart noAlternativeVars (cstr "N") sampleMultipartVars
          [sampleFrame (cstr "A")]).2.tail)).1.alt = sampleMultipartVars.alt ∧
    (pushMultipart noAlternativeVars (cstr "N") sampleMultipartVars
      [sampleFrame (cstr "A")]).1.alt.alternativeparser = false :=
  alternative_state_restored noAlternativeVars (cstr "N") sampleMultipartVars
    { sampleMultipartVars with alt := { sampleMultipartVars.alt with
        alternative_weight := 1001, last_alternative_type := cstr "text/html",
        current_alt_message_node := some 7 } }
    (sampleFrame (cstr "A")) (sampleFrame (cstr "N")) [] rfl

/-! ## The search for the first boundary of a multipart -/

/-- C24 for a multipart whose body is the two lines "a", "b" and then the end of the
stream: the search saves both lines and leaves "b" in `line_buf`; the code then handles
the content of `line_buf` as a body line, where "b" is neither a separator nor a boundary
line and is its own decoded data, so that "b" reaches the body a second time. -/
theorem last_line_handled_twice :
    startBoundaryMissing [cstr "\n"]
      (startBoundaryLoop (fun _ => false) (fun _ => none) 0 (some (cstr "X"))
        [cstr "a\n", cstr "b\n"] (cstr "\n") []) =
      { bp := [cstr "\n", cstr "a\n", cstr "b\n"], type := cstr "text/plain", isinheader := 0,
        boundary_id := none, lineAtLeaveHeader := cstr "b\n", file := [] } ∧
    isMessageSeparator false sampleDays 80 0 (cstr "b\n") = false ∧
    strneq (cstr "b\n") (cstr "--") 2 = false ∧
    decodeSwitch 0 (fun s => s) (fun s => s) .ENCODE_NORMAL [] (cstr "b\n") =
      .done (some (cstr "b\n"), []) := by
  decide

/-! ## Annotations -/

/-- C31 at the header values "d" and "no": the one-letter token "d" sets the annotation
"deleted" and the token "no" sets the robot annotation "noindex"; `getannotation` returns TRUE
for both, although neither token is one of the five annotation words. -/
theorem getannotation_accepts_word_start :
    getannotation (cstr "X-Annotation: d\n") =
      .done (true, .ANNOTATION_CONTENT_DELETED_OTHER, false, false) ∧
    getannotation (cstr "X-Annotation: no\n") =
      .done (true, .ANNOTATION_CONTENT_NONE, true, false) ∧
    getannotation (cstr "X-Annotation: deleted\n") =
      .done (true, .ANNOTATION_CONTENT_DELETED_OTHER, false, false) := by
  decide

/-- C37 at the line "X-Annotation: edited" with a blank before its line end, and at the same
line ended by CR LF: the loop that passes white space passes the line end as well, and the
loop that passes a token then steps over the terminator of the string.  Without the
blank and with a bare LF the function returns. -/
theorem getannotation_reads_past_line_end :
    getannotation (cstr "X-Annotation: edited \n") = .undefined ∧
    getannotation (cstr "X-Annotation: edited\r\n") = .undefined ∧
    getannotation (cstr "X-Annotation: edited\n") =
      .done (true, .ANNOTATION_CONTENT_EDITED, false, false) := by
  decide

/-! ## Signature separators, dates, links, expiry, quoted-printable escapes -/

/-- C34 at the line "-- not a signature": `_is_signature_separator` returns TRUE although text
follows the dashes and the blank; it tests the third byte only. -/
theorem signature_separator_with_text :
    _is_signature_separator (cstr "-- not a signature\n") = true ∧
    _is_signature_separator (cstr "-- \n") = true ∧
    _is_signature_separator (cstr "--\n") = true ∧
    _is_signature_separator (cstr "--") = true ∧
    _is_signature_separator (cstr "--boundary\n") = false := by
  decide

theorem getmaildate_unbounded (NODATE : CStr) (d1 d2 : Int) (pushEmpty : Option CStr)
    (line : CStr) (h1 : 2 ≤ d1) (h2 : 2 ≤ d2) :
    getmaildate NODATE d1 pushEmpty line = getmaildate NODATE d2 pushEmpty line := by
  have e1 : (0 : Int) < d1 - 1 := by omega
  have e2 : (0 : Int) < d2 - 1 := by omega
  unfold getmaildate
  simp only [e1, e2, if_true]

/-- C36 with `DATESTRLEN` 8: the date returned for "Date: Mon, 1 Jan 2001 00:00:00" has 24
bytes, more than 7, whereas `getfromdate` with the same bound returns 7 bytes. -/
theorem getmaildate_exceeds_bound :
    getmaildate (cstr "(no date)") 8 none (cstr "Date: Mon, 1 Jan 2001 00:00:00\n") =
      .done (some (cstr "Mon, 1 Jan 2001 00:00:00")) ∧
    (cstr "Mon, 1 Jan 2001 00:00:00").length = 24 ∧
    getfromdate sampleDays 8 (cstr "From a@b Mon, 1 Jan 2001 00:00:00\n") = cstr "Mon, 1 " ∧
    getmaildate (cstr "(no date)") 8 none (cstr "Date:\n") = .done (some (cstr "(no date)")) := by
  decide

/-- C38 at the format "a%": after the lone '%' the pointer is moved past the terminator of the
format.  The directives themselves expand as documented. -/
theorem createlink_lone_percent :
    createlink none [] (some (cstr "a%")) (cstr "att") (some (cstr "f.txt")) 7
      (cstr "text/plain") = .undefined ∧
    createlink none [] (some (cstr "%d/%n-%f?%c%%%q")) (cstr "att") (some (cstr "f.txt")) 7
      (cstr "text/plain") = .done (some (cstr "att/0007-f.txt?text/plain%%q")) ∧
    createlink none [] none (cstr "att") (some (cstr "f.txt")) 7 (cstr "text/plain") =
      .done (some (cstr "att/f.txt")) := by
  decide

/-- C39 with the `delete_newer` threshold 200: a message of time 100, earlier than the
threshold, is marked `FILTERED_NEW` by `check_expiry` and left alone by `parsemail`; a
message of time 300, later than the threshold, is left alone by `check_expiry` and marked
`FILTERED_NEW` by `parsemail`. -/
theorem check_expiry_newer_reversed :
    check_expiry 1000 none (some 200) .NOT_DELETED (-1) 100 (-1) = .FILTERED_NEW ∧
    parsemailDateFilter none (some 200) .NOT_DELETED true 100 (-1) = .NOT_DELETED ∧
    check_expiry 1000 none (some 200) .NOT_DELETED (-1) 300 (-1) = .NOT_DELETED ∧
    parsemailDateFilter none (some 200) .NOT_DELETED true 300 (-1) = .FILTERED_NEW := by
  decide

/-- C40 at "a=4z": the escape "=4" has one hexadecimal digit, the code passes two bytes after
the '=', and the 'z' is not in the output; at "a=4", where the digit is the last byte, the
pointer is moved past the terminator. -/
theorem mdecodeQP_single_digit_escape :
    mdecodeQP 0 [] (cstr "a=4z\n") =
      .done { file := [], input := [], output := [97, 4, 10], outcount := 3, pbuf := [] } ∧
    mdecodeQP 0 [] (cstr "a=4") = .undefined := by
  decide

theorem isSafeChar_plain (c : Nat) (h : isSafeChar c = true) :
    c ≠ 47 ∧ c ≠ 92 ∧ isspace c = false ∧ 32 < c ∧ c < 127 := by
  have hc : c < 127 := by
    simp only [isSafeChar, Bool.or_eq_true, Bool.and_eq_true, decide_eq_true_eq, beq_iff_eq] at h
    omega
  have hl : 32 < c := by
    simp only [isSafeChar, Bool.or_eq_true, Bool.and_eq_true, decide_eq_true_eq, beq_iff_eq] at h
    omega
  refine ⟨?_, ?_, ?_, hl, hc⟩
  · rintro rfl; revert h; decide
  · rintro rfl; revert h; decide
  · interval_cases c <;> rfl

theorem safe_filename_stored (R : Nat) (u : Option CStr) (l : CStr) :
    ∀ c ∈ l.map (storedChar R u), StoredChar R u c := by
  intro c hc
  rw [List.mem_map] at hc
  obtain ⟨a, _, ha⟩ := hc
  unfold storedChar at ha
  by_cases hs : (isSafeChar a && !inUnsafeChars u a) = true
  · rw [if_pos hs] at ha
    subst ha
    left
    simp only [Bool.and_eq_true, Bool.not_eq_true'] at hs
    refine ⟨hs.1, ?_⟩
    intro v hv
    subst hv
    simpa [inUnsafeChars] using hs.2
  · rw [if_neg hs] at ha
    right
    exact ha.symm

theorem shtml_mem (stored : CStr) (h : stored.drop (stored.length - 6) = cstr ".shtml") :
    ∀ c ∈ stored.take (stored.length - 6) ++ cstr ".html", c ∈ stored := by
  intro c hc
  rw [List.mem_append] at hc
  rcases hc with hc | hc
  · exact List.mem_of_mem_take hc
  · apply List.mem_of_mem_drop (n := stored.length - 6)
    rw [h]
    revert hc
    simp [cstr]
    tauto

theorem safe_filename_some (R : Nat) (u : Option CStr) (name : CStr) (hne : name ≠ []) :
    ∃ result, safe_filename R u (some name) = some result ∧
      (∀ c ∈ result, StoredChar R u c) ∧
      result.length ≤ (name.takeWhile (fun c => c != 10 && c != 13)).length := by
  obtain ⟨c0, rest, rfl⟩ := List.exists_cons_of_ne_nil hne
  simp only [safe_filename]
  split
  · rename_i hs
    refine ⟨_, rfl, ?_, ?_⟩
    · intro c hc
      exact safe_filename_stored R u _ c (shtml_mem _ hs.2 c hc)
    · have := hs.1
      simp only [List.length_append, List.length_take, List.length_map] at this ⊢
      simp [cstr]
      omega
  · refine ⟨_, rfl, ?_, ?_⟩
    · exact safe_filename_stored R u _
    · simp

/-- Claim C35: `safe_filename` returns NULL for a NULL or empty name; for a
non-empty name it returns a string whose every character is a letter, a
digit, '-', '.', ':' or '_' outside the configured unsafe set, or is the
replacement character; the string is no longer than the part of the name
before its first CR or LF; and when the replacement character is itself
one of the safe characters, the result holds no path separator, no
whitespace and no control character. -/
theorem safe_filename_sanitises (REPLACEMENT_CHAR : Nat) (set_unsafe_chars : Option CStr) :
    safe_filename REPLACEMENT_CHAR set_unsafe_chars none = none ∧
    safe_filename REPLACEMENT_CHAR set_unsafe_chars (some []) = none ∧
    ∀ name : CStr, name ≠ [] →
      ∃ result, safe_filename REPLACEMENT_CHAR set_unsafe_chars (some name) = some result ∧
        (∀ c ∈ result, (isSafeChar c = true ∧ ∀ u, set_unsafe_chars = some u → c ∉ u) ∨
          c = REPLACEMENT_CHAR) ∧
        result.length ≤ (name.takeWhile (fun c => c != 10 && c != 13)).length ∧
        (isSafeChar REPLACEMENT_CHAR = true →
          ∀ c ∈ result, c ≠ 47 ∧ c ≠ 92 ∧ isspace c = false ∧ 32 < c ∧ c < 127) := by
  refine ⟨rfl, rfl, ?_⟩
  intro name hne
  obtain ⟨result, hr, hall, hlen⟩ := safe_filename_some REPLACEMENT_CHAR set_unsafe_chars name hne
  refine ⟨result, hr, hall, hlen, ?_⟩
  intro hR c hc
  rcases hall c hc with h | h
  · exact isSafeChar_plain c h.1
  · exact isSafeChar_plain c (h ▸ hR)

/-- The name " my file/x.shtml" followed by a second line, with '_' as the
replacement character. -/
theorem safe_filename_sanitises_witness :
    safe_filename 95 (some (cstr ";")) (some (cstr " my file/x.shtml\nrest")) =
      some (cstr "_my_file_x.html") ∧
    safe_filename 95 (some (cstr ";")) none = none ∧
    safe_filename 95 (some (cstr ";")) (some []) = none ∧
    ∀ name : CStr, name ≠ [] →
      ∃ result, safe_filename 95 (some (cstr ";")) (some name) = some result ∧
        (∀ c ∈ result, (isSafeChar c = true ∧ ∀ u, some (cstr ";") = some u → c ∉ u) ∨
          c = 95) ∧
        result.length ≤ (name.takeWhile (fun c => c != 10 && c != 13)).length ∧
        (isSafeChar 95 = true →
          ∀ c ∈ result, c ≠ 47 ∧ c ≠ 92 ∧ isspace c = false ∧ 32 < c ∧ c < 127) :=
  ⟨by decide, safe_filename_sanitises 95 (some (cstr ";"))⟩

/-! ## `rfc3676_handler` -/

theorem takeWhile_append_stop (p : Nat → Bool) (t : Nat) (ts : CStr) (ht : p t = false) :
    ∀ body : CStr, (body ++ t :: ts).takeWhile p = body.takeWhile p := by
  intro body
  induction body with
  | nil => simp [List.takeWhile_cons, ht]
  | cons x xs ih =>
    simp only [List.cons_append, List.takeWhile_cons]
    split
    · rw [ih]
    · rfl

theorem get_quotelevel_le (body : CStr) : get_quotelevel body ≤ body.length := by
  unfold get_quotelevel
  exact (List.takeWhile_sublist _).length_le

theorem quotePadding_le (body : CStr) : quotePadding body ≤ body.length := by
  unfold quotePadding
  have hq := get_quotelevel_le body
  split
  · rename_i h
    by_contra hlt
    have : body.drop (get_quotelevel body) = [] := by
      apply List.drop_eq_nil_of_le
      omega
    rw [this] at h
    simp at h
  · exact hq

theorem get_quotelevel_append (body : CStr) (t : Nat) (ts : CStr) (ht : t ≠ 62) :
    get_quotelevel (body ++ t :: ts) = get_quotelevel body := by
  unfold get_quotelevel
  rw [takeWhile_append_stop _ t ts (by simpa using ht)]

theorem quotePadding_append (body : CStr) (t : Nat) (ts : CStr) (ht : t ≠ 62) (ht2 : t ≠ 32) :
    quotePadding (body ++ t :: ts) = quotePadding body := by
  unfold quotePadding
  rw [get_quotelevel_append body t ts ht]
  have hq := get_quotelevel_le body
  rw [List.drop_append_of_le_length hq]
  cases hd : body.drop (get_quotelevel body) with
  | nil => simp [ht2]
  | cons a as => simp

theorem drop_padding_append (body term : CStr) :
    (body ++ term).drop (quotePadding body) = flowedContent body ++ term := by
  unfold flowedContent
  exact List.drop_append_of_le_length (quotePadding_le body)

theorem flowedContent_nil_iff (body : CStr) :
    flowedContent body = [] ↔ quotePadding body = body.length := by
  unfold flowedContent
  have := quotePadding_le body
  rw [List.drop_eq_nil_iff]
  omega

theorem flowedContent_getLast (body : CStr) (h : flowedContent body ≠ []) :
    (flowedContent body).getLast? = body.getLast? := by
  unfold flowedContent at h ⊢
  have hs : body = body.take (quotePadding body) ++ body.drop (quotePadding body) :=
    (List.take_append_drop _ _).symm
  conv_rhs => rw [hs]
  rw [List.getLast?_append_of_ne_nil _ h]

theorem LineEnd_suffix (body term : CStr) (n : Nat) (h : LineEnd body term)
    (hne : body.drop n ≠ []) : LineEnd (body.drop n) term := by
  refine ⟨fun hm => h.1 (List.mem_of_mem_drop hm), ?_⟩
  rcases h.2 with ⟨h1, h2⟩ | h2
  · left
    refine ⟨h1, ?_⟩
    have hs : body = body.take n ++ body.drop n := (List.take_append_drop _ _).symm
    rw [hs, List.getLast?_append_of_ne_nil _ hne] at h2
    exact h2
  · right; exact h2

theorem hardlb_iff (c term : CStr) (h : LineEnd c term) :
    (c ++ term = [10] ∨ c ++ term = [13, 10]) ↔ c = [] := by
  constructor
  · intro hl
    rcases h.2 with ⟨rfl, h2⟩ | rfl
    · rcases c with _ | ⟨a, _ | ⟨b, r⟩⟩
      · rfl
      · simp at hl
        subst hl
        simp at h2
      · simp at hl
    · rcases c with _ | ⟨a, _ | ⟨b, r⟩⟩
      · rfl
      · simp at hl
      · simp at hl
  · rintro rfl
    rcases h.2 with ⟨rfl, _⟩ | rfl <;> simp

theorem is_sig_separator_iff (c term : CStr) (h : LineEnd c term) :
    is_sig_separator (c ++ term) = true ↔
      c = cstr "-- " ∨ (c = cstr "--" ∧ term = [10]) := by
  simp only [is_sig_separator, Bool.or_eq_true, beq_iff_eq]
  rcases h.2 with ⟨rfl, h2⟩ | rfl
  · rcases c with _ | ⟨a, _ | ⟨b, _ | ⟨d, _ | ⟨e, _ | ⟨f, r⟩⟩⟩⟩⟩ <;> simp [cstr] at h2 ⊢
    intro _ _ _ he
    exact h2 he
  · rcases c with _ | ⟨a, _ | ⟨b, _ | ⟨d, _ | ⟨e, _ | ⟨f, r⟩⟩⟩⟩⟩ <;> simp [cstr]

theorem eold_term (body term : CStr) (h : LineEnd body term) :
    strrchr (body ++ term) 10 = some [10] := by
  rcases h.2 with ⟨rfl, _⟩ | rfl
  · exact strrchr_last body [] 10 (by simp)
  · have : body ++ [13, 10] = (body ++ [13]) ++ 10 :: [] := by simp
    rw [this]
    exact strrchr_last _ [] 10 (by simp)

theorem drop_pred_head (body term : CStr) (hne : body ≠ []) :
    ((body ++ term).drop (body.length - 1)).head? = body.getLast? := by
  obtain ⟨init, a, rfl⟩ : ∃ init a, body = init ++ [a] :=
    ⟨_, _, (List.dropLast_append_getLast hne).symm⟩
  have h1 : (init ++ [a]).length - 1 = init.length := by simp
  rw [h1, List.append_assoc, List.drop_left]
  simp

theorem rfc3676_handler_line (ishardlb : CStr → Bool) (trim : CStr → CStr) (disable : Bool)
    (body term : CStr) (delsp : Bool) (quotelevel : Int) (flag : Bool)
    (hlb : ∀ l, ishardlb l = true ↔ l = [10] ∨ l = [13, 10])
    (hend : LineEnd body term) :
    ∃ r, rfc3676_handler ishardlb trim disable (body ++ term) delsp quotelevel flag = .done r ∧
      r.quotelevel = get_quotelevel body ∧
      (r.flowed = true ↔
        flowedContent body ≠ [] ∧ flowedContent body ≠ cstr "-- " ∧
          flowedContent body ≠ cstr "--" ∧ (flowedContent body).getLast? = some 32) ∧
      (flowedContent body = cstr "-- " ∨ (flowedContent body = cstr "--" ∧ term = [10]) →
        r.flowed = false ∧ r.continue_prev_flow_flag = false) := by
  obtain ⟨t, ts, rfl, ht62, ht32⟩ : ∃ t ts, term = t :: ts ∧ t ≠ 62 ∧ t ≠ 32 := by
    rcases hend.2 with ⟨rfl, _⟩ | rfl
    · exact ⟨10, [], rfl, by decide, by decide⟩
    · exact ⟨13, [10], rfl, by decide, by decide⟩
  have hq := get_quotelevel_append body t ts ht62
  have hp := quotePadding_append body t ts ht62 ht32
  have hdrop := drop_padding_append body (t :: ts)
  unfold rfc3676_handler
  simp only [hq, hp, hdrop]
  by_cases hb : body = []
  · -- the line is a bare line end
    have h1 : ishardlb (body ++ t :: ts) = true := (hlb _).2 ((hardlb_iff _ _ hend).2 hb)
    rw [if_pos h1]
    subst hb
    refine ⟨_, rfl, by simp [get_quotelevel], ?_, ?_⟩
    · simp [flowedContent]
    · simp [flowedContent, cstr]
  · have h1 : ¬ ishardlb (body ++ t :: ts) = true := fun h =>
      hb ((hardlb_iff _ _ hend).1 ((hlb _).1 h))
    rw [if_neg h1]
    by_cases hc : flowedContent body = []
    · have h2 : ishardlb (flowedContent body ++ t :: ts) = true := by
        rw [hc]
        exact (hlb _).2 ((hardlb_iff [] _ ⟨by simp, by
          rcases hend.2 with ⟨h, _⟩ | h
          · left; exact ⟨h, by simp⟩
          · right; exact h⟩).2 rfl)
      rw [if_pos h2]
      refine ⟨_, rfl, rfl, ?_, ?_⟩
      · simp [hc]
      · simp [hc, cstr]
    · have hendc : LineEnd (flowedContent body) (t :: ts) :=
        LineEnd_suffix body _ _ hend hc
      have h2 : ¬ ishardlb (flowedContent body ++ t :: ts) = true := fun h =>
        hc ((hardlb_iff _ _ hendc).1 ((hlb _).1 h))
      rw [if_neg h2]
      have hlast := flowedContent_getLast body hc
      by_cases hs : is_sig_separator (flowedContent body ++ t :: ts) = true
      · rw [if_pos hs]
        have hs2 := (is_sig_separator_iff _ _ hendc).1 hs
        refine ⟨_, rfl, rfl, ?_, ?_⟩
        · simp only [Bool.false_eq_true, false_iff, not_and]
          intro _ h3 h4
          rcases hs2 with h | ⟨h, _⟩
          · exact absurd h h3
          · exact absurd h h4
        · intro _; exact ⟨rfl, rfl⟩
      · rw [if_neg hs]
        have hs2 : ¬ (flowedContent body = cstr "-- " ∨
            (flowedContent body = cstr "--" ∧ t :: ts = [10])) := fun h =>
          hs ((is_sig_separator_iff _ _ hendc).2 h)
        rw [eold_term body _ hend]
        have hlen : (body ++ t :: ts).length - [10].length = body.length + ts.length := by
          simp
        have hbl : body.length ≠ 0 := by
          intro h; exact hb (List.length_eq_zero.mp h)
        have heold : (if (body ++ t :: ts).length - [10].length ≠ 0 ∧
            ((body ++ t :: ts).drop ((body ++ t :: ts).length - [10].length - 1)).head? = some 13
            then (body ++ t :: ts).length - [10].length - 1
            else (body ++ t :: ts).length - [10].length) = body.length := by
          rw [hlen]
          rcases hend.2 with ⟨h, h13⟩ | h
          · have hts : ts = [] := by simpa using (List.cons.inj h).2
            subst hts
            simp only [List.length_nil, Nat.add_zero]
            rw [drop_pred_head body _ hb, if_neg]
            simp [h13]
          · have hts : ts = [10] := (List.cons.inj h).2
            have ht : t = 13 := (List.cons.inj h).1
            subst hts; subst ht
            simp only [List.length_singleton, Nat.add_sub_cancel]
            rw [List.drop_left]
            simp
        simp only [heold]
        rw [drop_pred_head body _ hb]
        have hpad : quotePadding body ≠ body.length := fun h =>
          hc ((flowedContent_nil_iff body).2 h)
        by_cases h32 : body.getLast? = some 32
        · rw [if_pos ⟨hbl, hpad, h32⟩]
          refine ⟨_, rfl, rfl, ?_, ?_⟩
          · simp only [true_iff]
            refine ⟨hc, fun h => hs2 (Or.inl h), ?_, hlast.trans h32⟩
            intro h
            rw [h] at hlast
            rw [← hlast] at h32
            revert h32
            decide
          · intro h; exact absurd h hs2
        · rw [if_neg (fun h => h32 h.2.2)]
          refine ⟨_, rfl, rfl, ?_, ?_⟩
          · simp only [Bool.false_eq_true, false_iff, not_and]
            intro _ _ _
            rw [hlast]
            exact h32
          · intro h; exact absurd h hs2

/-- C32 at the line "--" CR LF with the flag set and quote level 0: the content
after quotes and stuffing is "--", yet the continue-previous-flow flag is
left set, because `is_sig_separator` knows "--" only before a lone LF. -/
theorem rfc3676_handler_dashes_crlf :
    flowedContent (cstr "--") = cstr "--" ∧
    rfc3676_handler sampleIshardlb id false (cstr "--\r\n") false 0 true =
      .done { flowed := false, line := cstr "--\r\n", quotelevel := 0,
              continue_prev_flow_flag := true } := by
  decide

/-- The amended claim C32: let `rfc3676_ishardlb` hold exactly for the lines LF and
CR LF, and let the line be `body` followed by its terminator (LF after a body
not ending in CR, or CR LF), `body` holding no LF.  Then `rfc3676_handler`
returns; the quote level it leaves is the number of leading '>'; it returns
TRUE exactly when the body after the quote marks and one stuffing space is
not empty, is neither "-- " nor "--", and ends in a space; and when that
content is "-- ", or is "--" before a lone LF, it returns FALSE and clears
the continue-previous-flow flag. -/
theorem rfc3676_handler_flowed (rfc3676_ishardlb : CStr → Bool)
    (rfc3676_trim_softlb : CStr → CStr) (set_format_flowed_disable_quoted : Bool)
    (body term : CStr) (delsp_flag : Bool) (quotelevel : Int) (continue_prev_flow_flag : Bool)
    (hlb : ∀ l, rfc3676_ishardlb l = true ↔ l = [10] ∨ l = [13, 10])
    (hend : LineEnd body term) :
    ∃ r, rfc3676_handler rfc3676_ishardlb rfc3676_trim_softlb set_format_flowed_disable_quoted
        (body ++ term) delsp_flag quotelevel continue_prev_flow_flag = .done r ∧
      r.quotelevel = get_quotelevel body ∧
      (r.flowed = true ↔
        flowedContent body ≠ [] ∧ flowedContent body ≠ cstr "-- " ∧
          flowedContent body ≠ cstr "--" ∧ (flowedContent body).getLast? = some 32) ∧
      (flowedContent body = cstr "-- " ∨ (flowedContent body = cstr "--" ∧ term = [10]) →
        r.flowed = false ∧ r.continue_prev_flow_flag = false) :=
  rfc3676_handler_line rfc3676_ishardlb rfc3676_trim_softlb set_format_flowed_disable_quoted
    body term delsp_flag quotelevel continue_prev_flow_flag hlb hend

/-- The amended claim C32 at the quoted line ">> flowed text " LF, previous quote
level 2. -/
theorem rfc3676_handler_flowed_witness :
    (∀ l, sampleIshardlb l = true ↔ l = [10] ∨ l = [13, 10]) ∧
    LineEnd (cstr ">> flowed text ") [10] ∧
    flowedContent (cstr ">> flowed text ") = cstr "flowed text " ∧
    ∃ r, rfc3676_handler sampleIshardlb id false (cstr ">> flowed text " ++ [10]) false 2 true =
        .done r ∧
      r.quotelevel = get_quotelevel (cstr ">> flowed text ") ∧
      (r.flowed = true ↔
        flowedContent (cstr ">> flowed text ") ≠ [] ∧
          flowedContent (cstr ">> flowed text ") ≠ cstr "-- " ∧
          flowedContent (cstr ">> flowed text ") ≠ cstr "--" ∧
          (flowedContent (cstr ">> flowed text ")).getLast? = some 32) ∧
      (flowedContent (cstr ">> flowed text ") = cstr "-- " ∨
          (flowedContent (cstr ">> flowed text ") = cstr "--" ∧ [10] = [10]) →
        r.flowed = false ∧ r.continue_prev_flow_flag = false) :=
  ⟨by simp [sampleIshardlb], by decide, by decide,
    rfc3676_handler_flowed sampleIshardlb id false (cstr ">> flowed text ") [10] false 2 true
      (by simp [sampleIshardlb]) (by decide)⟩

/-! ## `_unescape_reply_and_reference_values` -/

theorem strstr_suffix (needle : CStr) :
    ∀ (hay c : CStr), strstr hay needle = some c → ∃ pre, hay = pre ++ c := by
  intro hay
  induction hay with
  | nil =>
    intro c h
    unfold strstr at h
    split at h
    · simp only [Option.some.injEq] at h
      exact ⟨[], by simp [← h]⟩
    · simp at h
  | cons x xs ih =>
    intro c h
    unfold strstr at h
    split at h
    · simp only [Option.some.injEq] at h
      exact ⟨[], by simp [← h]⟩
    · obtain ⟨pre, hp⟩ := ih c h
      exact ⟨x :: pre, by simp [hp]⟩

theorem unescape_eval (pushEmpty : Option CStr) (line pre mid rest : CStr)
    (hline : line = pre ++ cstr " %3C" ++ mid ++ cstr "%3E" ++ rest)
    (h10 : line.head? ≠ some 10) (h13 : line.head? ≠ some 13)
    (hlt : strstr line (cstr " %3C") = some (cstr " %3C" ++ mid ++ cstr "%3E" ++ rest))
    (hgt : strstr line (cstr "%3E") = some (cstr "%3E" ++ rest)) :
    _unescape_reply_and_reference_values pushEmpty (some line) =
      if mid.any isspace then .done none
      else if rest.head?.any isspace then
        .done (some (pre ++ cstr " <" ++ mid ++ cstr ">" ++ rest))
      else .done none := by
  obtain ⟨c0, rest0, hc⟩ : ∃ c0 rest0, line = c0 :: rest0 := by
    cases line with
    | nil => simp [cstr] at hline
    | cons a b => exact ⟨a, b, rfl⟩
  have hlen : line.length = pre.length + 4 + mid.length + 3 + rest.length := by
    rw [hline]; simp [cstr]; omega
  have hc0 : ¬ (c0 = 10 ∨ c0 = 13) := by
    rw [hc] at h10 h13
    simp at h10 h13
    tauto
  subst hc
  simp only [_unescape_reply_and_reference_values, if_neg hc0, hlt, hgt]
  have e1 : (c0 :: rest0).length - (cstr " %3C" ++ mid ++ cstr "%3E" ++ rest).length
      = pre.length := by
    rw [hlen]; simp [cstr]; omega
  have e2 : (c0 :: rest0).length - (cstr "%3E" ++ rest).length = pre.length + 4 + mid.length := by
    rw [hlen]; simp [cstr]; omega
  rw [e1, e2]
  have e3 : ((cstr " %3C" ++ mid ++ cstr "%3E" ++ rest).drop 1).take
      (pre.length + 4 + mid.length - (pre.length + 1)) = cstr "%3C" ++ mid := by
    have : pre.length + 4 + mid.length - (pre.length + 1) = (cstr "%3C" ++ mid).length := by
      simp [cstr]; omega
    rw [this]
    have : (cstr " %3C" ++ mid ++ cstr "%3E" ++ rest).drop 1
        = (cstr "%3C" ++ mid) ++ (cstr "%3E" ++ rest) := by simp [cstr]
    rw [this, List.take_left]
  have e4 : (cstr "%3E" ++ rest).drop 3 = rest := by simp [cstr]
  have e5 : ((cstr " %3C" ++ mid ++ cstr "%3E" ++ rest).drop 4).take
      (pre.length + 4 + mid.length - pre.length - 4) = mid := by
    have : pre.length + 4 + mid.length - pre.length - 4 = mid.length := by omega
    rw [this]
    have : (cstr " %3C" ++ mid ++ cstr "%3E" ++ rest).drop 4 = mid ++ (cstr "%3E" ++ rest) := by
      simp [cstr]
    rw [this, List.take_left]
  have e6 : (c0 :: rest0).take (pre.length + 1) = pre ++ [32] := by
    rw [hline]
    have : pre ++ cstr " %3C" ++ mid ++ cstr "%3E" ++ rest
        = (pre ++ [32]) ++ (cstr "%3C" ++ mid ++ cstr "%3E" ++ rest) := by simp [cstr]
    rw [this]
    have hl : pre.length + 1 = (pre ++ [32]).length := by simp
    rw [hl, List.take_left]
  rw [e3, e4, e5, e6]
  have e7 : (cstr "%3C" ++ mid).any isspace = mid.any isspace := by
    rw [List.any_append]
    have : (cstr "%3C").any isspace = false := by decide
    rw [this]; simp
  rw [e7]
  by_cases hm : mid.any isspace = true
  · simp [hm]
  · simp only [hm, Bool.false_eq_true, if_false]
    cases rest with
    | nil => simp
    | cons w post =>
      simp only [List.head?_cons, Option.any_some]
      by_cases hw : isspace w = true
      · have : ¬ (pre.length + 4 + mid.length < pre.length + 4) := by omega
        simp only [hw, Bool.not_true, Bool.false_eq_true, if_false, if_true, this]
        rw [RETURN_PUSH_cons _ _ (by simp)]
        simp [cstr]
      · simp [hw]

theorem unescape_split (line lp gp : CStr)
    (hlt : strstr line (cstr " %3C") = some lp) (hgt : strstr line (cstr "%3E") = some gp)
    (hlen : gp.length + 4 ≤ lp.length) :
    ∃ pre mid rest, line = pre ++ cstr " %3C" ++ mid ++ cstr "%3E" ++ rest ∧
      lp = cstr " %3C" ++ mid ++ cstr "%3E" ++ rest ∧ gp = cstr "%3E" ++ rest := by
  obtain ⟨p1, h1⟩ := strstr_suffix _ _ _ hlt
  obtain ⟨p2, h2⟩ := strstr_suffix _ _ _ hgt
  have t1 := strstr_some_prefix _ _ _ hlt
  have t2 := strstr_some_prefix _ _ _ hgt
  have hl4 : (cstr " %3C").length = 4 := by decide
  have hl3 : (cstr "%3E").length = 3 := by decide
  rw [hl4] at t1
  rw [hl3] at t2
  have hgp : gp = cstr "%3E" ++ gp.drop 3 := by
    conv_lhs => rw [← List.take_append_drop 3 gp, t2]
  have hl : line.length = p1.length + lp.length := by rw [h1]; simp
  have hl2 : line.length = p2.length + gp.length := by rw [h2]; simp
  have hdrop : lp.drop (lp.length - gp.length) = gp := by
    have a1 : line.drop p2.length = gp := by rw [h2, List.drop_left]
    have a2 : line.drop p2.length = lp.drop (p2.length - p1.length) := by
      rw [h1, List.drop_append_eq_append_drop]
      have : p1.drop p2.length = [] := by
        apply List.drop_eq_nil_of_le; omega
      rw [this]; simp
    have a3 : p2.length - p1.length = lp.length - gp.length := by omega
    rw [a2, a3] at a1
    exact a1
  have hlp : lp = cstr " %3C" ++ (lp.drop 4).take (lp.length - gp.length - 4) ++ gp := by
    have b1 : lp = lp.take 4 ++ lp.drop 4 := (List.take_append_drop 4 lp).symm
    have b2 : lp.drop 4 = (lp.drop 4).take (lp.length - gp.length - 4) ++
        (lp.drop 4).drop (lp.length - gp.length - 4) := (List.take_append_drop _ _).symm
    have b3 : (lp.drop 4).drop (lp.length - gp.length - 4) = gp := by
      rw [List.drop_drop]
      have : lp.length - gp.length - 4 + 4 = lp.length - gp.length := by omega
      rw [Nat.add_comm] at this
      rw [this]; exact hdrop
    rw [b3] at b2
    rw [t1] at b1
    conv_lhs => rw [b1, b2]
    simp
  obtain ⟨mid, hmid⟩ : ∃ mid, lp = cstr " %3C" ++ mid ++ gp := ⟨_, hlp⟩
  obtain ⟨rest, hrest⟩ : ∃ rest, gp = cstr "%3E" ++ rest := ⟨_, hgp⟩
  refine ⟨p1, mid, rest, ?_, ?_, hrest⟩
  · rw [h1, hmid, hrest]
    simp
  · rw [hmid, hrest]
    simp

theorem unescape_other (pushEmpty : Option CStr) (line r : CStr)
    (h : _unescape_reply_and_reference_values pushEmpty (some line) = .done (some r)) :
    line.head? ≠ some 10 ∧ line.head? ≠ some 13 ∧
    ∃ lp gp, strstr line (cstr " %3C") = some lp ∧ strstr line (cstr "%3E") = some gp ∧
      gp.length + 4 ≤ lp.length := by
  cases line with
  | nil => simp [_unescape_reply_and_reference_values] at h
  | cons c0 rest0 =>
    simp only [_unescape_reply_and_reference_values] at h
    split at h
    · simp at h
    · rename_i hc0
      refine ⟨by simp; tauto, by simp; tauto, ?_⟩
      split at h
      · rename_i lp gp hlt hgt
        refine ⟨lp, gp, hlt, hgt, ?_⟩
        obtain ⟨p1, h1⟩ := strstr_suffix _ _ _ hlt
        obtain ⟨p2, h2⟩ := strstr_suffix _ _ _ hgt
        have hl : (c0 :: rest0).length = p1.length + lp.length := by rw [h1]; simp
        have hl2 : (c0 :: rest0).length = p2.length + gp.length := by rw [h2]; simp
        split at h
        · simp at h
        · split at h
          · simp at h
          · split at h
            · simp at h
            · split at h
              · simp at h
              · rename_i hnot
                omega
      · simp at h

theorem unescape_no_overlap (line lp gp : CStr)
    (hlt : strstr line (cstr " %3C") = some lp) (hgt : strstr line (cstr "%3E") = some gp)
    (h : lp.length < gp.length + 4) : lp.length < gp.length := by
  by_contra hge
  obtain ⟨p1, h1⟩ := strstr_suffix _ _ _ hlt
  obtain ⟨p2, h2⟩ := strstr_suffix _ _ _ hgt
  have t1 := strstr_some_prefix _ _ _ hlt
  have t2 := strstr_some_prefix _ _ _ hgt
  have hl4 : (cstr " %3C").length = 4 := by decide
  have hl3 : (cstr "%3E").length = 3 := by decide
  rw [hl4] at t1
  rw [hl3] at t2
  have hl : line.length = p1.length + lp.length := by rw [h1]; simp
  have hl2 : line.length = p2.length + gp.length := by rw [h2]; simp
  have hdrop : lp.drop (lp.length - gp.length) = gp := by
    have a1 : line.drop p2.length = gp := by rw [h2, List.drop_left]
    have a2 : line.drop p2.length = lp.drop (p2.length - p1.length) := by
      rw [h1, List.drop_append_eq_append_drop]
      have : p1.drop p2.length = [] := by
        apply List.drop_eq_nil_of_le; omega
      rw [this]; simp
    have a3 : p2.length - p1.length = lp.length - gp.length := by omega
    rw [a2, a3] at a1
    exact a1
  obtain ⟨k, hk, hk4⟩ : ∃ k, lp.length - gp.length = k ∧ k < 4 := ⟨_, rfl, by omega⟩
  rw [hk] at hdrop
  rcases lp with _ | ⟨a, _ | ⟨b, _ | ⟨c, _ | ⟨d, tl⟩⟩⟩⟩
  · simp [cstr] at t1
  · simp [cstr] at t1
  · simp [cstr] at t1
  · simp [cstr] at t1
  · simp [cstr] at t1
    obtain ⟨ha, hb, hc, hd⟩ := t1
    subst ha hb hc hd
    interval_cases k <;> simp at hdrop <;> subst hdrop <;> simp [cstr] at t2

theorem unescape_undefined (pushEmpty : Option CStr) (line : CStr) :
    (_unescape_reply_and_reference_values pushEmpty (some line) = .undefined →
      ∃ lp gp, strstr line (cstr " %3C") = some lp ∧ strstr line (cstr "%3E") = some gp ∧
        lp.length < gp.length) ∧
    _unescape_reply_and_reference_values pushEmpty (some line) ≠ .outOfFuel := by
  cases line with
  | nil => simp [_unescape_reply_and_reference_values]
  | cons c0 rest0 =>
    simp only [_unescape_reply_and_reference_values]
    split
    · simp
    · split
      · rename_i lp gp hlt hgt
        obtain ⟨p1, h1⟩ := strstr_suffix _ _ _ hlt
        obtain ⟨p2, h2⟩ := strstr_suffix _ _ _ hgt
        have hl : (c0 :: rest0).length = p1.length + lp.length := by rw [h1]; simp
        have hl2 : (c0 :: rest0).length = p2.length + gp.length := by rw [h2]; simp
        split
        · simp
        · split
          · simp
          · split
            · simp
            · split
              · rename_i hlt4
                refine ⟨fun _ => ⟨lp, gp, hlt, hgt, ?_⟩, by simp⟩
                exact unescape_no_overlap _ lp gp hlt hgt (by omega)
              · simp
      · simp

theorem unescape_result (pushEmpty : Option CStr) (line r : CStr) :
    _unescape_reply_and_reference_values pushEmpty (some line) = .done (some r) ↔
      ∃ pre mid w post,
        line = pre ++ cstr " %3C" ++ mid ++ cstr "%3E" ++ w :: post ∧
        line.head? ≠ some 10 ∧ line.head? ≠ some 13 ∧
        strstr line (cstr " %3C") = some (cstr " %3C" ++ mid ++ cstr "%3E" ++ w :: post) ∧
        strstr line (cstr "%3E") = some (cstr "%3E" ++ w :: post) ∧
        (∀ ch ∈ mid, isspace ch = false) ∧ isspace w = true ∧
        r = pre ++ cstr " <" ++ mid ++ cstr ">" ++ w :: post := by
  constructor
  · intro h
    obtain ⟨h10, h13, lp, gp, hlt, hgt, hlen⟩ := unescape_other pushEmpty line r h
    obtain ⟨pre, mid, rest, hline, hlp, hgp⟩ := unescape_split line lp gp hlt hgt hlen
    rw [hlp] at hlt
    rw [hgp] at hgt
    rw [unescape_eval pushEmpty line pre mid rest hline h10 h13 hlt hgt] at h
    by_cases hm : mid.any isspace = true
    · simp [hm] at h
    · simp only [hm, Bool.false_eq_true, if_false] at h
      cases rest with
      | nil => simp at h
      | cons w post =>
        simp only [List.head?_cons, Option.any_some] at h
        by_cases hw : isspace w = true
        · simp only [hw, if_true, Outcome.done.injEq, Option.some.injEq] at h
          refine ⟨pre, mid, w, post, hline, h10, h13, hlt, hgt, ?_, hw, h.symm⟩
          intro ch hch
          cases hs : isspace ch with
          | false => rfl
          | true =>
            exfalso
            apply hm
            rw [List.any_eq_true]
            exact ⟨ch, hch, hs⟩
        · simp [hw] at h
  · rintro ⟨pre, mid, w, post, hline, h10, h13, hlt, hgt, hmid, hw, hr⟩
    rw [unescape_eval pushEmpty line pre mid (w :: post) hline h10 h13 hlt hgt]
    have hm : mid.any isspace = false := by
      rw [List.any_eq_false]
      intro ch hch
      simp [hmid ch hch]
    simp [hm, hw, hr]

/-- C33 at the line "X:%3Ey %3Ca@b%3E" LF: the line holds " %3C", later "%3E" with no
whitespace between them and a line end after it, yet NULL is returned,
because the test is made on the first "%3E" of the line. -/
theorem unescape_uses_first_close :
    _unescape_reply_and_reference_values none (some (cstr "X:%3Ey %3Ca@b%3E\n")) = .done none ∧
    cstr "X:%3Ey %3Ca@b%3E\n" = cstr "X:%3Ey" ++ cstr " %3C" ++ cstr "a@b" ++ cstr "%3E" ++ [10] ∧
    (∀ ch ∈ cstr "a@b", isspace ch = false) ∧ isspace 10 = true := by
  decide

/-- The amended claim C33: `_unescape_reply_and_reference_values` returns a new
string `r` exactly when the line does not start with LF or CR, the first
" %3C" of the line comes before the first "%3E" of the line with no
whitespace between them, and whitespace follows that "%3E"; `r` is then
the line with that "%3C" replaced by '<' and that "%3E" by '>'.  The call
fails to return only when the first "%3E" comes before the first " %3C";
in every remaining case the result is NULL. -/
theorem unescape_first_pair (pushEmpty : Option CStr) (line : CStr) :
    (∀ r, _unescape_reply_and_reference_values pushEmpty (some line) = .done (some r) ↔
      ∃ pre mid w post,
        line = pre ++ cstr " %3C" ++ mid ++ cstr "%3E" ++ w :: post ∧
        line.head? ≠ some 10 ∧ line.head? ≠ some 13 ∧
        strstr line (cstr " %3C") = some (cstr " %3C" ++ mid ++ cstr "%3E" ++ w :: post) ∧
        strstr line (cstr "%3E") = some (cstr "%3E" ++ w :: post) ∧
        (∀ ch ∈ mid, isspace ch = false) ∧ isspace w = true ∧
        r = pre ++ cstr " <" ++ mid ++ cstr ">" ++ w :: post) ∧
    (_unescape_reply_and_reference_values pushEmpty (some line) = .undefined →
      ∃ lp gp, strstr line (cstr " %3C") = some lp ∧ strstr line (cstr "%3E") = some gp ∧
        lp.length < gp.length) ∧
    _unescape_reply_and_reference_values pushEmpty (some line) ≠ .outOfFuel ∧
    _unescape_reply_and_reference_values pushEmpty none = .done none :=
  ⟨unescape_result pushEmpty line, (unescape_undefined pushEmpty line).1,
    (unescape_undefined pushEmpty line).2, rfl⟩

/-- The amended claim C33 at the line "In-Reply-To: %3Ca@b%3E" LF: the result is
"In-Reply-To: <a@b>" LF, four characters shorter. -/
theorem unescape_first_pair_witness :
    _unescape_reply_and_reference_values none (some (cstr "In-Reply-To: %3Ca@b%3E\n")) =
      .done (some (cstr "In-Reply-To: <a@b>\n")) ∧
    (cstr "In-Reply-To: <a@b>\n").length + 4 = (cstr "In-Reply-To: %3Ca@b%3E\n").length :=
  ⟨((unescape_first_pair none (cstr "In-Reply-To: %3Ca@b%3E\n")).1
      (cstr "In-Reply-To: <a@b>\n")).2
    ⟨cstr "In-Reply-To:", cstr "a@b", 10, [], by decide, by decide, by decide, by decide,
      by decide, by decide, by decide, by decide⟩, by decide⟩

end Hypermail
